import Mathlib

/-!
# cpp-gradebook: the in-memory data model and its aggregation engine

A shallow embedding of `src/main.cpp`.

Conventions of the embedding:

* C++ `int` is `Int`.  Signed overflow is undefined behaviour in C++, so the
  embedding describes the executions in which every `int` stays in range.
* `std::string` is the list of its bytes (`CppString`), each byte a `Nat` below 256.
* `std::vector<T>` is `List T`; `push_back` appends at the end.
* `std::map<int, T>` is an association list kept in strictly ascending key order
  (`StdMap`), which is also the iteration order of the C++ container.
* `double` is `ℚ`: sums and quotients are exact.  The sentinel `-1.0` is `-1`.
* The console dialogue (`read_int`, `read_line`, ...) is not part of the embedding:
  an operation takes the values the dialogue hands to it as parameters, and what
  it prints is returned as a result value.
-/

namespace Gradebook

/-- A `std::string`: its bytes. -/
abbrev CppString := List Nat

/-- Record `struct Student`. -/
structure Student where
  id : Int
  name : CppString
  group_id : Int
  deriving DecidableEq, Repr

/-- Record `struct Group`. -/
structure Group where
  id : Int
  name : CppString
  deriving DecidableEq, Repr

/-- Record `struct Subject`. -/
structure Subject where
  id : Int
  name : CppString
  deriving DecidableEq, Repr

/-- Record `struct Grade`. -/
structure Grade where
  id : Int
  student_id : Int
  subject_id : Int
  value : Int
  attempt : Int
  deriving DecidableEq, Repr

/-- Record `struct DataStore`: the four collections and the four id counters. -/
structure DataStore where
  students : List Student
  groups : List Group
  subjects : List Subject
  grades : List Grade
  next_student_id : Int
  next_group_id : Int
  next_subject_id : Int
  next_grade_id : Int
  deriving DecidableEq, Repr

/-- The value-initialised `DataStore{}`: empty collections, every counter 1. -/
def DataStore.empty : DataStore :=
  { students := [], groups := [], subjects := [], grades := [],
    next_student_id := 1, next_group_id := 1, next_subject_id := 1, next_grade_id := 1 }

def kMinGrade : Int := 1

def kMaxGrade : Int := 5

/-! ## Lookups (`find_*`): linear scans returning the first record with the id -/

def find_student (data : DataStore) (id : Int) : Option Student :=
  data.students.find? (fun student => student.id == id)

def find_group (data : DataStore) (id : Int) : Option Group :=
  data.groups.find? (fun group => group.id == id)

def find_subject (data : DataStore) (id : Int) : Option Subject :=
  data.subjects.find? (fun subject => subject.id == id)

def find_grade (data : DataStore) (id : Int) : Option Grade :=
  data.grades.find? (fun grade => grade.id == id)

/-! ## Attempt tracker -/

/-- The loop body of `next_attempt` for one grade. -/
def next_attempt_step (student_id subject_id : Int) (attempt : Int) (grade : Grade) : Int :=
  if grade.student_id = student_id ∧ grade.subject_id = subject_id then
    max attempt (grade.attempt + 1)
  else attempt

/-- Function `next_attempt`: starts at 1 and scans all grades.  The sum is taken in
mathematical integers; `next_attempt_int32` takes it at the width of `int`, and the two
agree while the attempt numbers are below 2147483647. -/
def next_attempt (data : DataStore) (student_id subject_id : Int) : Int :=
  data.grades.foldl (next_attempt_step student_id subject_id) 1

/-! ## `std::map<int, T>` -/

/-- A `std::map<int, T>`: key-value pairs in ascending key order. -/
abbrev StdMap (β : Type) := List (Int × β)

/-- Member `std::map::find`, as an option. -/
def map_find {β : Type} (m : StdMap β) (k : Int) : Option β :=
  match m with
  | [] => none
  | (k', v) :: rest => if k = k' then some v else map_find rest k

/-- The statement `T& r = m[k]; r = f(r);`: `operator[]` inserts the value-initialised
`dflt` under `k` when the key is absent, at its place in key order. -/
def map_modify {β : Type} (dflt : β) (f : β → β) (k : Int) : StdMap β → StdMap β
  | [] => [(k, f dflt)]
  | (k', v) :: rest =>
    if k < k' then (k, f dflt) :: (k', v) :: rest
    else if k = k' then (k', f v) :: rest
    else (k', v) :: map_modify dflt f k rest

/-! ## Aggregation engine -/

/-- Record `struct SubjectAggregate`. -/
structure SubjectAggregate where
  sum : Int
  count : Int
  latest_grade_id : Int
  latest_value : Int
  latest_attempt : Int
  deriving DecidableEq, Repr

/-- The value-initialised `SubjectAggregate{}`. -/
def SubjectAggregate.zero : SubjectAggregate :=
  { sum := 0, count := 0, latest_grade_id := 0, latest_value := 0, latest_attempt := 0 }

/-- What the loop body of `subject_aggregates_for_student` does to `agg`. -/
def aggregate_add (grade : Grade) (agg : SubjectAggregate) : SubjectAggregate :=
  let agg1 := { agg with sum := agg.sum + grade.value, count := agg.count + 1 }
  if grade.id > agg1.latest_grade_id then
    { agg1 with latest_grade_id := grade.id, latest_value := grade.value,
                latest_attempt := grade.attempt }
  else agg1

/-- The loop body of `subject_aggregates_for_student` for one grade. -/
def subject_aggregates_step (student_id : Int) (aggregates : StdMap SubjectAggregate)
    (grade : Grade) : StdMap SubjectAggregate :=
  if grade.student_id ≠ student_id then aggregates
  else map_modify SubjectAggregate.zero (aggregate_add grade) grade.subject_id aggregates

/-- Function `subject_aggregates_for_student`. -/
def subject_aggregates_for_student (data : DataStore) (student_id : Int) :
    StdMap SubjectAggregate :=
  data.grades.foldl (subject_aggregates_step student_id) []

/-- The loop body of `average_subjects_for_student`: the pair `(sum, count)`. -/
def average_subjects_step (acc : ℚ × Int) (entry : Int × SubjectAggregate) : ℚ × Int :=
  if entry.2.count > 0 then
    (acc.1 + (entry.2.sum : ℚ) / (entry.2.count : ℚ), acc.2 + 1)
  else acc

/-- Function `average_subjects_for_student` in exact arithmetic: the value of the
expression before any rounding; `-1` is the "no value" sentinel.  The `double` that the
program computes is `average_subjects_for_student_double`. -/
def average_subjects_for_student (data : DataStore) (student_id : Int) : ℚ :=
  let aggregates := subject_aggregates_for_student data student_id
  if aggregates.isEmpty then -1
  else
    let r := aggregates.foldl average_subjects_step (0, 0)
    if r.2 = 0 then -1 else r.1 / (r.2 : ℚ)

/-! ## Rendering of averages -/

/-- The bytes of the string literal "нет" (UTF-8). -/
def kNone : CppString := [0xD0, 0xBD, 0xD0, 0xB5, 0xD1, 0x82]

/-- The bytes of the decimal digits of `n`. -/
def decimal_digits (n : Nat) : CppString := (Nat.toDigits 10 n).map Char.toNat

/-- Rounding to the nearest integer, ties to the even one. -/
def round_half_even (q : ℚ) : Int :=
  let f := Int.floor q
  let r := q - f
  if r < 1 / 2 then f
  else if 1 / 2 < r then f + 1
  else if f % 2 = 0 then f else f + 1

/-- What `out << std::fixed << std::setprecision(2) << value` writes for `value ≥ 0`:
the exact value of the `double`, rounded to two decimals (ties to even). -/
def format_fixed2 (value : ℚ) : CppString :=
  let n := (round_half_even (value * 100)).toNat
  decimal_digits (n / 100) ++ [0x2E] ++ decimal_digits (n % 100 / 10) ++ decimal_digits (n % 10)

/-- Function `format_avg`. -/
def format_avg (value : ℚ) : CppString :=
  if value < 0 then kNone else format_fixed2 value

/-! ## The arithmetic of the compiled program

The definitions above compute sums in mathematical integers and averages in exact
rational arithmetic.  The program computes in `int` (32 bits, two's complement) and in
`double` (IEEE 754 binary64, round to nearest, ties to even); the definitions of this
section and those marked `_int32` or `_double` below follow it to the bit.  A `double`
is modelled by the rational number it denotes. -/

/-- The value that an `int` computation stores for the exact result `x`: `x` reduced
modulo 2^32 into the range of `int`; a result within the range is stored as it is. -/
def wrap_int32 (x : Int) : Int := (x + 2147483648) % 4294967296 - 2147483648

/-- The loop of `binary_digits`: halves `n` until it is 0, counting the steps. -/
def binary_digits_core : Nat → Nat → Nat → Nat
  | 0, _, acc => acc
  | fuel + 1, n, acc => if n = 0 then acc else binary_digits_core fuel (n / 2) (acc + 1)

/-- The number of binary digits of `n` (0 for 0). -/
def binary_digits (n : Nat) : Nat := binary_digits_core n n 0

/-- The power `2 ^ e` for an integer exponent. -/
def pow2 (e : Int) : ℚ :=
  if 0 ≤ e then ((2 ^ e.toNat : Nat) : ℚ) else 1 / ((2 ^ (-e).toNat : Nat) : ℚ)

/-- The binary exponent of a non-zero rational `q`: the integer `e` with
`2 ^ e ≤ |q| < 2 ^ (e + 1)`.  The difference of the digit counts of numerator and
denominator is `e` or `e + 1`. -/
def binary_exponent (q : ℚ) : Int :=
  let e0 : Int := (binary_digits q.num.natAbs : Int) - (binary_digits q.den : Int)
  if pow2 e0 ≤ |q| then e0 else e0 - 1

/-- The `double` nearest to the exact result `q` of an operation, ties going to the even
significand: a `double` has 53 significant bits, so the doubles around `q` are the
multiples of `2 ^ (e - 52)` for the binary exponent `e` of `q` (for `e` below -1022,
the subnormal range, of `2 ^ (-1074)`).  No result of the program reaches the overflow
threshold `2 ^ 1024`. -/
def round_double (q : ℚ) : ℚ :=
  if q = 0 then 0
  else
    let ulp : ℚ := pow2 (max (binary_exponent q) (-1022) - 52)
    (round_half_even (q / ulp) : ℚ) * ulp

/-- What the loop body of `subject_aggregates_for_student` does to `agg`, the sums
`agg.sum += grade.value` and `agg.count += 1` evaluated in `int`. -/
def aggregate_add_int32 (grade : Grade) (agg : SubjectAggregate) : SubjectAggregate :=
  let agg1 := { agg with sum := wrap_int32 (agg.sum + grade.value),
                         count := wrap_int32 (agg.count + 1) }
  if grade.id > agg1.latest_grade_id then
    { agg1 with latest_grade_id := grade.id, latest_value := grade.value,
                latest_attempt := grade.attempt }
  else agg1

/-- The loop body of `subject_aggregates_for_student` with `int` arithmetic. -/
def subject_aggregates_step_int32 (student_id : Int) (aggregates : StdMap SubjectAggregate)
    (grade : Grade) : StdMap SubjectAggregate :=
  if grade.student_id ≠ student_id then aggregates
  else map_modify SubjectAggregate.zero (aggregate_add_int32 grade) grade.subject_id aggregates

/-- Function `subject_aggregates_for_student` with `int` arithmetic. -/
def subject_aggregates_for_student_int32 (data : DataStore) (student_id : Int) :
    StdMap SubjectAggregate :=
  data.grades.foldl (subject_aggregates_step_int32 student_id) []

/-- The loop body of `average_subjects_for_student` in `double` arithmetic: the
quotient is rounded, then the sum `sum += ...` is rounded.  The conversions
`static_cast<double>` of an `int` are exact. -/
def average_subjects_step_double (acc : ℚ × Int) (entry : Int × SubjectAggregate) : ℚ × Int :=
  if entry.2.count > 0 then
    (round_double (acc.1 + round_double ((entry.2.sum : ℚ) / (entry.2.count : ℚ))),
     wrap_int32 (acc.2 + 1))
  else acc

/-- Function `average_subjects_for_student` in the arithmetic of the program: `int`
sums and counts, `double` quotients and sum; `-1` is the "no value" sentinel. -/
def average_subjects_for_student_double (data : DataStore) (student_id : Int) : ℚ :=
  let aggregates := subject_aggregates_for_student_int32 data student_id
  if aggregates.isEmpty then -1
  else
    let r := aggregates.foldl average_subjects_step_double (0, 0)
    if r.2 = 0 then -1 else round_double (r.1 / (r.2 : ℚ))

/-! ## Mutating operations of the entity store

Each operation takes the values its console dialogue delivers as parameters and
returns the new store together with a `Report` of what it prints. -/

/-- What an operation reports to the operator. -/
inductive Report where
  /-- The collection is empty: nothing to edit or delete, nothing to attach a grade to. -/
  | collection_empty
  /-- No record has the requested id. -/
  | not_found
  /-- The operator answered 0 to an id prompt of `add_grade`. -/
  | cancelled
  /-- A record was created with this id. -/
  | created (id : Int)
  /-- A grade was created. -/
  | added (grade : Grade)
  /-- An edit went through; `changed` tells whether a field was modified. -/
  | updated (changed : Bool)
  /-- A delete went through; `affected` is the printed number of dependent records. -/
  | deleted (affected : Int)
  /-- A grade was deleted (no number is printed). -/
  | grade_deleted
  deriving DecidableEq, Repr

/-- Assignment through the pointer returned by a mutable `find_*`: the first element
satisfying `p` is replaced by its image under `f`. -/
def modify_first {α : Type} (p : α → Bool) (f : α → α) : List α → List α
  | [] => []
  | x :: xs => if p x then f x :: xs else x :: modify_first p f xs

/-- Function `create_student_record`. -/
def create_student_record (data : DataStore) (name : CppString) (group_id : Int) :
    DataStore × Int :=
  let student : Student := { id := data.next_student_id, name := name, group_id := group_id }
  ({ data with next_student_id := data.next_student_id + 1,
               students := data.students ++ [student] }, student.id)

/-- Function `create_group_record`. -/
def create_group_record (data : DataStore) (name : CppString) : DataStore × Int :=
  let group : Group := { id := data.next_group_id, name := name }
  ({ data with next_group_id := data.next_group_id + 1,
               groups := data.groups ++ [group] }, group.id)

/-- Function `add_subject`; `name` is the trimmed line read from the console. -/
def add_subject (data : DataStore) (name : CppString) : DataStore × Int :=
  let subject : Subject := { id := data.next_subject_id, name := name }
  ({ data with next_subject_id := data.next_subject_id + 1,
               subjects := data.subjects ++ [subject] }, subject.id)

/-- Function `add_grade`.  `student_id` and `subject_id` are the values returned by
`read_student_id_or_cancel` and `read_subject_id_or_cancel` (0 cancels), `value` the
one returned by `read_int`.  On an empty student or subject list the operator's
answer 0 ("do not create one now") is modelled; the answer 1 is `add_student` or
`add_subject` followed by `add_grade` on the then non-empty list. -/
def add_grade (data : DataStore) (student_id subject_id value : Int) : DataStore × Report :=
  if data.students.isEmpty then (data, Report.collection_empty)
  else if data.subjects.isEmpty then (data, Report.collection_empty)
  else if student_id = 0 then (data, Report.cancelled)
  else if subject_id = 0 then (data, Report.cancelled)
  else
    let grade : Grade :=
      { id := data.next_grade_id, student_id := student_id, subject_id := subject_id,
        value := value, attempt := next_attempt data student_id subject_id }
    ({ data with next_grade_id := data.next_grade_id + 1,
                 grades := data.grades ++ [grade] }, Report.added grade)

/-- The assignments of `edit_student` through the pointer `student`: `rename` and
`regroup` hold the new value of a field that is assigned, `none` for a field that is
left alone. -/
def student_edit (rename : Option CppString) (regroup : Option Int) (s : Student) : Student :=
  let s1 := match rename with
    | some n => { s with name := n }
    | none => s
  match regroup with
  | some g => { s1 with group_id := g }
  | none => s1

/-- The test `!new_name.empty() && new_name != current` of the edit operations. -/
def rename_to (new_name current : CppString) : Option CppString :=
  if !new_name.isEmpty && new_name != current then some new_name else none

/-- The group part of `edit_student`: asked only when there are groups; the field is
assigned when the answer differs from the current group. -/
def regroup_to (data : DataStore) (new_group : Option Int) (current : Int) : Option Int :=
  if data.groups.isEmpty then none
  else match new_group with
    | none => none
    | some g => if g != current then some g else none

/-- Function `edit_student`.  `new_name` is the trimmed line (empty keeps the name),
`new_group` the result of `read_group_id_optional` (`none` for an empty line). -/
def edit_student (data : DataStore) (id : Int) (new_name : CppString)
    (new_group : Option Int) : DataStore × Report :=
  if data.students.isEmpty then (data, Report.collection_empty)
  else
    match find_student data id with
    | none => (data, Report.not_found)
    | some student =>
      let rename := rename_to new_name student.name
      let regroup := regroup_to data new_group student.group_id
      ({ data with students :=
           modify_first (fun s => s.id == id) (student_edit rename regroup) data.students },
       Report.updated (rename.isSome || regroup.isSome))

/-- The assignment of `edit_group` through the pointer `group`. -/
def group_edit (rename : Option CppString) (g : Group) : Group :=
  match rename with
  | some n => { g with name := n }
  | none => g

/-- Function `edit_group`. -/
def edit_group (data : DataStore) (id : Int) (new_name : CppString) : DataStore × Report :=
  if data.groups.isEmpty then (data, Report.collection_empty)
  else
    match find_group data id with
    | none => (data, Report.not_found)
    | some group =>
      let rename := rename_to new_name group.name
      ({ data with groups := modify_first (fun g => g.id == id) (group_edit rename) data.groups },
       Report.updated rename.isSome)

/-- The assignment of `edit_subject` through the pointer `subject`. -/
def subject_edit (rename : Option CppString) (s : Subject) : Subject :=
  match rename with
  | some n => { s with name := n }
  | none => s

/-- Function `edit_subject`. -/
def edit_subject (data : DataStore) (id : Int) (new_name : CppString) : DataStore × Report :=
  if data.subjects.isEmpty then (data, Report.collection_empty)
  else
    match find_subject data id with
    | none => (data, Report.not_found)
    | some subject =>
      let rename := rename_to new_name subject.name
      ({ data with subjects :=
           modify_first (fun s => s.id == id) (subject_edit rename) data.subjects },
       Report.updated rename.isSome)

/-- The assignment of `edit_grade` through the pointer `grade`. -/
def grade_edit (revalue : Option Int) (g : Grade) : Grade :=
  match revalue with
  | some v => { g with value := v }
  | none => g

/-- The value part of `edit_grade`: the field is assigned when an answer was given and
differs from the current value. -/
def revalue_to (new_value : Option Int) (current : Int) : Option Int :=
  match new_value with
  | none => none
  | some v => if v != current then some v else none

/-- Function `edit_grade`.  `new_value` is the result of `read_int_optional`
(`none` for an empty line). -/
def edit_grade (data : DataStore) (id : Int) (new_value : Option Int) : DataStore × Report :=
  if data.grades.isEmpty then (data, Report.collection_empty)
  else
    match find_grade data id with
    | none => (data, Report.not_found)
    | some grade =>
      let revalue := revalue_to new_value grade.value
      ({ data with grades := modify_first (fun g => g.id == id) (grade_edit revalue) data.grades },
       Report.updated revalue.isSome)

/-- Function `delete_student`: `std::find_if` and `erase` drop the first student with
the id, `remove_if` and `erase` drop every grade of that student; the printed number is
the difference of the two sizes of the grade vector. -/
def delete_student (data : DataStore) (id : Int) : DataStore × Report :=
  if data.students.isEmpty then (data, Report.collection_empty)
  else if (data.students.find? (fun s => s.id == id)).isNone then (data, Report.not_found)
  else
    let students := data.students.eraseP (fun s => s.id == id)
    let before := data.grades.length
    let grades := data.grades.filter (fun g => !(g.student_id == id))
    let removed : Nat := before - grades.length
    ({ data with students := students, grades := grades }, Report.deleted removed)

/-- The loop body of `delete_group` for one student: the students rewritten so far
and the counter `updated`. -/
def delete_group_step (id : Int) (acc : List Student × Int) (student : Student) :
    List Student × Int :=
  if student.group_id = id then (acc.1 ++ [{ student with group_id := 0 }], acc.2 + 1)
  else (acc.1 ++ [student], acc.2)

/-- Function `delete_group`. -/
def delete_group (data : DataStore) (id : Int) : DataStore × Report :=
  if data.groups.isEmpty then (data, Report.collection_empty)
  else if (data.groups.find? (fun g => g.id == id)).isNone then (data, Report.not_found)
  else
    let groups := data.groups.eraseP (fun g => g.id == id)
    let r := data.students.foldl (delete_group_step id) ([], 0)
    ({ data with groups := groups, students := r.1 }, Report.deleted r.2)

/-- Function `delete_subject`. -/
def delete_subject (data : DataStore) (id : Int) : DataStore × Report :=
  if data.subjects.isEmpty then (data, Report.collection_empty)
  else if (data.subjects.find? (fun s => s.id == id)).isNone then (data, Report.not_found)
  else
    let subjects := data.subjects.eraseP (fun s => s.id == id)
    let before := data.grades.length
    let grades := data.grades.filter (fun g => !(g.subject_id == id))
    let removed : Nat := before - grades.length
    ({ data with subjects := subjects, grades := grades }, Report.deleted removed)

/-- Function `delete_grade`. -/
def delete_grade (data : DataStore) (id : Int) : DataStore × Report :=
  if data.grades.isEmpty then (data, Report.collection_empty)
  else if (data.grades.find? (fun g => g.id == id)).isNone then (data, Report.not_found)
  else ({ data with grades := data.grades.eraseP (fun g => g.id == id) }, Report.grade_deleted)

/-- One mutating operation of the core together with the values of its dialogue. -/
inductive Op where
  | create_student (name : CppString) (group_id : Int)
  | create_group (name : CppString)
  | add_subject (name : CppString)
  | add_grade (student_id subject_id value : Int)
  | edit_student (id : Int) (new_name : CppString) (new_group : Option Int)
  | edit_group (id : Int) (new_name : CppString)
  | edit_subject (id : Int) (new_name : CppString)
  | edit_grade (id : Int) (new_value : Option Int)
  | delete_student (id : Int)
  | delete_group (id : Int)
  | delete_subject (id : Int)
  | delete_grade (id : Int)
  deriving DecidableEq, Repr

/-- Runs one operation. -/
def exec (data : DataStore) : Op → DataStore × Report
  | Op.create_student name group_id =>
    let r := create_student_record data name group_id
    (r.1, Report.created r.2)
  | Op.create_group name =>
    let r := create_group_record data name
    (r.1, Report.created r.2)
  | Op.add_subject name =>
    let r := add_subject data name
    (r.1, Report.created r.2)
  | Op.add_grade student_id subject_id value => add_grade data student_id subject_id value
  | Op.edit_student id new_name new_group => edit_student data id new_name new_group
  | Op.edit_group id new_name => edit_group data id new_name
  | Op.edit_subject id new_name => edit_subject data id new_name
  | Op.edit_grade id new_value => edit_grade data id new_value
  | Op.delete_student id => delete_student data id
  | Op.delete_group id => delete_group data id
  | Op.delete_subject id => delete_subject data id
  | Op.delete_grade id => delete_grade data id

/-- Runs a sequence of operations, collecting the reports in order. -/
def run (data : DataStore) : List Op → DataStore × List Report
  | [] => (data, [])
  | op :: ops =>
    let r := exec data op
    let rest := run r.1 ops
    (rest.1, r.2 :: rest.2)

/-! ## Vocabulary of the specification -/

/-- The grades of the pair `(student_id, subject_id)`, in the order of the grade list. -/
def pair_grades (data : DataStore) (student_id subject_id : Int) : List Grade :=
  data.grades.filter (fun g => g.student_id == student_id && g.subject_id == subject_id)

/-- The grades of one student, in the order of the grade list. -/
def student_grades (data : DataStore) (student_id : Int) : List Grade :=
  data.grades.filter (fun g => g.student_id == student_id)

/-- The distinct subjects in which the student has a grade. -/
def graded_subjects (data : DataStore) (student_id : Int) : List Int :=
  ((student_grades data student_id).map Grade.subject_id).dedup

/-- The mean of the student's grade values in one subject: their sum divided by
their number. -/
def subject_mean (data : DataStore) (student_id subject_id : Int) : ℚ :=
  (((pair_grades data student_id subject_id).map Grade.value).sum : ℚ) /
    ((pair_grades data student_id subject_id).length : ℚ)

/-- The arithmetic mean of the subject means over the distinct graded subjects. -/
def mean_of_subject_means (data : DataStore) (student_id : Int) : ℚ :=
  ((graded_subjects data student_id).map (subject_mean data student_id)).sum /
    ((graded_subjects data student_id).length : ℚ)

/-- The flat mean of all grade values of a student. -/
def flat_mean (data : DataStore) (student_id : Int) : ℚ :=
  (((student_grades data student_id).map Grade.value).sum : ℚ) /
    ((student_grades data student_id).length : ℚ)

/-- Store of the worked example: student 1 has grades 2 and 4 in subject 1
(attempts 1, 2) and grade 5 in subject 2. -/
def example_store : DataStore :=
  { students := [{ id := 1, name := [0x53], group_id := 0 }],
    groups := [],
    subjects := [{ id := 1, name := [0x41] }, { id := 2, name := [0x42] }],
    grades := [{ id := 1, student_id := 1, subject_id := 1, value := 2, attempt := 1 },
               { id := 2, student_id := 1, subject_id := 2, value := 5, attempt := 1 },
               { id := 3, student_id := 1, subject_id := 1, value := 4, attempt := 2 }],
    next_student_id := 2, next_group_id := 1, next_subject_id := 3, next_grade_id := 4 }

/-- Store with a gap in the attempt numbers of the pair (1, 1): attempts 1 and 3. -/
def gap_store : DataStore :=
  { example_store with
    grades := [{ id := 1, student_id := 1, subject_id := 1, value := 2, attempt := 1 },
               { id := 2, student_id := 1, subject_id := 2, value := 5, attempt := 7 },
               { id := 3, student_id := 1, subject_id := 1, value := 4, attempt := 3 }] }

/-- Store with two groups: students 1 and 3 belong to group 1, student 2 to group 2,
student 4 to no group; student 1 has a grade. -/
def group_store : DataStore :=
  { students := [{ id := 1, name := [0x41], group_id := 1 },
                 { id := 2, name := [0x42], group_id := 2 },
                 { id := 3, name := [0x43], group_id := 1 },
                 { id := 4, name := [0x44], group_id := 0 }],
    groups := [{ id := 1, name := [0x47] }, { id := 2, name := [0x48] }],
    subjects := [{ id := 1, name := [0x4D] }],
    grades := [{ id := 1, student_id := 1, subject_id := 1, value := 5, attempt := 1 }],
    next_student_id := 5, next_group_id := 3, next_subject_id := 2, next_grade_id := 2 }

/-- Referential integrity: every grade names an existing student and an existing
subject, and every non-zero `group_id` of a student names an existing group. -/
def referential_integrity (data : DataStore) : Prop :=
  (∀ g ∈ data.grades, g.student_id ∈ data.students.map Student.id ∧
    g.subject_id ∈ data.subjects.map Subject.id) ∧
  (∀ st ∈ data.students, st.group_id ≠ 0 → st.group_id ∈ data.groups.map Group.id)

instance (data : DataStore) : Decidable (referential_integrity data) := by
  unfold referential_integrity
  infer_instance

/-- The answers the console dialogue of an operation can deliver in the store `data`:
`read_group_for_new_student` and `read_group_id_optional` return 0 or the id of an
existing group, `read_student_id_or_cancel` and `read_subject_id_or_cancel` return 0 or
the id of an existing record. -/
def dialogue_ok (data : DataStore) : Op → Prop
  | Op.create_student _ group_id => group_id = 0 ∨ group_id ∈ data.groups.map Group.id
  | Op.add_grade student_id subject_id _ =>
    (student_id = 0 ∨ student_id ∈ data.students.map Student.id) ∧
    (subject_id = 0 ∨ subject_id ∈ data.subjects.map Subject.id)
  | Op.edit_student _ _ (some g) => g = 0 ∨ g ∈ data.groups.map Group.id
  | _ => True

/-- The operation `add_grade` for a request `(student_id, subject_id, value)`. -/
def add_grade_op (r : Int × Int × Int) : Op := Op.add_grade r.1 r.2.1 r.2.2

/-- The grades created during a run, in creation order. -/
def created_grades : List Report → List Grade
  | [] => []
  | Report.added g :: rs => g :: created_grades rs
  | _ :: rs => created_grades rs

/-- The grades created during a run for the pair `(student_id, subject_id)`, in
creation order. -/
def created_for_pair (rs : List Report) (student_id subject_id : Int) : List Grade :=
  (created_grades rs).filter (fun g => g.student_id == student_id && g.subject_id == subject_id)

/-- The four collections of the store. -/
inductive Kind where
  | student
  | group
  | subject
  | grade
  deriving DecidableEq, Repr

/-- The ids held by a collection, in the order of its records. -/
def ids_of (k : Kind) (data : DataStore) : List Int :=
  match k with
  | Kind.student => data.students.map Student.id
  | Kind.group => data.groups.map Group.id
  | Kind.subject => data.subjects.map Subject.id
  | Kind.grade => data.grades.map Grade.id

/-- The next-id counter of a collection. -/
def counter_of (k : Kind) (data : DataStore) : Int :=
  match k with
  | Kind.student => data.next_student_id
  | Kind.group => data.next_group_id
  | Kind.subject => data.next_subject_id
  | Kind.grade => data.next_grade_id

/-- The id that an operation assigned, with its collection, read off its report. -/
def assigned_id : Op → Report → Option (Kind × Int)
  | Op.create_student _ _, Report.created x => some (Kind.student, x)
  | Op.create_group _, Report.created x => some (Kind.group, x)
  | Op.add_subject _, Report.created x => some (Kind.subject, x)
  | Op.add_grade _ _ _, Report.added g => some (Kind.grade, g.id)
  | _, _ => none

/-- Every id of a collection is positive and smaller than the collection's counter. -/
def ids_below_counters (data : DataStore) : Prop :=
  ∀ k, ∀ x ∈ ids_of k data, 0 < x ∧ x < counter_of k data

/-- Every next-id counter is at least 1. -/
def counters_positive (data : DataStore) : Prop :=
  ∀ k, 0 < counter_of k data

/-- What one operation does to the ids and the counter of a collection: either the
counter stays and the ids that remain are a sublist of the old ones, in which case no
id is assigned in this collection, or the counter value is assigned, appended to the
ids, and the counter moves up by one. -/
def id_step (k : Kind) (d d1 : DataStore) (a : Option (Kind × Int)) : Prop :=
  ((ids_of k d1).Sublist (ids_of k d) ∧ counter_of k d1 = counter_of k d ∧
    ∀ x, a ≠ some (k, x)) ∨
  (ids_of k d1 = ids_of k d ++ [counter_of k d] ∧ counter_of k d1 = counter_of k d + 1 ∧
    a = some (k, counter_of k d))

/-! ## Text helpers -/

/-- The bytes of a string literal of the source (UTF-8). -/
def bytes_of (s : String) : CppString :=
  (s.data.flatMap String.utf8EncodeChar).map UInt8.toNat

/-- Function `std::isspace` in the "C" locale (the program never changes the locale):
space, tab, line feed, vertical tab, form feed, carriage return. -/
def is_space (c : Nat) : Bool := c == 32 || (9 ≤ c && c ≤ 13)

/-- Function `trim`: drops the white space at both ends. -/
def trim (input : CppString) : CppString :=
  ((input.dropWhile is_space).reverse.dropWhile is_space).reverse

/-- Function `std::tolower` on an `unsigned char` in the "C" locale. -/
def to_lower_byte (c : Nat) : Nat := if 65 ≤ c ∧ c ≤ 90 then c + 32 else c

/-- Function `to_lower_ascii`. -/
def to_lower_ascii (input : CppString) : CppString := input.map to_lower_byte

/-- The test `hay.find(needle) != std::string::npos`: `needle` occurs in `hay` as a
contiguous block. -/
def str_contains (hay needle : CppString) : Bool := decide (needle <:+: hay)

/-- The comparison `a < b` of two `std::string`s: lexicographic on the bytes, a proper
initial part being smaller. -/
def string_lt : CppString → CppString → Bool
  | _, [] => false
  | [], _ :: _ => true
  | a :: as, b :: bs => if a < b then true else if b < a then false else string_lt as bs

/-! ## Filter and sort engine -/

/-- Record `struct StudentResult`; the pointer is modelled by the student record. -/
structure StudentResult where
  student : Student
  avg : ℚ
  deriving DecidableEq, Repr

/-- The loop body of `filter_students`; `name_query_lower` is computed before the loop. -/
def filter_students_step (data : DataStore) (group_filter : Int) (name_query_lower : CppString)
    (use_min_avg : Bool) (min_avg : ℚ) (results : List StudentResult) (student : Student) :
    List StudentResult :=
  if group_filter = -1 ∧ student.group_id ≠ 0 then results
  else if group_filter > 0 ∧ student.group_id ≠ group_filter then results
  else if !name_query_lower.isEmpty ∧
      !(str_contains (to_lower_ascii student.name) name_query_lower) then results
  else
    let avg := average_subjects_for_student data student.id
    if use_min_avg ∧ (avg < 0 ∨ avg < min_avg) then results
    else results ++ [{ student := student, avg := avg }]

/-- Function `filter_students` with the averages in exact arithmetic; with the averages
as the program computes them it is `filter_students_double`. -/
def filter_students (data : DataStore) (group_filter : Int) (name_query : CppString)
    (use_min_avg : Bool) (min_avg : ℚ) : List StudentResult :=
  let name_query_lower := to_lower_ascii (trim name_query)
  data.students.foldl
    (filter_students_step data group_filter name_query_lower use_min_avg min_avg) []

/-- The loop body of `filter_students` in the arithmetic of the program: `avg` is the
`double` returned by `average_subjects_for_student`. -/
def filter_students_step_double (data : DataStore) (group_filter : Int)
    (name_query_lower : CppString) (use_min_avg : Bool) (min_avg : ℚ)
    (results : List StudentResult) (student : Student) : List StudentResult :=
  if group_filter = -1 ∧ student.group_id ≠ 0 then results
  else if group_filter > 0 ∧ student.group_id ≠ group_filter then results
  else if !name_query_lower.isEmpty ∧
      !(str_contains (to_lower_ascii student.name) name_query_lower) then results
  else
    let avg := average_subjects_for_student_double data student.id
    if use_min_avg ∧ (avg < 0 ∨ avg < min_avg) then results
    else results ++ [{ student := student, avg := avg }]

/-- Function `filter_students` in the arithmetic of the program. -/
def filter_students_double (data : DataStore) (group_filter : Int) (name_query : CppString)
    (use_min_avg : Bool) (min_avg : ℚ) : List StudentResult :=
  let name_query_lower := to_lower_ascii (trim name_query)
  data.students.foldl
    (filter_students_step_double data group_filter name_query_lower use_min_avg min_avg) []

/-- The three conditions of the filter in the words of the specification, for the
query text `query`: group filter, substring match on the lowercased name, and minimum
on a defined overall average, the average being the `double` that the program
computes. -/
def filter_conditions (data : DataStore) (f : Int) (query : CppString) (use_min : Bool)
    (m : ℚ) (st : Student) : Prop :=
  (f = 0 ∨ (f = -1 ∧ st.group_id = 0) ∨ (0 < f ∧ st.group_id = f)) ∧
  (to_lower_ascii query <:+: to_lower_ascii st.name) ∧
  (use_min = true →
    (∃ g ∈ data.grades, g.student_id = st.id) ∧
      m ≤ average_subjects_for_student_double data st.id)

instance (data : DataStore) (f : Int) (query : CppString) (use_min : Bool) (m : ℚ)
    (st : Student) : Decidable (filter_conditions data f query use_min m st) := by
  unfold filter_conditions
  infer_instance

/-- The students that satisfy the three conditions, in the order of the student list,
each with the overall average. -/
def filter_expected (data : DataStore) (f : Int) (query : CppString) (use_min : Bool)
    (m : ℚ) : List StudentResult :=
  (data.students.filter (fun st => decide (filter_conditions data f query use_min m st))).map
    (fun st => { student := st, avg := average_subjects_for_student_double data st.id })

/-- Store with one student named "ba" and no grades. -/
def query_store : DataStore :=
  { DataStore.empty with
    students := [{ id := 1, name := [0x62, 0x61], group_id := 0 }], next_student_id := 2 }

/-- Store whose only grade has the negative value -3 (student 1, subject 1). -/
def negative_store : DataStore :=
  { DataStore.empty with
    students := [{ id := 1, name := [0x62, 0x61], group_id := 0 }],
    subjects := [{ id := 1, name := [0x4D] }],
    grades := [{ id := 1, student_id := 1, subject_id := 1, value := -3, attempt := 1 }],
    next_student_id := 2, next_subject_id := 2, next_grade_id := 2 }

/-- Store whose student has two grades of value 2147483647 in one subject: their sum
does not fit an `int`. -/
def overflow_store : DataStore :=
  { DataStore.empty with
    students := [{ id := 1, name := [0x62, 0x61], group_id := 0 }],
    subjects := [{ id := 1, name := [0x4D] }],
    grades := [{ id := 1, student_id := 1, subject_id := 1, value := 2147483647, attempt := 1 },
               { id := 2, student_id := 1, subject_id := 1, value := 2147483647,
                 attempt := 2 }],
    next_student_id := 2, next_subject_id := 2, next_grade_id := 3 }

/-- Store with two groups and four students.  Student 1 (group 1) has the grades 4 in
subject 1, 4, 4, 5 in subject 2 and 3, 4, 4 in subject 3: the subject means 4, 13/3 and
11/3 have the mean 4, and the `double` computation yields 3.9999999999999996.  Student
2 (group 1) and student 3 (group 2) have one grade 5, student 4 (group 1) has none. -/
def threshold_store : DataStore :=
  { students := [{ id := 1, name := [0x61], group_id := 1 },
                 { id := 2, name := [0x62], group_id := 1 },
                 { id := 3, name := [0x63], group_id := 2 },
                 { id := 4, name := [0x64], group_id := 1 }],
    groups := [{ id := 1, name := [0x47] }, { id := 2, name := [0x48] }],
    subjects := [{ id := 1, name := [0x41] }, { id := 2, name := [0x42] },
                 { id := 3, name := [0x43] }],
    grades := [{ id := 1, student_id := 1, subject_id := 1, value := 4, attempt := 1 },
               { id := 2, student_id := 1, subject_id := 2, value := 4, attempt := 1 },
               { id := 3, student_id := 1, subject_id := 2, value := 4, attempt := 2 },
               { id := 4, student_id := 1, subject_id := 2, value := 5, attempt := 3 },
               { id := 5, student_id := 1, subject_id := 3, value := 3, attempt := 1 },
               { id := 6, student_id := 1, subject_id := 3, value := 4, attempt := 2 },
               { id := 7, student_id := 1, subject_id := 3, value := 4, attempt := 3 },
               { id := 8, student_id := 2, subject_id := 1, value := 5, attempt := 1 },
               { id := 9, student_id := 3, subject_id := 1, value := 5, attempt := 1 }],
    next_student_id := 5, next_group_id := 3, next_subject_id := 4, next_grade_id := 10 }

/-- Store in which the pair (1, 1) has 40 grades, three of value 2 and 37 of value 1,
with the attempts 1 to 40: their average is 43/40 = 1.075, and the nearest `double` is
a little below it. -/
def forty_store : DataStore :=
  { DataStore.empty with
    students := [{ id := 1, name := [0x53], group_id := 0 }],
    subjects := [{ id := 1, name := [0x41] }],
    grades := (List.range 40).map (fun i =>
      { id := (i : Int) + 1, student_id := 1, subject_id := 1,
        value := if i < 3 then 2 else 1, attempt := (i : Int) + 1 }),
    next_student_id := 2, next_subject_id := 2, next_grade_id := 41 }

/-- The insertion step of `std_sort`: `x` goes before the first element that it
precedes. -/
def sort_insert {α : Type} (comp : α → α → Bool) (x : α) : List α → List α
  | [] => [x]
  | y :: ys => if comp x y then x :: y :: ys else y :: sort_insert comp x ys

/-- The call `std::sort(v.begin(), v.end(), comp)`.  The standard leaves the algorithm
open and only promises a permutation of the input in which no element precedes an
earlier one; the embedding sorts by insertion.  Where `comp` is a strict total order on
the elements, that permutation is unique, so every implementation returns this list. -/
def std_sort {α : Type} (comp : α → α → Bool) : List α → List α
  | [] => []
  | x :: xs => sort_insert comp x (std_sort comp xs)

/-- The lambda `cmp_asc` of `students_search_menu`. -/
def cmp_asc (sort_key : Int) (a b : StudentResult) : Bool :=
  if sort_key = 1 then decide (a.student.id < b.student.id)
  else if sort_key = 2 then
    let a_name := to_lower_ascii a.student.name
    let b_name := to_lower_ascii b.student.name
    if a_name ≠ b_name then string_lt a_name b_name
    else decide (a.student.id < b.student.id)
  else if a.avg ≠ b.avg then decide (a.avg < b.avg)
  else decide (a.student.id < b.student.id)

/-- The comparator handed to `std::sort` in `students_search_menu`. -/
def search_cmp (sort_key : Int) (asc : Bool) (a b : StudentResult) : Bool :=
  if asc then cmp_asc sort_key a b else cmp_asc sort_key b a

/-- Function `students_search_menu`: the answers of the dialogue are parameters, the
result is the list of the printed rows (empty when there are no students). -/
def students_search_menu (data : DataStore) (group_filter : Int) (name_query : CppString)
    (use_min_avg : Bool) (min_avg : ℚ) (sort_key sort_order : Int) : List StudentResult :=
  if data.students.isEmpty then []
  else
    let asc : Bool := sort_order == 1
    std_sort (search_cmp sort_key asc)
      (filter_students data group_filter name_query use_min_avg min_avg)

/-- A result set with equal names and equal averages: only the ids differ. -/
def tie_results : List StudentResult :=
  [{ student := { id := 3, name := [0x41], group_id := 0 }, avg := 4 },
   { student := { id := 1, name := [0x61], group_id := 0 }, avg := 4 },
   { student := { id := 2, name := [0x41], group_id := 0 }, avg := 4 }]

/-- A key compared by a strict total order, ties broken by the id. -/
def lex_by {α K : Type} (ltK : K → K → Prop) (key : α → K) (ident : α → Int) (a b : α) : Prop :=
  (key a ≠ key b ∧ ltK (key a) (key b)) ∨ (key a = key b ∧ ident a < ident b)

/-! ## Tabular renderer -/

/-- The test `(c & 0xC0) != 0x80` of `utf8_length` and `utf8_truncate`: the byte is
not a UTF-8 continuation byte, so it starts a character. -/
def starts_char (c : Nat) : Bool := (c &&& 0xC0) != 0x80

/-- Function `utf8_length`. -/
def utf8_length (text : CppString) : Nat :=
  text.foldl (fun count c => if starts_char c then count + 1 else count) 0

/-- The loop of `utf8_truncate` from position `i` with `count` characters seen, over
the rest of the text: the position at which the loop ends. -/
def utf8_truncate_index (max_chars : Nat) : CppString → Nat → Nat → Nat
  | [], _, i => i
  | c :: rest, count, i =>
    if starts_char c then
      if count = max_chars then i
      else utf8_truncate_index max_chars rest (count + 1) (i + 1)
    else utf8_truncate_index max_chars rest count (i + 1)

/-- Function `utf8_truncate`: `text.substr(0, i)` for the end position of the loop. -/
def utf8_truncate (text : CppString) (max_chars : Nat) : CppString :=
  if max_chars = 0 then []
  else text.take (utf8_truncate_index max_chars text 0 0)

/-- The bytes of the string literal "...". -/
def kEllipsis : CppString := [0x2E, 0x2E, 0x2E]

/-- Function `fit_cell`. -/
def fit_cell (text : CppString) (width : Nat) : CppString :=
  if utf8_length text ≤ width then text
  else if width ≤ 3 then utf8_truncate text width
  else utf8_truncate text (width - 3) ++ kEllipsis

/-- Function `pad_right_utf8`. -/
def pad_right_utf8 (text : CppString) (width : Nat) : CppString :=
  let len := utf8_length text
  if len ≥ width then text else text ++ List.replicate (width - len) 0x20

/-- Function `pad_left_utf8`. -/
def pad_left_utf8 (text : CppString) (width : Nat) : CppString :=
  let len := utf8_length text
  if len ≥ width then text else List.replicate (width - len) 0x20 ++ text

/-- The width used by `print_table_row` and `print_table_line` for a column: a width
below 1 counts as 1. -/
def column_width (w : Int) : Nat := if w < 1 then 1 else w.toNat

/-- The cell computed by the loop body of `print_table_row` for one column: `col` is
`cols[i]` when the row has an `i`-th cell, `right` is `i < align_right.size() &&
align_right[i]`. -/
def table_cell (col : Option CppString) (w : Int) (right : Bool) : CppString :=
  let width := column_width w
  let cell := match col with
    | some text => fit_cell text width
    | none => []
  if right then pad_left_utf8 cell width else pad_right_utf8 cell width

/-- Function `print_table_row`: the bytes written to the output. -/
def print_table_row (cols : List CppString) (widths : List Int) (align_right : List Bool) :
    CppString :=
  (widths.mapIdx (fun i w =>
      [0x7C, 0x20] ++ table_cell cols[i]? w (align_right[i]?.getD false) ++ [0x20])).flatten
    ++ [0x7C, 0x0A]

/-- The UTF-8 encoding of a sequence of Unicode code points. -/
def utf8_encode (cs : List Char) : CppString :=
  (cs.flatMap String.utf8EncodeChar).map UInt8.toNat

/-! ## Journal builder -/

/-- Function `std::to_string` on an `int`. -/
def to_string (n : Int) : CppString :=
  if n < 0 then [0x2D] ++ decimal_digits n.natAbs else decimal_digits n.toNat

/-- The loop body of `join_grades`: the text written so far and the position. -/
def join_grades_step (out : CppString × Nat) (value : Int) : CppString × Nat :=
  ((if out.2 > 0 then out.1 ++ [0x2C, 0x20] else out.1) ++ to_string value, out.2 + 1)

/-- Function `join_grades`. -/
def join_grades (values : List Int) : CppString :=
  (values.foldl join_grades_step ([], 0)).1

/-- Function `average_from_values` in the arithmetic of the program: the sum is
accumulated in `int`, the quotient is a `double`; the conversions of the sum and of
`values.size()` to `double` are exact. -/
def average_from_values (values : List Int) : ℚ :=
  if values.isEmpty then -1
  else round_double
    (((values.foldl (fun sum value => wrap_int32 (sum + value)) 0 : Int) : ℚ) /
      (values.length : ℚ))

/-- The comparator `a.attempt < b.attempt` of the journal functions. -/
def attempt_lt (a b : Grade) : Bool := decide (a.attempt < b.attempt)

/-- Function `grades_for_student_subject`. -/
def grades_for_student_subject (data : DataStore) (student_id subject_id : Int) : List Int :=
  let grades := data.grades.filter
    (fun grade => grade.student_id == student_id && grade.subject_id == subject_id)
  (std_sort attempt_lt grades).map Grade.value

/-- The first loop body of `grades_by_subject_for_student`. -/
def by_subject_step (student_id : Int) (by_subject : StdMap (List Grade)) (grade : Grade) :
    StdMap (List Grade) :=
  if grade.student_id = student_id then
    map_modify [] (fun grades => grades ++ [grade]) grade.subject_id by_subject
  else by_subject

/-- The second loop body of `grades_by_subject_for_student`. -/
def by_subject_values_step (result : StdMap (List Int)) (entry : Int × List Grade) :
    StdMap (List Int) :=
  let values := (std_sort attempt_lt entry.2).map Grade.value
  map_modify [] (fun _ => values) entry.1 result

/-- Function `grades_by_subject_for_student`. -/
def grades_by_subject_for_student (data : DataStore) (student_id : Int) : StdMap (List Int) :=
  let by_subject := data.grades.foldl (by_subject_step student_id) []
  by_subject.foldl by_subject_values_step []

/-- Function `matches_group_filter`. -/
def matches_group_filter (student : Student) (group_filter : Int) : Bool :=
  if group_filter = 0 then true
  else if group_filter = -1 then student.group_id == 0
  else student.group_id == group_filter

/-- The comparator of `students_for_group_sorted`. -/
def student_name_lt (a b : Student) : Bool :=
  let a_name := to_lower_ascii a.name
  let b_name := to_lower_ascii b.name
  if a_name ≠ b_name then string_lt a_name b_name else decide (a.id < b.id)

/-- Function `students_for_group_sorted`; the pointers are modelled by the records. -/
def students_for_group_sorted (data : DataStore) (group_filter : Int) : List Student :=
  std_sort student_name_lt
    (data.students.filter (fun student => matches_group_filter student group_filter))

/-- Function `group_name_or_none`. -/
def group_name_or_none (data : DataStore) (id : Int) : CppString :=
  if id = 0 then bytes_of "Без группы"
  else match find_group data id with
    | some group => group.name
    | none => bytes_of "Неизвестная группа"

/-- The bytes of the string literal "-", the no-data marker of the matrix. -/
def kDash : CppString := [0x2D]

/-- The cell that the inner loop of `journal_matrix` appends to the row for one
subject: "-" when `by_subject` has no entry for the subject or an empty one, else the
text of the last value of the entry. -/
def journal_matrix_cell (by_subject : StdMap (List Int)) (subject_id : Int) : CppString :=
  match map_find by_subject subject_id with
  | none => kDash
  | some values =>
    match values.getLast? with
    | none => kDash
    | some value => to_string value

/-- The row that `journal_matrix` builds for one student, before it is printed. -/
def journal_matrix_row (data : DataStore) (student : Student) : List CppString :=
  let by_subject := grades_by_subject_for_student data student.id
  [to_string student.id, student.name, group_name_or_none data student.group_id]
    ++ data.subjects.map (fun subject => journal_matrix_cell by_subject subject.id)
    ++ [format_avg (average_subjects_for_student data student.id)]

/-- Function `journal_matrix`: the rows of the table, in print order (no row when a
message is printed instead of the table).  `group_filter` is the answer of
`read_group_filter`, asked only when there are groups. -/
def journal_matrix (data : DataStore) (group_filter : Int) : List (List CppString) :=
  if data.students.isEmpty then []
  else if data.subjects.isEmpty then []
  else
    let f := if data.groups.isEmpty then 0 else group_filter
    (students_for_group_sorted data f).map (journal_matrix_row data)

/-- The four cells that `journal_by_subject` and `journal_by_student` build from the
attempt history `values`: the grades, their average, the latest value and the number of
attempts. -/
def journal_history_cells (values : List Int) : List CppString :=
  let grades_text := if values.isEmpty then kNone else join_grades values
  let latest_text := match values.getLast? with
    | none => kNone
    | some value => to_string value
  [grades_text, format_avg (average_from_values values), latest_text,
   to_string (values.length : Int)]

/-- The row that `journal_by_subject` builds for one student, before it is printed. -/
def journal_by_subject_row (data : DataStore) (subject_id : Int) (student : Student) :
    List CppString :=
  [to_string student.id, student.name, group_name_or_none data student.group_id]
    ++ journal_history_cells (grades_for_student_subject data student.id subject_id)

/-- The row that `journal_by_student` builds for one subject, before it is printed. -/
def journal_by_student_row (data : DataStore) (student_id : Int) (subject : Subject) :
    List CppString :=
  [to_string subject.id, subject.name]
    ++ journal_history_cells (grades_for_student_subject data student_id subject.id)

/-- Store in which the order of the ids and the order of the attempts of the pair
(1, 1) disagree: the grade with the greater id has the smaller attempt number. -/
def reordered_store : DataStore :=
  { example_store with
    grades := [{ id := 1, student_id := 1, subject_id := 1, value := 5, attempt := 2 },
               { id := 2, student_id := 1, subject_id := 1, value := 3, attempt := 1 }],
    next_grade_id := 3 }

/-- Store with three students named "b", "a" and "A", in this order. -/
def name_store : DataStore :=
  { DataStore.empty with
    students := [{ id := 1, name := [0x62], group_id := 0 },
                 { id := 2, name := [0x61], group_id := 0 },
                 { id := 3, name := [0x41], group_id := 0 }],
    next_student_id := 4 }

/-! ## Per-subject average, export and load -/

/-- The test of the first loop of `csv_escape` for one byte. -/
def csv_special (delim : Nat) (c : Nat) : Bool :=
  c == delim || c == 0x22 || c == 0x0A || c == 0x0D

/-- The body of the second loop of `csv_escape`: a double quote is written twice. -/
def csv_escape_step (out : CppString) (c : Nat) : CppString :=
  if c = 0x22 then out ++ [0x22, 0x22] else out ++ [c]

/-- Function `csv_escape`. -/
def csv_escape (text : CppString) (delim : Nat) : CppString :=
  let needs_quotes := text.any (csv_special delim)
  if !needs_quotes then text
  else (text.foldl csv_escape_step [0x22]) ++ [0x22]

/-- Member `std::set<int>::insert`: the set is the list of its elements in ascending
order. -/
def set_insert (x : Int) : List Int → List Int
  | [] => [x]
  | y :: ys => if x < y then x :: y :: ys else if x = y then y :: ys else y :: set_insert x ys

/-- The test `s.find(x) != s.end()` on a `std::set<int>`. -/
def set_contains (s : List Int) (x : Int) : Bool := s.contains x

/-- The lambda `next_id_from` of `load_data`, applied to the ids of the items. -/
def next_id_from (start : Int) (ids : List Int) : Int :=
  let max_id := ids.foldl (fun max_id id => if id > max_id then id else max_id) 0
  max start (max_id + 1)

/-- The clean-up pass of `load_data` (from the construction of `group_ids` to the end
of the function), applied to the four collections that were read from the database. -/
def load_data (groups : List Group) (students : List Student) (subjects : List Subject)
    (grades : List Grade) : DataStore :=
  let group_ids := groups.foldl (fun s group => set_insert group.id s) []
  let students1 := students.map (fun student =>
    if student.group_id ≠ 0 ∧ !(set_contains group_ids student.group_id) then
      { student with group_id := 0 }
    else student)
  let student_ids := students1.foldl (fun s student => set_insert student.id s) []
  let subject_ids := subjects.foldl (fun s subject => set_insert subject.id s) []
  let grades1 := grades.filter (fun g =>
    !(!(set_contains student_ids g.student_id) || !(set_contains subject_ids g.subject_id)))
  { students := students1, groups := groups, subjects := subjects, grades := grades1,
    next_student_id := next_id_from 1 (students1.map Student.id),
    next_subject_id := next_id_from 1 (subjects.map Subject.id),
    next_group_id := next_id_from 1 (groups.map Group.id),
    next_grade_id := next_id_from 1 (grades1.map Grade.id) }

/-- The comparator of `report_top_n`: greater average first, then smaller id. -/
def top_cmp (a b : Int × ℚ) : Bool :=
  if a.2 ≠ b.2 then decide (a.2 > b.2) else decide (a.1 < b.1)

/-- The entries `(student_id, avg)` that `report_top_n` collects before sorting. -/
def report_top_entries (data : DataStore) : List (Int × ℚ) :=
  data.students.foldl (fun entries student =>
    let avg := average_subjects_for_student data student.id
    if avg ≥ 0 then entries ++ [(student.id, avg)] else entries) []

/-- Function `report_top_n`: the entries of the printed rows; `n` is the answer of
`read_int`, between 1 and the number of entries. -/
def report_top_n (data : DataStore) (n : Nat) : List (Int × ℚ) :=
  if data.students.isEmpty then []
  else (std_sort top_cmp (report_top_entries data)).take n

/-- Store in which the student has equal values in two subjects with different
numbers of attempts: grades 3 and 3 in subject 1, grade 3 in subject 2. -/
def equal_values_store : DataStore :=
  { example_store with
    grades := [{ id := 1, student_id := 1, subject_id := 1, value := 3, attempt := 1 },
               { id := 2, student_id := 1, subject_id := 2, value := 3, attempt := 1 },
               { id := 3, student_id := 1, subject_id := 1, value := 3, attempt := 2 }] }

/-- Store in which the student has three subjects with pairwise different means and
different numbers of attempts: 2 in subject 1, 4 in subject 2, 3 and 3 in subject 3. -/
def three_subject_store : DataStore :=
  { example_store with
    subjects := [{ id := 1, name := [0x41] }, { id := 2, name := [0x42] },
                 { id := 3, name := [0x43] }],
    grades := [{ id := 1, student_id := 1, subject_id := 1, value := 2, attempt := 1 },
               { id := 2, student_id := 1, subject_id := 2, value := 4, attempt := 1 },
               { id := 3, student_id := 1, subject_id := 3, value := 3, attempt := 1 },
               { id := 4, student_id := 1, subject_id := 3, value := 3, attempt := 2 }],
    next_subject_id := 4, next_grade_id := 5 }

/-- A store with one student, one subject and an empty grade list. -/
def one_pair_store : DataStore :=
  { students := [{ id := 1, name := [0x53], group_id := 0 }],
    groups := [],
    subjects := [{ id := 1, name := [0x41] }],
    grades := [],
    next_student_id := 2, next_group_id := 1, next_subject_id := 2, next_grade_id := 1 }

/-- The operations of a run that re-assigns an attempt number: two grades for the pair
(1, 1), the second one deleted, then a third grade for the pair. -/
def reuse_ops : List Op :=
  [Op.add_grade 1 1 5, Op.add_grade 1 1 4, Op.delete_grade 2, Op.add_grade 1 1 3]

/-- The order of two grades of the grade list: the earlier one has the smaller id and,
when both belong to the same (student, subject) pair, the smaller attempt number. -/
def grade_before (a b : Grade) : Prop :=
  a.id < b.id ∧ (a.student_id = b.student_id → a.subject_id = b.subject_id →
    a.attempt < b.attempt)

instance (a b : Grade) : Decidable (grade_before a b) := by
  unfold grade_before
  infer_instance

/-- The grade list is in creation order: ids increase along the list and stay below the
grade counter, and within a (student, subject) pair the attempt numbers increase. -/
def grade_order (d : DataStore) : Prop :=
  d.grades.Pairwise grade_before ∧ ∀ g ∈ d.grades, g.id < d.next_grade_id

instance (d : DataStore) : Decidable (grade_order d) := by
  unfold grade_order
  infer_instance

/-! ## Attempt numbers and id counters in `int` arithmetic

The operations above compute with mathematical integers, which is what the program
does as long as every `int` result lies between -2147483648 and 2147483647.  The
definitions of this section evaluate the additions on attempt numbers and id counters
at the width of `int`. -/

/-- The loop body of `next_attempt`, the sum `grade.attempt + 1` evaluated in `int`. -/
def next_attempt_step_int32 (student_id subject_id : Int) (attempt : Int) (grade : Grade) :
    Int :=
  if grade.student_id = student_id ∧ grade.subject_id = subject_id then
    max attempt (wrap_int32 (grade.attempt + 1))
  else attempt

/-- Function `next_attempt` with `int` arithmetic. -/
def next_attempt_int32 (data : DataStore) (student_id subject_id : Int) : Int :=
  data.grades.foldl (next_attempt_step_int32 student_id subject_id) 1

/-- Function `create_student_record` with `int` arithmetic: `next_student_id++`. -/
def create_student_record_int32 (data : DataStore) (name : CppString) (group_id : Int) :
    DataStore × Int :=
  let student : Student := { id := data.next_student_id, name := name, group_id := group_id }
  ({ data with next_student_id := wrap_int32 (data.next_student_id + 1),
               students := data.students ++ [student] }, student.id)

/-- Function `create_group_record` with `int` arithmetic: `next_group_id++`. -/
def create_group_record_int32 (data : DataStore) (name : CppString) : DataStore × Int :=
  let group : Group := { id := data.next_group_id, name := name }
  ({ data with next_group_id := wrap_int32 (data.next_group_id + 1),
               groups := data.groups ++ [group] }, group.id)

/-- Function `add_subject` with `int` arithmetic: `next_subject_id++`. -/
def add_subject_int32 (data : DataStore) (name : CppString) : DataStore × Int :=
  let subject : Subject := { id := data.next_subject_id, name := name }
  ({ data with next_subject_id := wrap_int32 (data.next_subject_id + 1),
               subjects := data.subjects ++ [subject] }, subject.id)

/-- Function `add_grade` with `int` arithmetic: `next_grade_id++` and the attempt
number of `next_attempt`. -/
def add_grade_int32 (data : DataStore) (student_id subject_id value : Int) :
    DataStore × Report :=
  if data.students.isEmpty then (data, Report.collection_empty)
  else if data.subjects.isEmpty then (data, Report.collection_empty)
  else if student_id = 0 then (data, Report.cancelled)
  else if subject_id = 0 then (data, Report.cancelled)
  else
    let grade : Grade :=
      { id := data.next_grade_id, student_id := student_id, subject_id := subject_id,
        value := value, attempt := next_attempt_int32 data student_id subject_id }
    ({ data with next_grade_id := wrap_int32 (data.next_grade_id + 1),
                 grades := data.grades ++ [grade] }, Report.added grade)

/-- Runs one operation with `int` arithmetic.  Only the four creating operations add
to a counter or an attempt number; the edits and deletes are as in `exec`. -/
def exec_int32 (data : DataStore) : Op → DataStore × Report
  | Op.create_student name group_id =>
    let r := create_student_record_int32 data name group_id
    (r.1, Report.created r.2)
  | Op.create_group name =>
    let r := create_group_record_int32 data name
    (r.1, Report.created r.2)
  | Op.add_subject name =>
    let r := add_subject_int32 data name
    (r.1, Report.created r.2)
  | Op.add_grade student_id subject_id value =>
    add_grade_int32 data student_id subject_id value
  | Op.edit_student id new_name new_group => edit_student data id new_name new_group
  | Op.edit_group id new_name => edit_group data id new_name
  | Op.edit_subject id new_name => edit_subject data id new_name
  | Op.edit_grade id new_value => edit_grade data id new_value
  | Op.delete_student id => delete_student data id
  | Op.delete_group id => delete_group data id
  | Op.delete_subject id => delete_subject data id
  | Op.delete_grade id => delete_grade data id

/-- Runs a sequence of operations with `int` arithmetic, collecting the reports. -/
def run_int32 (data : DataStore) : List Op → DataStore × List Report
  | [] => (data, [])
  | op :: ops =>
    let r := exec_int32 data op
    let rest := run_int32 r.1 ops
    (rest.1, r.2 :: rest.2)

/-- Store in which the pair (1, 1) has a grade with the largest attempt number that an
`int` holds. -/
def max_attempt_store : DataStore :=
  { example_store with
    grades := [{ id := 1, student_id := 1, subject_id := 1, value := 2,
                 attempt := 2147483647 }],
    next_grade_id := 2 }

/-- Store whose only student has the id 2147483646, so that the student counter is
the largest value of `int`. -/
def max_counter_store : DataStore :=
  { DataStore.empty with
    students := [{ id := 2147483646, name := [0x53], group_id := 0 }],
    next_student_id := 2147483647 }

/-- Freshness of the ids assigned with `int` arithmetic in the runs of fewer than `n`
operations that start from `data`: whenever an operation, run after the operations
`pre`, assigns the id `x` in the collection `k`, `x` is positive, greater than every id
the collection held in the start store or after any part of `pre`, and greater than
every id assigned in `k` earlier in the run. -/
def fresh_ids_int32 (data : DataStore) (n : Nat) : Prop :=
  ∀ (pre : List Op) (op : Op) (k : Kind) (x : Int), pre.length < n →
    assigned_id op (exec_int32 (run_int32 data pre).1 op).2 = some (k, x) →
    0 < x ∧
    (∀ pre1 post1, pre = pre1 ++ post1 → ∀ y ∈ ids_of k (run_int32 data pre1).1, y < x) ∧
    (∀ pre1 op1 post1 y, pre = pre1 ++ op1 :: post1 →
      assigned_id op1 (exec_int32 (run_int32 data pre1).1 op1).2 = some (k, y) → y < x)

/-! # Theorems -/

/-! ### `std::map` -/

/-- A key below every key of the map is absent. -/
theorem map_find_eq_none_of_lower {β : Type} (m : StdMap β) (k : Int)
    (h : ∀ e ∈ m, k < e.1) : map_find m k = none := by
  induction m with
  | nil => rfl
  | cons e rest ih =>
    obtain ⟨k', v⟩ := e
    have h1 : k < k' := h (k', v) (List.mem_cons_self _ _)
    simp [map_find, ne_of_lt h1, ih (fun e he => h e (List.mem_cons_of_mem _ he))]

theorem map_find_modify_same {β : Type} (dflt : β) (f : β → β) (k : Int) (m : StdMap β)
    (hm : m.Pairwise (fun a b => a.1 < b.1)) :
    map_find (map_modify dflt f k m) k = some (f ((map_find m k).getD dflt)) := by
  induction m with
  | nil => simp [map_modify, map_find]
  | cons e rest ih =>
    obtain ⟨k', v⟩ := e
    rw [List.pairwise_cons] at hm
    unfold map_modify
    by_cases h1 : k < k'
    · have hne : k ≠ k' := ne_of_lt h1
      have hnone : map_find rest k = none :=
        map_find_eq_none_of_lower rest k (fun e he => lt_trans h1 (hm.1 e he))
      simp [h1, map_find, hne, hnone]
    · by_cases h2 : k = k'
      · subst h2
        simp [map_find]
      · simp [h1, h2, map_find, ih hm.2]

theorem map_find_modify_other {β : Type} (dflt : β) (f : β → β) (k k2 : Int) (m : StdMap β)
    (hk : k2 ≠ k) :
    map_find (map_modify dflt f k m) k2 = map_find m k2 := by
  induction m with
  | nil => simp [map_modify, map_find, hk]
  | cons e rest ih =>
    obtain ⟨k', v⟩ := e
    unfold map_modify
    by_cases h1 : k < k'
    · simp [h1, map_find, hk]
    · by_cases h2 : k = k'
      · subst h2
        simp [map_find, hk]
      · simp [h1, h2, map_find, ih]

/-- Strictly ascending keys. -/
theorem map_modify_keys_lower {β : Type} (dflt : β) (f : β → β) (k b : Int) (m : StdMap β)
    (hb : b < k) (hm : ∀ e ∈ m, b < e.1) : ∀ e ∈ map_modify dflt f k m, b < e.1 := by
  induction m with
  | nil => simp [map_modify, hb]
  | cons e rest ih =>
    obtain ⟨k', v⟩ := e
    unfold map_modify
    have hk' : b < k' := hm (k', v) (List.mem_cons_self _ _)
    have hrest : ∀ e ∈ rest, b < e.1 := fun e he => hm e (List.mem_cons_of_mem _ he)
    by_cases h1 : k < k'
    · simp only [h1, if_true]
      intro e he
      rcases List.mem_cons.1 he with rfl | he
      · exact hb
      · exact hm e he
    · by_cases h2 : k = k'
      · subst h2
        simp only [lt_irrefl, if_false, if_true]
        intro e he
        rcases List.mem_cons.1 he with rfl | he
        · exact hk'
        · exact hrest e he
      · simp only [h1, h2, if_false]
        intro e he
        rcases List.mem_cons.1 he with rfl | he
        · exact hk'
        · exact ih hrest e he

theorem map_modify_sorted {β : Type} (dflt : β) (f : β → β) (k : Int) (m : StdMap β)
    (hm : m.Pairwise (fun a b => a.1 < b.1)) :
    (map_modify dflt f k m).Pairwise (fun a b => a.1 < b.1) := by
  induction m with
  | nil => simp [map_modify]
  | cons e rest ih =>
    obtain ⟨k', v⟩ := e
    unfold map_modify
    rw [List.pairwise_cons] at hm
    by_cases h1 : k < k'
    · simp only [h1, if_true]
      refine List.pairwise_cons.2 ⟨?_, List.pairwise_cons.2 hm⟩
      intro e he
      rcases List.mem_cons.1 he with rfl | he
      · exact h1
      · exact lt_trans h1 (hm.1 e he)
    · by_cases h2 : k = k'
      · subst h2
        simp only [lt_irrefl, if_false, if_true]
        exact List.pairwise_cons.2 ⟨hm.1, hm.2⟩
      · simp only [h1, h2, if_false]
        refine List.pairwise_cons.2 ⟨?_, ih hm.2⟩
        have hlt : k' < k := lt_of_le_of_ne (not_lt.1 h1) (Ne.symm h2)
        exact map_modify_keys_lower dflt f k k' rest hlt hm.1

theorem map_find_of_mem {β : Type} (m : StdMap β) (hm : m.Pairwise (fun a b => a.1 < b.1))
    (k : Int) (v : β) (h : (k, v) ∈ m) : map_find m k = some v := by
  induction m with
  | nil => cases h
  | cons e rest ih =>
    obtain ⟨k', v'⟩ := e
    rw [List.pairwise_cons] at hm
    rcases List.mem_cons.1 h with heq | hmem
    · cases heq
      simp [map_find]
    · have hlt : k' < k := hm.1 (k, v) hmem
      simp [map_find, ne_of_gt hlt, ih hm.2 hmem]

theorem mem_of_map_find {β : Type} (m : StdMap β) (k : Int) (v : β)
    (h : map_find m k = some v) : (k, v) ∈ m := by
  induction m with
  | nil => simp [map_find] at h
  | cons e rest ih =>
    obtain ⟨k', v'⟩ := e
    by_cases hk : k = k'
    · subst hk
      simp [map_find] at h
      simp [h]
    · simp [map_find, hk] at h
      exact List.mem_cons_of_mem _ (ih h)

/-- The scan of `next_attempt` only looks at the grades of the pair. -/
theorem next_attempt_foldl_filter (s j : Int) (gs : List Grade) (a : Int) :
    gs.foldl (next_attempt_step s j) a =
      (gs.filter (fun g => g.student_id == s && g.subject_id == j)).foldl
        (fun acc g => max acc (g.attempt + 1)) a := by
  induction gs generalizing a with
  | nil => rfl
  | cons g gs ih =>
    by_cases h : g.student_id = s ∧ g.subject_id = j
    · have hb : (g.student_id == s && g.subject_id == j) = true := by simp [h.1, h.2]
      simp only [List.foldl_cons, List.filter_cons, hb, if_true, ih]
      simp [next_attempt_step, h]
    · have hb : (g.student_id == s && g.subject_id == j) = false := by
        simp only [Bool.and_eq_false_imp, beq_iff_eq, beq_eq_false_iff_ne]
        intro h1 h2; exact h ⟨h1, h2⟩
      simp only [List.foldl_cons, List.filter_cons, hb, ih]
      simp [next_attempt_step, h]

theorem next_attempt_eq_pair (data : DataStore) (s j : Int) :
    next_attempt data s j =
      (pair_grades data s j).foldl (fun acc g => max acc (g.attempt + 1)) 1 := by
  unfold next_attempt pair_grades
  exact next_attempt_foldl_filter s j data.grades 1

/-- The running maximum dominates its start value and every scanned attempt. -/
theorem foldl_max_attempt_ge (l : List Grade) (a : Int) :
    a ≤ l.foldl (fun acc g => max acc (g.attempt + 1)) a ∧
    ∀ g ∈ l, g.attempt + 1 ≤ l.foldl (fun acc g => max acc (g.attempt + 1)) a := by
  induction l generalizing a with
  | nil => simp
  | cons x xs ih =>
    simp only [List.foldl_cons, List.mem_cons, forall_eq_or_imp]
    refine ⟨le_trans (le_max_left _ _) (ih _).1, le_trans (le_max_right _ _) (ih _).1, ?_⟩
    exact (ih _).2

/-- The running maximum is its start value or comes from a scanned attempt. -/
theorem foldl_max_attempt_mem (l : List Grade) (a : Int) :
    l.foldl (fun acc g => max acc (g.attempt + 1)) a = a ∨
    ∃ g ∈ l, l.foldl (fun acc g => max acc (g.attempt + 1)) a = g.attempt + 1 := by
  induction l generalizing a with
  | nil => simp
  | cons x xs ih =>
    simp only [List.foldl_cons, List.mem_cons, exists_eq_or_imp]
    rcases ih (max a (x.attempt + 1)) with h | ⟨g, hg, h⟩
    · rcases max_choice a (x.attempt + 1) with h2 | h2
      · left; rw [h, h2]
      · right; left; rw [h, h2]
    · right; right; exact ⟨g, hg, h⟩

/-- Lookup in the map built by the loop of `subject_aggregates_for_student`: only the
grades of the pair contribute to the entry of a subject, and keys stay ascending. -/
theorem aggregates_foldl_find (s j : Int) (gs : List Grade) (m : StdMap SubjectAggregate)
    (hm : m.Pairwise (fun a b => a.1 < b.1)) :
    (gs.foldl (subject_aggregates_step s) m).Pairwise (fun a b => a.1 < b.1) ∧
    map_find (gs.foldl (subject_aggregates_step s) m) j =
      (gs.filter (fun g => g.student_id == s && g.subject_id == j)).foldl
        (fun o g => some (aggregate_add g (o.getD SubjectAggregate.zero))) (map_find m j) := by
  induction gs generalizing m with
  | nil => exact ⟨hm, rfl⟩
  | cons g gs ih =>
    simp only [List.foldl_cons]
    by_cases hs : g.student_id = s
    · have hstep : subject_aggregates_step s m g =
          map_modify SubjectAggregate.zero (aggregate_add g) g.subject_id m := by
        simp [subject_aggregates_step, hs]
      have hsorted := map_modify_sorted SubjectAggregate.zero (aggregate_add g) g.subject_id m hm
      rw [hstep]
      refine ⟨(ih _ hsorted).1, ?_⟩
      rw [(ih _ hsorted).2]
      by_cases hj : g.subject_id = j
      · have hb : (g.student_id == s && g.subject_id == j) = true := by simp [hs, hj]
        rw [List.filter_cons, if_pos hb, List.foldl_cons, ← hj,
          map_find_modify_same _ _ _ _ hm]
      · have hb : (g.student_id == s && g.subject_id == j) = false := by simp [hj]
        rw [List.filter_cons, hb, map_find_modify_other _ _ _ _ _ (Ne.symm hj)]
        rfl
    · have hstep : subject_aggregates_step s m g = m := by
        simp [subject_aggregates_step, hs]
      have hb : (g.student_id == s && g.subject_id == j) = false := by simp [hs]
      rw [hstep, List.filter_cons, hb]
      exact ih m hm

/-- Folding options from `some` stays `some` and folds the aggregates. -/
theorem option_fold_some (l : List Grade) (a : SubjectAggregate) :
    l.foldl (fun o g => some (aggregate_add g (o.getD SubjectAggregate.zero))) (some a) =
      some (l.foldl (fun acc g => aggregate_add g acc) a) := by
  induction l generalizing a with
  | nil => rfl
  | cons g l ih => simp only [List.foldl_cons, Option.getD_some, ih]

theorem option_fold_none (l : List Grade) (hl : l ≠ []) :
    l.foldl (fun o g => some (aggregate_add g (o.getD SubjectAggregate.zero))) none =
      some (l.foldl (fun acc g => aggregate_add g acc) SubjectAggregate.zero) := by
  cases l with
  | nil => exact absurd rfl hl
  | cons g l =>
    simp only [List.foldl_cons, Option.getD_none]
    exact option_fold_some l _

/-- The entry of subject `j` in the result of `subject_aggregates_for_student`. -/
theorem aggregates_find (data : DataStore) (s j : Int) :
    map_find (subject_aggregates_for_student data s) j =
      if pair_grades data s j = [] then none
      else some ((pair_grades data s j).foldl (fun acc g => aggregate_add g acc)
        SubjectAggregate.zero) := by
  have h := (aggregates_foldl_find s j data.grades [] List.Pairwise.nil).2
  unfold subject_aggregates_for_student pair_grades
  rw [h]
  by_cases hl : data.grades.filter (fun g => g.student_id == s && g.subject_id == j) = []
  · rw [if_pos hl, hl]; rfl
  · rw [if_neg hl]
    exact option_fold_none _ hl

theorem aggregates_sorted (data : DataStore) (s : Int) :
    (subject_aggregates_for_student data s).Pairwise (fun a b => a.1 < b.1) :=
  (aggregates_foldl_find s 0 data.grades [] List.Pairwise.nil).1

theorem aggregate_add_sum (g : Grade) (a : SubjectAggregate) :
    (aggregate_add g a).sum = a.sum + g.value ∧ (aggregate_add g a).count = a.count + 1 := by
  simp only [aggregate_add]
  split_ifs <;> simp

theorem aggregate_add_latest_gt (g : Grade) (a : SubjectAggregate)
    (h : a.latest_grade_id < g.id) :
    (aggregate_add g a).latest_grade_id = g.id ∧ (aggregate_add g a).latest_value = g.value ∧
    (aggregate_add g a).latest_attempt = g.attempt := by
  simp [aggregate_add, h]

theorem aggregate_add_latest_le (g : Grade) (a : SubjectAggregate)
    (h : ¬ a.latest_grade_id < g.id) :
    (aggregate_add g a).latest_grade_id = a.latest_grade_id ∧
    (aggregate_add g a).latest_value = a.latest_value ∧
    (aggregate_add g a).latest_attempt = a.latest_attempt := by
  simp [aggregate_add, h]

theorem aggregate_fold_sum (l : List Grade) (a : SubjectAggregate) :
    (l.foldl (fun acc g => aggregate_add g acc) a).sum = a.sum + (l.map Grade.value).sum ∧
    (l.foldl (fun acc g => aggregate_add g acc) a).count = a.count + (l.length : Int) := by
  induction l generalizing a with
  | nil => simp
  | cons g l ih =>
    simp only [List.foldl_cons, List.map_cons, List.sum_cons, List.length_cons]
    rw [(ih _).1, (ih _).2, (aggregate_add_sum g a).1, (aggregate_add_sum g a).2]
    constructor
    · ring
    · push_cast; ring

/-- After a non-empty scan of grades with positive ids the "latest" fields are those of
a scanned grade of greatest id. -/
theorem aggregate_fold_latest (l : List Grade) (hl : l ≠ []) (hpos : ∀ g ∈ l, 0 < g.id) :
    ∃ g ∈ l, (∀ h ∈ l, h.id ≤ g.id) ∧
      (l.foldl (fun acc g => aggregate_add g acc) SubjectAggregate.zero).latest_grade_id = g.id ∧
      (l.foldl (fun acc g => aggregate_add g acc) SubjectAggregate.zero).latest_value = g.value ∧
      (l.foldl (fun acc g => aggregate_add g acc) SubjectAggregate.zero).latest_attempt
        = g.attempt := by
  induction l using List.reverseRecOn with
  | nil => exact absurd rfl hl
  | append_singleton l x ih =>
    rw [List.foldl_append, List.foldl_cons, List.foldl_nil]
    have hx : 0 < x.id := hpos x (by simp)
    by_cases hnil : l = []
    · subst hnil
      refine ⟨x, by simp, by simp, ?_⟩
      exact aggregate_add_latest_gt x SubjectAggregate.zero hx
    · obtain ⟨g, hg, hmax, h1, h2, h3⟩ := ih hnil (fun g hg => hpos g (by simp [hg]))
      generalize l.foldl (fun acc g => aggregate_add g acc) SubjectAggregate.zero = a at h1 h2 h3
      by_cases hgt : x.id > g.id
      · refine ⟨x, by simp, ?_, ?_⟩
        · intro h hh
          rcases List.mem_append.1 hh with hh | hh
          · exact le_trans (hmax h hh) (le_of_lt hgt)
          · simp at hh; subst hh; exact le_refl _
        · exact aggregate_add_latest_gt x a (by rw [h1]; exact hgt)
      · refine ⟨g, by simp [hg], ?_, ?_⟩
        · intro h hh
          rcases List.mem_append.1 hh with hh | hh
          · exact hmax h hh
          · simp at hh; subst hh; exact not_lt.1 hgt
        · have h := aggregate_add_latest_le x a (by rw [h1]; exact hgt)
          rw [h.1, h.2.1, h.2.2]
          exact ⟨h1, h2, h3⟩

/-- An entry of the aggregate map is the aggregate of the grades of its pair. -/
theorem aggregates_mem_iff (data : DataStore) (s j : Int) (agg : SubjectAggregate) :
    (j, agg) ∈ subject_aggregates_for_student data s ↔
      pair_grades data s j ≠ [] ∧
      agg = (pair_grades data s j).foldl (fun acc g => aggregate_add g acc)
        SubjectAggregate.zero := by
  constructor
  · intro h
    have hf := map_find_of_mem _ (aggregates_sorted data s) j agg h
    rw [aggregates_find] at hf
    by_cases hl : pair_grades data s j = []
    · rw [if_pos hl] at hf; cases hf
    · rw [if_neg hl] at hf
      exact ⟨hl, (Option.some.inj hf).symm⟩
  · rintro ⟨hl, rfl⟩
    apply mem_of_map_find
    rw [aggregates_find, if_neg hl]

/-- The second loop of `average_subjects_for_student` over entries that all have a
positive count: it adds up the quotients and counts the entries. -/
theorem average_fold (F : Int → ℚ) (m : StdMap SubjectAggregate)
    (h : ∀ e ∈ m, 0 < e.2.count ∧ (e.2.sum : ℚ) / (e.2.count : ℚ) = F e.1) (acc : ℚ × Int) :
    m.foldl average_subjects_step acc =
      (acc.1 + ((m.map Prod.fst).map F).sum, acc.2 + (m.length : Int)) := by
  induction m generalizing acc with
  | nil => simp
  | cons e m ih =>
    have he := h e (List.mem_cons_self _ _)
    have hstep : average_subjects_step acc e = (acc.1 + F e.1, acc.2 + 1) := by
      simp [average_subjects_step, he.1, he.2]
    rw [List.foldl_cons, hstep, ih (fun e' he' => h e' (List.mem_cons_of_mem _ he'))]
    simp only [List.map_cons, List.sum_cons, List.length_cons]
    refine Prod.ext ?_ ?_
    · simp only; ring
    · simp only; push_cast; ring

theorem aggregates_entry_mean (data : DataStore) (s : Int) :
    ∀ e ∈ subject_aggregates_for_student data s,
      0 < e.2.count ∧ (e.2.sum : ℚ) / (e.2.count : ℚ) = subject_mean data s e.1 := by
  rintro ⟨j, agg⟩ hmem
  obtain ⟨hl, rfl⟩ := (aggregates_mem_iff data s j agg).1 hmem
  have hsum := aggregate_fold_sum (pair_grades data s j) SubjectAggregate.zero
  simp only [SubjectAggregate.zero, zero_add] at hsum
  have hlen : 0 < (pair_grades data s j).length := List.length_pos.2 hl
  refine ⟨?_, ?_⟩
  · simp only [SubjectAggregate.zero]
    rw [hsum.2]; exact_mod_cast hlen
  · simp only [SubjectAggregate.zero]
    rw [hsum.1, hsum.2]
    unfold subject_mean
    push_cast
    rfl

/-- The keys of the aggregate map are the distinct graded subjects, up to order. -/
theorem aggregates_keys_perm (data : DataStore) (s : Int) :
    ((subject_aggregates_for_student data s).map Prod.fst).Perm (graded_subjects data s) := by
  have hsorted := aggregates_sorted data s
  have hnd : ((subject_aggregates_for_student data s).map Prod.fst).Nodup := by
    rw [List.Nodup, List.pairwise_map]
    exact hsorted.imp (fun h => ne_of_lt h)
  refine (List.perm_ext_iff_of_nodup hnd (List.nodup_dedup _)).2 ?_
  intro j
  simp only [graded_subjects, student_grades, List.mem_dedup, List.mem_map, List.mem_filter,
    beq_iff_eq, Prod.exists, exists_and_right, exists_eq_right]
  constructor
  · rintro ⟨agg, hmem⟩
    obtain ⟨hl, -⟩ := (aggregates_mem_iff data s j agg).1 hmem
    obtain ⟨g, hg⟩ := List.exists_mem_of_ne_nil _ hl
    have := List.mem_filter.1 hg
    simp only [Bool.and_eq_true, beq_iff_eq] at this
    exact ⟨g, ⟨this.1, this.2.1⟩, this.2.2⟩
  · rintro ⟨g, ⟨hg, h1⟩, h2⟩
    have hmem : g ∈ pair_grades data s j := by
      apply List.mem_filter.2
      exact ⟨hg, by simp [h1, h2]⟩
    exact ⟨_, (aggregates_mem_iff data s j _).2 ⟨List.ne_nil_of_mem hmem, rfl⟩⟩

/-- Claim C1. For a student with at least one grade, `average_subjects_for_student`
is the arithmetic mean, over the distinct subjects in which the student has a grade,
of the subject means (sum of the student's grade values in the subject divided by
their number), in exact rational arithmetic. -/
theorem C1_average_of_subject_means (data : DataStore) (s : Int)
    (hgrade : ∃ g ∈ data.grades, g.student_id = s) :
    average_subjects_for_student data s = mean_of_subject_means data s := by
  obtain ⟨g, hg, hs⟩ := hgrade
  have hperm := aggregates_keys_perm data s
  have hmemj : g.subject_id ∈ graded_subjects data s := by
    simp only [graded_subjects, student_grades, List.mem_dedup, List.mem_map, List.mem_filter,
      beq_iff_eq]
    exact ⟨g, ⟨hg, hs⟩, rfl⟩
  have hne : subject_aggregates_for_student data s ≠ [] := by
    intro h0
    rw [h0] at hperm
    have := hperm.symm.subset hmemj
    simp at this
  have hfold := average_fold (subject_mean data s) _ (aggregates_entry_mean data s) (0, 0)
  have hlen : (subject_aggregates_for_student data s).length = (graded_subjects data s).length := by
    have := hperm.length_eq
    simp at this; exact this
  have hpos : 0 < (subject_aggregates_for_student data s).length := List.length_pos.2 hne
  unfold average_subjects_for_student mean_of_subject_means
  have hemp : (subject_aggregates_for_student data s).isEmpty = false := by
    cases h : subject_aggregates_for_student data s with
    | nil => exact absurd h hne
    | cons _ _ => rfl
  simp only [hemp, hfold, zero_add]
  have hnz : ¬ ((subject_aggregates_for_student data s).length : Int) = 0 := by
    exact_mod_cast (Nat.pos_iff_ne_zero.1 hpos)
  rw [if_neg (by simp), if_neg hnz]
  rw [(hperm.map (subject_mean data s)).sum_eq, hlen]
  push_cast
  rfl

/-- Witness of C1: the worked example, grades 2 and 4 in one subject and 5 in another
give 4, while the flat mean of the three values is 11/3. -/
theorem C1_average_of_subject_means_witness :
    (∃ g ∈ example_store.grades, g.student_id = 1) ∧
    average_subjects_for_student example_store 1 = 4 ∧
    flat_mean example_store 1 = 11 / 3 := by
  have hex : ∃ g ∈ example_store.grades, g.student_id = 1 := by decide
  refine ⟨hex, ?_, ?_⟩
  · rw [C1_average_of_subject_means example_store 1 hex]
    simp [mean_of_subject_means, graded_subjects, student_grades, example_store, List.dedup]
    unfold subject_mean
    simp [pair_grades]
    norm_num
  · simp [flat_mean, student_grades, example_store]

/-- A student without grades has an empty aggregate map. -/
theorem aggregates_nil_of_no_grades (data : DataStore) (s : Int)
    (h : ∀ g ∈ data.grades, g.student_id ≠ s) : subject_aggregates_for_student data s = [] := by
  apply List.eq_nil_iff_forall_not_mem.2
  rintro ⟨j, agg⟩ hmem
  obtain ⟨hl, -⟩ := (aggregates_mem_iff data s j agg).1 hmem
  obtain ⟨g, hg⟩ := List.exists_mem_of_ne_nil _ hl
  have := List.mem_filter.1 hg
  simp only [Bool.and_eq_true, beq_iff_eq] at this
  exact h g this.1 this.2.1

/-- Claim C10. For a student without any grade `average_subjects_for_student` returns the
sentinel `-1`, which is not `0`, and `format_avg` renders it as the bytes of "нет"
(the UTF-8 encoding of the three letters), not as "0.00". -/
theorem C10_no_grades_sentinel (data : DataStore) (s : Int)
    (h : ∀ g ∈ data.grades, g.student_id ≠ s) :
    average_subjects_for_student data s = -1 ∧
    average_subjects_for_student data s ≠ 0 ∧
    format_avg (average_subjects_for_student data s) = kNone ∧
    format_avg (average_subjects_for_student data s) ≠ [0x30, 0x2E, 0x30, 0x30] ∧
    kNone = ("нет".data.flatMap String.utf8EncodeChar).map UInt8.toNat := by
  have havg : average_subjects_for_student data s = -1 := by
    unfold average_subjects_for_student
    rw [aggregates_nil_of_no_grades data s h]
    rfl
  have hfmt : format_avg (-1) = kNone := by
    unfold format_avg
    rw [if_pos (by norm_num)]
  refine ⟨havg, ?_, ?_, ?_, ?_⟩
  · rw [havg]; norm_num
  · rw [havg, hfmt]
  · rw [havg, hfmt]; decide
  · decide

/-- Witness of C10: student 2 of the worked example has no grade. -/
theorem C10_no_grades_sentinel_witness :
    (∀ g ∈ example_store.grades, g.student_id ≠ 2) ∧
    average_subjects_for_student example_store 2 = -1 ∧
    format_avg (average_subjects_for_student example_store 2) = kNone :=
  ⟨by decide, (C10_no_grades_sentinel example_store 2 (by decide)).1,
   (C10_no_grades_sentinel example_store 2 (by decide)).2.2.1⟩

/-- The number printed after `remove_if` and `erase`: the difference of the sizes is the
number of removed elements. -/
theorem length_sub_filter_not {α : Type} (p : α → Bool) (l : List α) :
    (((l.length - (l.filter (fun x => !p x)).length : Nat)) : Int) = (l.countP p : Int) := by
  have h := List.length_eq_countP_add_countP p l
  have h2 : (l.filter (fun x => !p x)).length = l.countP (fun x => !p x) :=
    (List.countP_eq_length_filter _ _).symm
  have h3 : l.countP (fun x => !p x) = l.countP (fun a => decide ¬p a = true) := by
    congr 1
    funext x
    cases p x <;> simp
  rw [h2, h3]
  have : l.length - l.countP (fun a => decide ¬p a = true) = l.countP p := by omega
  rw [this]

theorem isEmpty_false_of_mem {α : Type} {l : List α} {a : α} (h : a ∈ l) :
    l.isEmpty = false := by
  cases l with
  | nil => cases h
  | cons _ _ => rfl

theorem find_isNone_false_of_mem {α : Type} (p : α → Bool) {l : List α} {a : α}
    (h : a ∈ l) (hp : p a = true) : (l.find? p).isNone = false := by
  cases hf : l.find? p with
  | none =>
    have := List.find?_eq_none.1 hf a h
    exact absurd hp this
  | some _ => rfl

/-- What `std::find_if` followed by `erase` does to a vector that has a match. -/
theorem eraseP_split {α : Type} (p : α → Bool) (l : List α) (h : ∃ a ∈ l, p a = true) :
    ∃ l1 a l2, l = l1 ++ a :: l2 ∧ p a = true ∧ (∀ x ∈ l1, ¬ p x = true) ∧
      l.eraseP p = l1 ++ l2 := by
  obtain ⟨a, ha, hpa⟩ := h
  obtain ⟨b, l1, l2, h1, h2, h3, h4⟩ := List.exists_of_eraseP ha hpa
  exact ⟨l1, b, l2, h3, h2, h1, h4⟩

/-- Claim C4. `delete_student` with the id of an existing student removes the first
student that has the id and keeps the others in order (with pairwise distinct student
ids no student with the id remains); the grade list becomes the original list with
the grades of that `student_id` filtered out; the reported number is the number of
grades that had that `student_id`; groups, subjects and the four id counters are
unchanged. -/
theorem C4_delete_student (data : DataStore) (id : Int)
    (hex : ∃ st ∈ data.students, st.id = id) :
    (∃ l1 st l2, data.students = l1 ++ st :: l2 ∧ st.id = id ∧ (∀ x ∈ l1, x.id ≠ id) ∧
      (delete_student data id).1.students = l1 ++ l2) ∧
    ((data.students.map Student.id).Nodup →
      ∀ x ∈ (delete_student data id).1.students, x.id ≠ id) ∧
    (delete_student data id).1.grades
      = data.grades.filter (fun g => decide (g.student_id ≠ id)) ∧
    (delete_student data id).2
      = Report.deleted ((data.grades.countP (fun g => g.student_id == id) : Nat) : Int) ∧
    (delete_student data id).1.groups = data.groups ∧
    (delete_student data id).1.subjects = data.subjects ∧
    (delete_student data id).1.next_student_id = data.next_student_id ∧
    (delete_student data id).1.next_group_id = data.next_group_id ∧
    (delete_student data id).1.next_subject_id = data.next_subject_id ∧
    (delete_student data id).1.next_grade_id = data.next_grade_id := by
  obtain ⟨st0, hst0, hid0⟩ := hex
  have hp0 : (fun s : Student => s.id == id) st0 = true := by simp [hid0]
  have h1 : data.students.isEmpty = false := isEmpty_false_of_mem hst0
  have h2 : (data.students.find? (fun s => s.id == id)).isNone = false :=
    find_isNone_false_of_mem _ hst0 hp0
  have hdel : delete_student data id =
      ({ data with students := data.students.eraseP (fun s => s.id == id),
                   grades := data.grades.filter (fun g => !(g.student_id == id)) },
       Report.deleted ((data.grades.length -
         (data.grades.filter (fun g => !(g.student_id == id))).length : Nat) : Int)) := by
    unfold delete_student
    simp only [h1, h2, Bool.false_eq_true, if_false]
  obtain ⟨l1, st, l2, hsplit, hp, hl1, herase⟩ :=
    eraseP_split (fun s : Student => s.id == id) data.students ⟨st0, hst0, hp0⟩
  have hstid : st.id = id := by simpa using hp
  rw [hdel]
  refine ⟨⟨l1, st, l2, hsplit, hstid, ?_, herase⟩, ?_, ?_, ?_, rfl, rfl, rfl, rfl, rfl, rfl⟩
  · intro x hx
    simpa using hl1 x hx
  · intro hnd x hx
    simp only [herase] at hx
    rw [hsplit] at hnd
    simp only [List.map_append, List.map_cons] at hnd
    rcases List.mem_append.1 hx with hx | hx
    · simpa using hl1 x hx
    · intro hxid
      have hnd2 := (List.nodup_append.1 hnd).2.1
      have := (List.nodup_cons.1 hnd2).1
      apply this
      rw [hstid, ← hxid]
      exact List.mem_map_of_mem _ hx
  · simp only
    congr 1
    funext g
    by_cases hg : g.student_id = id <;> simp [hg]
  · simp only
    rw [length_sub_filter_not (fun g : Grade => g.student_id == id) data.grades]

/-- Witness of C4: deleting student 1 of the worked example removes the three grades. -/
theorem C4_delete_student_witness :
    (∃ st ∈ example_store.students, st.id = 1) ∧
    (delete_student example_store 1).1.grades = [] ∧
    (delete_student example_store 1).2 = Report.deleted 3 :=
  ⟨by decide,
   (C4_delete_student example_store 1 (by decide)).2.2.1.trans (by decide),
   (C4_delete_student example_store 1 (by decide)).2.2.2.1.trans (by decide)⟩

/-- Claim C5. `delete_subject` with the id of an existing subject removes the first
subject that has the id and keeps the others in order (with pairwise distinct subject
ids no subject with the id remains); the grade list becomes the original list with
the grades of that `subject_id` filtered out; the reported number is the number of
grades that had that `subject_id`; students, groups and the four id counters are
unchanged. -/
theorem C5_delete_subject (data : DataStore) (id : Int)
    (hex : ∃ sb ∈ data.subjects, sb.id = id) :
    (∃ l1 sb l2, data.subjects = l1 ++ sb :: l2 ∧ sb.id = id ∧ (∀ x ∈ l1, x.id ≠ id) ∧
      (delete_subject data id).1.subjects = l1 ++ l2) ∧
    ((data.subjects.map Subject.id).Nodup →
      ∀ x ∈ (delete_subject data id).1.subjects, x.id ≠ id) ∧
    (delete_subject data id).1.grades
      = data.grades.filter (fun g => decide (g.subject_id ≠ id)) ∧
    (delete_subject data id).2
      = Report.deleted ((data.grades.countP (fun g => g.subject_id == id) : Nat) : Int) ∧
    (delete_subject data id).1.students = data.students ∧
    (delete_subject data id).1.groups = data.groups ∧
    (delete_subject data id).1.next_student_id = data.next_student_id ∧
    (delete_subject data id).1.next_group_id = data.next_group_id ∧
    (delete_subject data id).1.next_subject_id = data.next_subject_id ∧
    (delete_subject data id).1.next_grade_id = data.next_grade_id := by
  obtain ⟨sb0, hsb0, hid0⟩ := hex
  have hp0 : (fun s : Subject => s.id == id) sb0 = true := by simp [hid0]
  have h1 : data.subjects.isEmpty = false := isEmpty_false_of_mem hsb0
  have h2 : (data.subjects.find? (fun s => s.id == id)).isNone = false :=
    find_isNone_false_of_mem _ hsb0 hp0
  have hdel : delete_subject data id =
      ({ data with subjects := data.subjects.eraseP (fun s => s.id == id),
                   grades := data.grades.filter (fun g => !(g.subject_id == id)) },
       Report.deleted ((data.grades.length -
         (data.grades.filter (fun g => !(g.subject_id == id))).length : Nat) : Int)) := by
    unfold delete_subject
    simp only [h1, h2, Bool.false_eq_true, if_false]
  obtain ⟨l1, sb, l2, hsplit, hp, hl1, herase⟩ :=
    eraseP_split (fun s : Subject => s.id == id) data.subjects ⟨sb0, hsb0, hp0⟩
  have hsbid : sb.id = id := by simpa using hp
  rw [hdel]
  refine ⟨⟨l1, sb, l2, hsplit, hsbid, ?_, herase⟩, ?_, ?_, ?_, rfl, rfl, rfl, rfl, rfl, rfl⟩
  · intro x hx
    simpa using hl1 x hx
  · intro hnd x hx
    simp only [herase] at hx
    rw [hsplit] at hnd
    simp only [List.map_append, List.map_cons] at hnd
    rcases List.mem_append.1 hx with hx | hx
    · simpa using hl1 x hx
    · intro hxid
      have hnd2 := (List.nodup_append.1 hnd).2.1
      have := (List.nodup_cons.1 hnd2).1
      apply this
      rw [hsbid, ← hxid]
      exact List.mem_map_of_mem _ hx
  · simp only
    congr 1
    funext g
    by_cases hg : g.subject_id = id <;> simp [hg]
  · simp only
    rw [length_sub_filter_not (fun g : Grade => g.subject_id == id) data.grades]

/-- Witness of C5: deleting subject 1 of the worked example removes its two grades and
keeps the grade of subject 2. -/
theorem C5_delete_subject_witness :
    (∃ sb ∈ example_store.subjects, sb.id = 1) ∧
    (delete_subject example_store 1).1.grades
      = [{ id := 2, student_id := 1, subject_id := 2, value := 5, attempt := 1 }] ∧
    (delete_subject example_store 1).2 = Report.deleted 2 :=
  ⟨by decide,
   (C5_delete_subject example_store 1 (by decide)).2.2.1.trans (by decide),
   (C5_delete_subject example_store 1 (by decide)).2.2.2.1.trans (by decide)⟩

/-- The loop of `delete_group` rewrites the student vector element by element and
counts the rewritten students. -/
theorem delete_group_fold (id : Int) (l : List Student) (acc : List Student × Int) :
    l.foldl (delete_group_step id) acc =
      (acc.1 ++ l.map (fun st => if st.group_id = id then { st with group_id := 0 } else st),
       acc.2 + ((l.countP (fun st => st.group_id == id) : Nat) : Int)) := by
  induction l generalizing acc with
  | nil => simp
  | cons st l ih =>
    rw [List.foldl_cons, ih]
    by_cases h : st.group_id = id
    · simp [delete_group_step, h, List.countP_cons]
      ring
    · simp [delete_group_step, h, List.countP_cons]

/-- Claim C6. `delete_group` with the id `g` of an existing group removes the first group
that has the id and keeps the others in order; no student is deleted; the students
whose `group_id` was `g` get `group_id = 0` and every other student, and every
student's id and name, is unchanged; the reported number is the number of students that
pointed to `g`; subjects, grades and the four id counters are unchanged. -/
theorem C6_delete_group (data : DataStore) (id : Int)
    (hex : ∃ gr ∈ data.groups, gr.id = id) :
    (∃ l1 gr l2, data.groups = l1 ++ gr :: l2 ∧ gr.id = id ∧ (∀ x ∈ l1, x.id ≠ id) ∧
      (delete_group data id).1.groups = l1 ++ l2) ∧
    (delete_group data id).1.students
      = data.students.map (fun st => if st.group_id = id then { st with group_id := 0 } else st) ∧
    (delete_group data id).1.students.length = data.students.length ∧
    (delete_group data id).1.students.map Student.id = data.students.map Student.id ∧
    (delete_group data id).1.students.map Student.name = data.students.map Student.name ∧
    (delete_group data id).2
      = Report.deleted ((data.students.countP (fun st => st.group_id == id) : Nat) : Int) ∧
    (delete_group data id).1.subjects = data.subjects ∧
    (delete_group data id).1.grades = data.grades ∧
    (delete_group data id).1.next_student_id = data.next_student_id ∧
    (delete_group data id).1.next_group_id = data.next_group_id ∧
    (delete_group data id).1.next_subject_id = data.next_subject_id ∧
    (delete_group data id).1.next_grade_id = data.next_grade_id := by
  obtain ⟨gr0, hgr0, hid0⟩ := hex
  have hp0 : (fun g : Group => g.id == id) gr0 = true := by simp [hid0]
  have h1 : data.groups.isEmpty = false := isEmpty_false_of_mem hgr0
  have h2 : (data.groups.find? (fun g => g.id == id)).isNone = false :=
    find_isNone_false_of_mem _ hgr0 hp0
  have hdel : delete_group data id =
      ({ data with groups := data.groups.eraseP (fun g => g.id == id),
                   students := data.students.map
                     (fun st => if st.group_id = id then { st with group_id := 0 } else st) },
       Report.deleted ((data.students.countP (fun st => st.group_id == id) : Nat) : Int)) := by
    unfold delete_group
    simp only [h1, h2, Bool.false_eq_true, if_false, delete_group_fold, List.nil_append,
      zero_add]
  obtain ⟨l1, gr, l2, hsplit, hp, hl1, herase⟩ :=
    eraseP_split (fun g : Group => g.id == id) data.groups ⟨gr0, hgr0, hp0⟩
  have hgrid : gr.id = id := by simpa using hp
  rw [hdel]
  refine ⟨⟨l1, gr, l2, hsplit, hgrid, ?_, herase⟩, rfl, ?_, ?_, ?_, rfl, rfl, rfl, rfl, rfl,
    rfl, rfl⟩
  · intro x hx
    simpa using hl1 x hx
  · simp
  · simp only [List.map_map]
    apply List.map_congr_left
    intro st _
    simp only [Function.comp]
    split_ifs <;> rfl
  · simp only [List.map_map]
    apply List.map_congr_left
    intro st _
    simp only [Function.comp]
    split_ifs <;> rfl

/-- Witness of C6: deleting group 1 resets students 1 and 3 and nobody else. -/
theorem C6_delete_group_witness :
    (∃ gr ∈ group_store.groups, gr.id = 1) ∧
    (delete_group group_store 1).1.students.map Student.group_id = [0, 2, 0, 0] ∧
    (delete_group group_store 1).2 = Report.deleted 2 :=
  ⟨by decide,
   (congrArg (List.map Student.group_id)
     (C6_delete_group group_store 1 (by decide)).2.1).trans (by decide),
   (C6_delete_group group_store 1 (by decide)).2.2.2.2.2.1.trans (by decide)⟩

/-- Editing through the pointer of a `find_*` keeps every field that the edit keeps. -/
theorem modify_first_map {α β : Type} (p : α → Bool) (f : α → α) (key : α → β)
    (hkey : ∀ x, key (f x) = key x) (l : List α) :
    (modify_first p f l).map key = l.map key := by
  induction l with
  | nil => rfl
  | cons x xs ih =>
    unfold modify_first
    split_ifs
    · simp [hkey]
    · simp [ih]

theorem mem_modify_first {α : Type} (p : α → Bool) (f : α → α) (l : List α) (x : α)
    (h : x ∈ modify_first p f l) : x ∈ l ∨ ∃ y ∈ l, p y = true ∧ x = f y := by
  induction l with
  | nil => simp [modify_first] at h
  | cons a as ih =>
    unfold modify_first at h
    split_ifs at h with hp
    · rcases List.mem_cons.1 h with h | h
      · exact Or.inr ⟨a, List.mem_cons_self _ _, hp, h⟩
      · exact Or.inl (List.mem_cons_of_mem _ h)
    · rcases List.mem_cons.1 h with h | h
      · exact Or.inl (h ▸ List.mem_cons_self _ _)
      · rcases ih h with h | ⟨y, hy, hpy, hxy⟩
        · exact Or.inl (List.mem_cons_of_mem _ h)
        · exact Or.inr ⟨y, List.mem_cons_of_mem _ hy, hpy, hxy⟩

/-- Erasing the first record with an id keeps every other id in the collection. -/
theorem mem_map_eraseP_of_ne {α : Type} (key : α → Int) (id k : Int) (l : List α)
    (hk : k ∈ l.map key) (hne : k ≠ id) : k ∈ (l.eraseP (fun x => key x == id)).map key := by
  obtain ⟨y, hy, rfl⟩ := List.mem_map.1 hk
  apply List.mem_map_of_mem
  exact (List.mem_eraseP_of_neg (by simpa using hne)).2 hy

theorem ri_create_student (data : DataStore) (name : CppString) (group_id : Int)
    (hadm : group_id = 0 ∨ group_id ∈ data.groups.map Group.id)
    (hri : referential_integrity data) :
    referential_integrity (create_student_record data name group_id).1 := by
  obtain ⟨hg, hs⟩ := hri
  refine ⟨?_, ?_⟩
  · intro g hgm
    have := hg g hgm
    simp only [create_student_record, List.map_append, List.mem_append]
    exact ⟨Or.inl this.1, this.2⟩
  · intro st hst hne
    simp only [create_student_record, List.mem_append, List.mem_singleton] at hst
    rcases hst with hst | rfl
    · exact hs st hst hne
    · rcases hadm with h0 | h
      · exact absurd h0 hne
      · exact h

theorem ri_create_group (data : DataStore) (name : CppString)
    (hri : referential_integrity data) :
    referential_integrity (create_group_record data name).1 := by
  obtain ⟨hg, hs⟩ := hri
  refine ⟨hg, ?_⟩
  intro st hst hne
  simp only [create_group_record, List.map_append, List.mem_append]
  exact Or.inl (hs st hst hne)

theorem ri_add_subject (data : DataStore) (name : CppString)
    (hri : referential_integrity data) :
    referential_integrity (add_subject data name).1 := by
  obtain ⟨hg, hs⟩ := hri
  refine ⟨?_, hs⟩
  intro g hgm
  simp only [add_subject, List.map_append, List.mem_append]
  exact ⟨(hg g hgm).1, Or.inl (hg g hgm).2⟩

theorem ri_add_grade (data : DataStore) (student_id subject_id value : Int)
    (hadm : (student_id = 0 ∨ student_id ∈ data.students.map Student.id) ∧
      (subject_id = 0 ∨ subject_id ∈ data.subjects.map Subject.id))
    (hri : referential_integrity data) :
    referential_integrity (add_grade data student_id subject_id value).1 := by
  unfold add_grade
  split_ifs with h1 h2 h3 h4
  · exact hri
  · exact hri
  · exact hri
  · exact hri
  · obtain ⟨hg, hs⟩ := hri
    refine ⟨?_, hs⟩
    intro g hgm
    simp only [List.mem_append, List.mem_singleton] at hgm
    rcases hgm with hgm | rfl
    · exact hg g hgm
    · exact ⟨hadm.1.resolve_left h3, hadm.2.resolve_left h4⟩

theorem student_edit_id (rename : Option CppString) (regroup : Option Int) (s : Student) :
    (student_edit rename regroup s).id = s.id := by
  cases rename <;> cases regroup <;> rfl

theorem student_edit_group (rename : Option CppString) (regroup : Option Int) (s : Student) :
    (student_edit rename regroup s).group_id = regroup.getD s.group_id := by
  cases rename <;> cases regroup <;> rfl

theorem regroup_to_some (data : DataStore) (new_group : Option Int) (current g : Int)
    (h : regroup_to data new_group current = some g) : new_group = some g := by
  unfold regroup_to at h
  split_ifs at h
  cases new_group with
  | none => cases h
  | some v =>
    simp only at h
    split_ifs at h
    exact h

theorem ri_edit_student (data : DataStore) (id : Int) (new_name : CppString)
    (new_group : Option Int)
    (hadm : ∀ g, new_group = some g → g = 0 ∨ g ∈ data.groups.map Group.id)
    (hri : referential_integrity data) :
    referential_integrity (edit_student data id new_name new_group).1 := by
  unfold edit_student
  by_cases h1 : data.students.isEmpty = true
  · rw [if_pos h1]; exact hri
  · rw [if_neg h1]
    cases hfind : find_student data id with
    | none => exact hri
    | some student =>
      obtain ⟨hg, hs⟩ := hri
      simp only
      refine ⟨?_, ?_⟩
      · intro g hgm
        simp only
        rw [modify_first_map _ _ Student.id (student_edit_id _ _)]
        exact hg g hgm
      · intro st hst hne
        simp only at hst ⊢
        rcases mem_modify_first _ _ _ _ hst with hst | ⟨y, hy, -, rfl⟩
        · exact hs st hst hne
        · rw [student_edit_group] at hne ⊢
          cases hreg : regroup_to data new_group student.group_id with
          | none =>
            rw [hreg] at hne
            exact hs y hy hne
          | some g =>
            rw [hreg] at hne
            simp only [Option.getD_some] at hne ⊢
            rcases hadm g (regroup_to_some _ _ _ _ hreg) with h0 | h
            · exact absurd h0 hne
            · exact h

theorem group_edit_id (rename : Option CppString) (g : Group) :
    (group_edit rename g).id = g.id := by
  cases rename <;> rfl

theorem subject_edit_id (rename : Option CppString) (s : Subject) :
    (subject_edit rename s).id = s.id := by
  cases rename <;> rfl

theorem grade_edit_fields (revalue : Option Int) (g : Grade) :
    (grade_edit revalue g).id = g.id ∧ (grade_edit revalue g).student_id = g.student_id ∧
    (grade_edit revalue g).subject_id = g.subject_id ∧
    (grade_edit revalue g).attempt = g.attempt := by
  cases revalue <;> exact ⟨rfl, rfl, rfl, rfl⟩

theorem ri_edit_group (data : DataStore) (id : Int) (new_name : CppString)
    (hri : referential_integrity data) :
    referential_integrity (edit_group data id new_name).1 := by
  unfold edit_group
  by_cases h1 : data.groups.isEmpty = true
  · rw [if_pos h1]; exact hri
  · rw [if_neg h1]
    cases hfind : find_group data id with
    | none => exact hri
    | some group =>
      obtain ⟨hg, hs⟩ := hri
      refine ⟨hg, ?_⟩
      intro st hst hne
      simp only
      rw [modify_first_map _ _ Group.id (group_edit_id _)]
      exact hs st hst hne

theorem ri_edit_subject (data : DataStore) (id : Int) (new_name : CppString)
    (hri : referential_integrity data) :
    referential_integrity (edit_subject data id new_name).1 := by
  unfold edit_subject
  by_cases h1 : data.subjects.isEmpty = true
  · rw [if_pos h1]; exact hri
  · rw [if_neg h1]
    cases hfind : find_subject data id with
    | none => exact hri
    | some subject =>
      obtain ⟨hg, hs⟩ := hri
      refine ⟨?_, hs⟩
      intro g hgm
      simp only
      rw [modify_first_map _ _ Subject.id (subject_edit_id _)]
      exact hg g hgm

theorem ri_edit_grade (data : DataStore) (id : Int) (new_value : Option Int)
    (hri : referential_integrity data) :
    referential_integrity (edit_grade data id new_value).1 := by
  unfold edit_grade
  by_cases h1 : data.grades.isEmpty = true
  · rw [if_pos h1]; exact hri
  · rw [if_neg h1]
    cases hfind : find_grade data id with
    | none => exact hri
    | some grade =>
      obtain ⟨hg, hs⟩ := hri
      refine ⟨?_, hs⟩
      intro g hgm
      simp only at hgm ⊢
      rcases mem_modify_first _ _ _ _ hgm with hgm | ⟨y, hy, -, rfl⟩
      · exact hg g hgm
      · rw [(grade_edit_fields _ y).2.1, (grade_edit_fields _ y).2.2.1]
        exact hg y hy

theorem ri_delete_student (data : DataStore) (id : Int) (hri : referential_integrity data) :
    referential_integrity (delete_student data id).1 := by
  unfold delete_student
  split_ifs
  · exact hri
  · exact hri
  · obtain ⟨hg, hs⟩ := hri
    refine ⟨?_, ?_⟩
    · intro g hgm
      simp only at hgm ⊢
      have hm := List.mem_filter.1 hgm
      have hne : g.student_id ≠ id := by simpa using hm.2
      exact ⟨mem_map_eraseP_of_ne Student.id id _ _ (hg g hm.1).1 hne, (hg g hm.1).2⟩
    · intro st hst hne
      exact hs st (List.mem_of_mem_eraseP hst) hne

theorem ri_delete_subject (data : DataStore) (id : Int) (hri : referential_integrity data) :
    referential_integrity (delete_subject data id).1 := by
  unfold delete_subject
  split_ifs
  · exact hri
  · exact hri
  · obtain ⟨hg, hs⟩ := hri
    refine ⟨?_, hs⟩
    intro g hgm
    simp only at hgm ⊢
    have hm := List.mem_filter.1 hgm
    have hne : g.subject_id ≠ id := by simpa using hm.2
    exact ⟨(hg g hm.1).1, mem_map_eraseP_of_ne Subject.id id _ _ (hg g hm.1).2 hne⟩

theorem ri_delete_grade (data : DataStore) (id : Int) (hri : referential_integrity data) :
    referential_integrity (delete_grade data id).1 := by
  unfold delete_grade
  split_ifs
  · exact hri
  · exact hri
  · obtain ⟨hg, hs⟩ := hri
    refine ⟨?_, hs⟩
    intro g hgm
    exact hg g (List.mem_of_mem_eraseP hgm)

theorem ri_delete_group (data : DataStore) (id : Int) (hri : referential_integrity data) :
    referential_integrity (delete_group data id).1 := by
  unfold delete_group
  split_ifs
  · exact hri
  · exact hri
  · obtain ⟨hg, hs⟩ := hri
    simp only [delete_group_fold, List.nil_append]
    refine ⟨?_, ?_⟩
    · intro g hgm
      simp only [List.map_map] at hgm ⊢
      have hids : (data.students.map (Student.id ∘ fun st : Student =>
          if st.group_id = id then { st with group_id := 0 } else st))
          = data.students.map Student.id := by
        apply List.map_congr_left
        intro st _
        simp only [Function.comp]
        split_ifs <;> rfl
      rw [hids]
      exact hg g hgm
    · intro st hst hne
      simp only [List.mem_map] at hst
      obtain ⟨y, hy, rfl⟩ := hst
      by_cases hyg : y.group_id = id
      · simp [hyg] at hne
      · simp only [hyg, if_false] at hne ⊢
        exact mem_map_eraseP_of_ne Group.id id _ _ (hs y hy hne) hyg

/-- Claim C7. Referential integrity is preserved by every mutating operation of the core,
whatever answers its dialogue delivers: creating a student (with group 0 or an existing
group), creating a group or a subject, `add_grade` (for an existing student and
subject, or cancelled), the four edit operations and the four delete operations. -/
theorem C7_referential_integrity (data : DataStore) (op : Op)
    (hadm : dialogue_ok data op) (hri : referential_integrity data) :
    referential_integrity (exec data op).1 := by
  cases op with
  | create_student name group_id => exact ri_create_student data name group_id hadm hri
  | create_group name => exact ri_create_group data name hri
  | add_subject name => exact ri_add_subject data name hri
  | add_grade student_id subject_id value =>
    exact ri_add_grade data student_id subject_id value hadm hri
  | edit_student id new_name new_group =>
    apply ri_edit_student data id new_name new_group _ hri
    intro g hg
    subst hg
    exact hadm
  | edit_group id new_name => exact ri_edit_group data id new_name hri
  | edit_subject id new_name => exact ri_edit_subject data id new_name hri
  | edit_grade id new_value => exact ri_edit_grade data id new_value hri
  | delete_student id => exact ri_delete_student data id hri
  | delete_group id => exact ri_delete_group data id hri
  | delete_subject id => exact ri_delete_subject data id hri
  | delete_grade id => exact ri_delete_grade data id hri

/-- Witness of C7: adding a grade for the existing student 2 and subject 1 to a store
with referential integrity. -/
theorem C7_referential_integrity_witness :
    dialogue_ok group_store (Op.add_grade 2 1 5) ∧ referential_integrity group_store ∧
    referential_integrity (exec group_store (Op.add_grade 2 1 5)).1 ∧
    (exec group_store (Op.add_grade 2 1 5)).1.grades.length = 2 :=
  ⟨⟨Or.inr (by decide), Or.inr (by decide)⟩, by decide,
   C7_referential_integrity group_store (Op.add_grade 2 1 5)
     ⟨Or.inr (by decide), Or.inr (by decide)⟩ (by decide),
   by decide⟩

/-- Scanning the attempts 1, ..., m gives m + 1. -/
theorem foldl_max_range (m : Nat) :
    ((List.range' 1 m).map Int.ofNat).foldl (fun acc a => max acc (a + 1)) 1
      = (m : Int) + 1 := by
  induction m with
  | zero => simp
  | succ m ih =>
    rw [List.range'_concat, List.map_append, List.foldl_append, ih]
    simp only [List.map_cons, List.map_nil, List.foldl_cons, List.foldl_nil, mul_one]
    simp only [Int.ofNat_eq_coe]
    push_cast
    rw [max_eq_right]
    · ring
    · omega

/-- When the attempts of a pair are 1, ..., m in list order, `next_attempt` is m + 1. -/
theorem next_attempt_of_range (data : DataStore) (s j : Int) (m : Nat)
    (h : (pair_grades data s j).map Grade.attempt = (List.range' 1 m).map Int.ofNat) :
    next_attempt data s j = (m : Int) + 1 := by
  rw [next_attempt_eq_pair, ← foldl_max_range m, ← h, List.foldl_map]

theorem created_for_pair_cons_added (g : Grade) (rs : List Report) (s j : Int) :
    created_for_pair (Report.added g :: rs) s j =
      if g.student_id = s ∧ g.subject_id = j then g :: created_for_pair rs s j
      else created_for_pair rs s j := by
  unfold created_for_pair
  simp only [created_grades, List.filter_cons]
  by_cases h : g.student_id = s ∧ g.subject_id = j
  · simp [h.1, h.2]
  · rw [if_neg h]
    have hb : (g.student_id == s && g.subject_id == j) = false := by
      simp only [Bool.and_eq_false_imp, beq_iff_eq, beq_eq_false_iff_ne]
      intro h1 h2; exact h ⟨h1, h2⟩
    simp [hb]

theorem created_for_pair_cons_other (r : Report) (rs : List Report) (s j : Int)
    (h : ∀ g, r ≠ Report.added g) :
    created_for_pair (r :: rs) s j = created_for_pair rs s j := by
  unfold created_for_pair
  cases r with
  | added g => exact absurd rfl (h g)
  | _ => rfl

/-- The two outcomes of `add_grade`: nothing happens and no grade is reported, or the
grade with the next id and the next attempt number is appended and reported. -/
theorem add_grade_cases (data : DataStore) (student_id subject_id value : Int) :
    ((add_grade data student_id subject_id value).1 = data ∧
      (∀ g, (add_grade data student_id subject_id value).2 ≠ Report.added g) ∧
      (data.students = [] ∨ data.subjects = [] ∨ student_id = 0 ∨ subject_id = 0)) ∨
    (∃ d1 g, add_grade data student_id subject_id value = (d1, Report.added g) ∧
      g = { id := data.next_grade_id, student_id := student_id, subject_id := subject_id,
            value := value, attempt := next_attempt data student_id subject_id } ∧
      d1 = { data with next_grade_id := data.next_grade_id + 1, grades := data.grades ++ [g] } ∧
      data.students ≠ [] ∧ data.subjects ≠ [] ∧ student_id ≠ 0 ∧ subject_id ≠ 0) := by
  unfold add_grade
  split_ifs with h1 h2 h3 h4
  · exact Or.inl ⟨rfl, fun g => by simp, Or.inl (List.isEmpty_iff.1 h1)⟩
  · exact Or.inl ⟨rfl, fun g => by simp, Or.inr (Or.inl (List.isEmpty_iff.1 h2))⟩
  · exact Or.inl ⟨rfl, fun g => by simp, Or.inr (Or.inr (Or.inl h3))⟩
  · exact Or.inl ⟨rfl, fun g => by simp, Or.inr (Or.inr (Or.inr h4))⟩
  · refine Or.inr ⟨_, _, rfl, rfl, rfl, ?_, ?_, h3, h4⟩
    · intro h; exact h1 (List.isEmpty_iff.2 h)
    · intro h; exact h2 (List.isEmpty_iff.2 h)

theorem pair_grades_append (data d1 : DataStore) (g : Grade) (s j : Int)
    (h : d1.grades = data.grades ++ [g]) :
    pair_grades d1 s j =
      if g.student_id = s ∧ g.subject_id = j then pair_grades data s j ++ [g]
      else pair_grades data s j := by
  unfold pair_grades
  rw [h]
  simp only [List.filter_append, List.filter_cons, List.filter_nil]
  by_cases h : g.student_id = s ∧ g.subject_id = j
  · simp [h.1, h.2]
  · rw [if_neg h]
    have hb : (g.student_id == s && g.subject_id == j) = false := by
      simp only [Bool.and_eq_false_imp, beq_iff_eq, beq_eq_false_iff_ne]
      intro h1 h2; exact h ⟨h1, h2⟩
    simp [hb]

/-- A run of `add_grade` operations from a store in which the attempts of the pair are
1, ..., m: the grades created for the pair continue with m + 1, m + 2, ... -/
theorem run_add_grades (s j : Int) (reqs : List (Int × Int × Int)) :
    ∀ (data : DataStore) (m : Nat),
      (pair_grades data s j).map Grade.attempt = (List.range' 1 m).map Int.ofNat →
      (created_for_pair (run data (reqs.map add_grade_op)).2 s j).map Grade.attempt
        = (List.range' (1 + m)
            (created_for_pair (run data (reqs.map add_grade_op)).2 s j).length).map Int.ofNat ∧
      pair_grades (run data (reqs.map add_grade_op)).1 s j
        = pair_grades data s j ++ created_for_pair (run data (reqs.map add_grade_op)).2 s j ∧
      (data.students ≠ [] → data.subjects ≠ [] → s ≠ 0 → j ≠ 0 →
        (created_for_pair (run data (reqs.map add_grade_op)).2 s j).length
          = (reqs.filter (fun r => r.1 == s && r.2.1 == j)).length) := by
  induction reqs with
  | nil =>
    intro data m _
    simp [run, created_for_pair, created_grades]
  | cons r reqs ih =>
    intro data m hm
    obtain ⟨s', j', v⟩ := r
    simp only [List.map_cons, run, add_grade_op, exec]
    rcases add_grade_cases data s' j' v with ⟨hd, hr, hwhy⟩ | ⟨d1, g, heq, hg, hd1, hst, hsb, hs0, hj0⟩
    · rw [hd, created_for_pair_cons_other _ _ _ _ hr]
      obtain ⟨i1, i2, i3⟩ := ih data m hm
      refine ⟨i1, i2, ?_⟩
      intro a1 a2 a3 a4
      rw [i3 a1 a2 a3 a4, List.filter_cons]
      have hb : ((s' == s) && (j' == j)) = false := by
        rcases hwhy with h | h | h | h
        · exact absurd h a1
        · exact absurd h a2
        · have : s' ≠ s := by rw [h]; exact Ne.symm a3
          simp [this]
        · have : j' ≠ j := by rw [h]; exact Ne.symm a4
          simp [this]
      simp [hb]
    · rw [heq]
      simp only
      rw [created_for_pair_cons_added]
      have hgs : g.student_id = s' := by rw [hg]
      have hgj : g.subject_id = j' := by rw [hg]
      have hga : g.attempt = next_attempt data s' j' := by rw [hg]
      have hgrades : d1.grades = data.grades ++ [g] := by rw [hd1]
      have hstud : d1.students = data.students := by rw [hd1]
      have hsubj : d1.subjects = data.subjects := by rw [hd1]
      rw [hgs, hgj]
      by_cases hp : s' = s ∧ j' = j
      · obtain ⟨rfl, rfl⟩ := hp
        have hnext := next_attempt_of_range data s' j' m hm
        have hm1 : (pair_grades d1 s' j').map Grade.attempt
            = (List.range' 1 (m + 1)).map Int.ofNat := by
          rw [pair_grades_append data d1 g s' j' hgrades, if_pos ⟨hgs, hgj⟩, List.map_append, hm,
            List.range'_concat, List.map_append]
          simp only [List.map_cons, List.map_nil, hga, hnext, mul_one, Int.ofNat_eq_coe]
          push_cast
          congr 2
          ring
        obtain ⟨i1, i2, i3⟩ := ih d1 (m + 1) hm1
        rw [if_pos ⟨rfl, rfl⟩]
        refine ⟨?_, ?_, ?_⟩
        · simp only [List.map_cons, List.length_cons]
          rw [i1, List.range'_succ, List.map_cons, hga, hnext]
          have e1 : Int.ofNat (1 + m) = (m : Int) + 1 := by
            simp only [Int.ofNat_eq_coe]; push_cast; ring
          have e2 : 1 + m + 1 = 1 + (m + 1) := by ring
          rw [e1, e2]
        · rw [i2, pair_grades_append data d1 g s' j' hgrades, if_pos ⟨hgs, hgj⟩,
            List.append_assoc]
          rfl
        · intro a1 a2 a3 a4
          rw [List.length_cons, i3 (hstud ▸ a1) (hsubj ▸ a2) a3 a4, List.filter_cons]
          simp
      · have hp2 : ¬ (g.student_id = s ∧ g.subject_id = j) := by rw [hgs, hgj]; exact hp
        obtain ⟨i1, i2, i3⟩ := ih d1 m
            (by rw [pair_grades_append data d1 g s j hgrades, if_neg hp2]; exact hm)
        rw [if_neg hp]
        refine ⟨i1, ?_, ?_⟩
        · rw [i2, pair_grades_append data d1 g s j hgrades, if_neg hp2]
        · intro a1 a2 a3 a4
          rw [i3 (hstud ▸ a1) (hsubj ▸ a2) a3 a4, List.filter_cons]
          have hb : ((s' == s) && (j' == j)) = false := by
            simp only [Bool.and_eq_false_imp, beq_iff_eq, beq_eq_false_iff_ne]
            intro h1 h2; exact hp ⟨h1, h2⟩
          simp [hb]

/-- Claim C2. From a store that holds no grade for the pair `(s, j)`, after any sequence
of `add_grade` operations (for this pair and for any other pairs, in any interleaving)
the grades created for `(s, j)` carry, in creation order, exactly the attempt numbers
1, 2, ..., k, where k is their number; they are the grades of the pair in the final
store, in that order, and when the store has students and subjects and `s`, `j` are not
the cancelling answer 0, k is the number of requests made for the pair. -/
theorem C2_attempts_one_to_k (data : DataStore) (s j : Int) (reqs : List (Int × Int × Int))
    (hfresh : pair_grades data s j = []) :
    (created_for_pair (run data (reqs.map add_grade_op)).2 s j).map Grade.attempt
      = (List.range' 1
          (created_for_pair (run data (reqs.map add_grade_op)).2 s j).length).map Int.ofNat ∧
    pair_grades (run data (reqs.map add_grade_op)).1 s j
      = created_for_pair (run data (reqs.map add_grade_op)).2 s j ∧
    (data.students ≠ [] → data.subjects ≠ [] → s ≠ 0 → j ≠ 0 →
      (created_for_pair (run data (reqs.map add_grade_op)).2 s j).length
        = (reqs.filter (fun r => r.1 == s && r.2.1 == j)).length) := by
  have h := run_add_grades s j reqs data 0 (by rw [hfresh]; rfl)
  rw [hfresh] at h
  simpa using h

/-- Witness of C2: three grades for the pair (2, 1), interleaved with one for the
pair (1, 1), get the attempts 1, 2, 3. -/
theorem C2_attempts_one_to_k_witness :
    pair_grades group_store 2 1 = [] ∧
    (created_for_pair (run group_store
      ([(2, 1, 3), (1, 1, 4), (2, 1, 5), (2, 1, 2)].map add_grade_op)).2 2 1).map Grade.attempt
      = [1, 2, 3] := by
  refine ⟨by decide, ?_⟩
  have h := C2_attempts_one_to_k group_store 2 1 [(2, 1, 3), (1, 1, 4), (2, 1, 5), (2, 1, 2)]
    (by decide)
  have hlen := h.2.2 (by decide) (by decide) (by decide) (by decide)
  rw [h.1, hlen]
  decide

theorem id_step_same (k : Kind) (d : DataStore) : id_step k d d none :=
  Or.inl ⟨List.Sublist.refl _, rfl, fun _ h => by cases h⟩

theorem id_step_of_sublist (k : Kind) (d d1 : DataStore)
    (h1 : (ids_of k d1).Sublist (ids_of k d)) (h2 : counter_of k d1 = counter_of k d) :
    id_step k d d1 none :=
  Or.inl ⟨h1, h2, fun _ h => by cases h⟩

theorem exec_id_step (d : DataStore) (op : Op) (k : Kind) :
    id_step k d (exec d op).1 (assigned_id op (exec d op).2) := by
  cases op with
  | create_student name group_id =>
    cases k <;> simp [id_step, exec, create_student_record, assigned_id, ids_of, counter_of]
  | create_group name =>
    cases k <;> simp [id_step, exec, create_group_record, assigned_id, ids_of, counter_of]
  | add_subject name =>
    cases k <;> simp [id_step, exec, add_subject, assigned_id, ids_of, counter_of]
  | add_grade student_id subject_id value =>
    simp only [exec]
    rcases add_grade_cases d student_id subject_id value with
      ⟨hd, hr, -⟩ | ⟨d1, g, heq, hg, hd1, -⟩
    · rw [hd]
      refine Or.inl ⟨List.Sublist.refl _, rfl, ?_⟩
      intro x
      cases hrr : (add_grade d student_id subject_id value).2 with
      | added g => exact absurd hrr (hr g)
      | _ => simp [assigned_id]
    · rw [heq, hd1, hg]
      cases k <;> simp [id_step, assigned_id, ids_of, counter_of]
  | edit_student id new_name new_group =>
    have ha : assigned_id (Op.edit_student id new_name new_group)
        (exec d (Op.edit_student id new_name new_group)).2 = none := by simp [assigned_id]
    rw [ha]
    simp only [exec, edit_student]
    by_cases h1 : d.students.isEmpty = true
    · rw [if_pos h1]; exact id_step_same k d
    · rw [if_neg h1]
      cases find_student d id with
      | none => exact id_step_same k d
      | some student =>
        apply id_step_of_sublist
        · cases k <;> simp only [ids_of, List.Sublist.refl]
          rw [modify_first_map _ _ Student.id (student_edit_id _ _)]
        · cases k <;> rfl
  | edit_group id new_name =>
    have ha : assigned_id (Op.edit_group id new_name)
        (exec d (Op.edit_group id new_name)).2 = none := by simp [assigned_id]
    rw [ha]
    simp only [exec, edit_group]
    by_cases h1 : d.groups.isEmpty = true
    · rw [if_pos h1]; exact id_step_same k d
    · rw [if_neg h1]
      cases find_group d id with
      | none => exact id_step_same k d
      | some group =>
        apply id_step_of_sublist
        · cases k <;> simp only [ids_of, List.Sublist.refl]
          rw [modify_first_map _ _ Group.id (group_edit_id _)]
        · cases k <;> rfl
  | edit_subject id new_name =>
    have ha : assigned_id (Op.edit_subject id new_name)
        (exec d (Op.edit_subject id new_name)).2 = none := by simp [assigned_id]
    rw [ha]
    simp only [exec, edit_subject]
    by_cases h1 : d.subjects.isEmpty = true
    · rw [if_pos h1]; exact id_step_same k d
    · rw [if_neg h1]
      cases find_subject d id with
      | none => exact id_step_same k d
      | some subject =>
        apply id_step_of_sublist
        · cases k <;> simp only [ids_of, List.Sublist.refl]
          rw [modify_first_map _ _ Subject.id (subject_edit_id _)]
        · cases k <;> rfl
  | edit_grade id new_value =>
    have ha : assigned_id (Op.edit_grade id new_value)
        (exec d (Op.edit_grade id new_value)).2 = none := by simp [assigned_id]
    rw [ha]
    simp only [exec, edit_grade]
    by_cases h1 : d.grades.isEmpty = true
    · rw [if_pos h1]; exact id_step_same k d
    · rw [if_neg h1]
      cases find_grade d id with
      | none => exact id_step_same k d
      | some grade =>
        apply id_step_of_sublist
        · cases k <;> simp only [ids_of, List.Sublist.refl]
          rw [modify_first_map _ _ Grade.id (fun g => (grade_edit_fields _ g).1)]
        · cases k <;> rfl
  | delete_student id =>
    have ha : assigned_id (Op.delete_student id)
        (exec d (Op.delete_student id)).2 = none := by simp [assigned_id]
    rw [ha]
    simp only [exec, delete_student]
    split_ifs
    · exact id_step_same k d
    · exact id_step_same k d
    · apply id_step_of_sublist
      · cases k <;> simp only [ids_of, List.Sublist.refl]
        · exact List.Sublist.map _ (List.eraseP_sublist _)
        · exact List.Sublist.map _ (List.filter_sublist _)
      · cases k <;> rfl
  | delete_group id =>
    have ha : assigned_id (Op.delete_group id)
        (exec d (Op.delete_group id)).2 = none := by simp [assigned_id]
    rw [ha]
    simp only [exec, delete_group]
    split_ifs
    · exact id_step_same k d
    · exact id_step_same k d
    · apply id_step_of_sublist
      · cases k <;> simp only [ids_of, List.Sublist.refl]
        · simp only [delete_group_fold, List.nil_append, List.map_map]
          have hids : (d.students.map (Student.id ∘ fun st : Student =>
              if st.group_id = id then { st with group_id := 0 } else st))
              = d.students.map Student.id := by
            apply List.map_congr_left
            intro st _
            simp only [Function.comp]
            split_ifs <;> rfl
          rw [hids]
        · exact List.Sublist.map _ (List.eraseP_sublist _)
      · cases k <;> rfl
  | delete_subject id =>
    have ha : assigned_id (Op.delete_subject id)
        (exec d (Op.delete_subject id)).2 = none := by simp [assigned_id]
    rw [ha]
    simp only [exec, delete_subject]
    split_ifs
    · exact id_step_same k d
    · exact id_step_same k d
    · apply id_step_of_sublist
      · cases k <;> simp only [ids_of, List.Sublist.refl]
        · exact List.Sublist.map _ (List.eraseP_sublist _)
        · exact List.Sublist.map _ (List.filter_sublist _)
      · cases k <;> rfl
  | delete_grade id =>
    have ha : assigned_id (Op.delete_grade id)
        (exec d (Op.delete_grade id)).2 = none := by simp [assigned_id]
    rw [ha]
    simp only [exec, delete_grade]
    split_ifs
    · exact id_step_same k d
    · exact id_step_same k d
    · apply id_step_of_sublist
      · cases k <;> simp only [ids_of, List.Sublist.refl]
        exact List.Sublist.map _ (List.eraseP_sublist _)
      · cases k <;> rfl

theorem run_append (d : DataStore) (pre post : List Op) :
    (run d (pre ++ post)).1 = (run (run d pre).1 post).1 := by
  induction pre generalizing d with
  | nil => rfl
  | cons op pre ih =>
    show (run (exec d op).1 (pre ++ post)).1 = (run (run (exec d op).1 pre).1 post).1
    exact ih _

/-- One operation keeps the ids positive and below the counters, keeps the counters
positive, and never lowers a counter. -/
theorem exec_bounds (d : DataStore) (op : Op)
    (hids : ids_below_counters d) (hpos : counters_positive d) :
    ids_below_counters (exec d op).1 ∧ counters_positive (exec d op).1 ∧
    ∀ k, counter_of k d ≤ counter_of k (exec d op).1 := by
  refine ⟨?_, ?_, ?_⟩
  · intro k x hx
    rcases exec_id_step d op k with ⟨hsub, hc, -⟩ | ⟨hids1, hc, -⟩
    · rw [hc]; exact hids k x (hsub.subset hx)
    · rw [hc]
      rw [hids1, List.mem_append, List.mem_singleton] at hx
      rcases hx with hx | rfl
      · have := hids k x hx
        exact ⟨this.1, by omega⟩
      · exact ⟨hpos k, by omega⟩
  · intro k
    rcases exec_id_step d op k with ⟨-, hc, -⟩ | ⟨-, hc, -⟩
    · rw [hc]; exact hpos k
    · rw [hc]; have := hpos k; omega
  · intro k
    rcases exec_id_step d op k with ⟨-, hc, -⟩ | ⟨-, hc, -⟩
    · rw [hc]
    · rw [hc]; omega

theorem run_bounds (ops : List Op) :
    ∀ d : DataStore, ids_below_counters d → counters_positive d →
      ids_below_counters (run d ops).1 ∧ counters_positive (run d ops).1 ∧
      ∀ k, counter_of k d ≤ counter_of k (run d ops).1 := by
  induction ops with
  | nil => intro d h1 h2; exact ⟨h1, h2, fun _ => le_refl _⟩
  | cons op ops ih =>
    intro d h1 h2
    obtain ⟨e1, e2, e3⟩ := exec_bounds d op h1 h2
    obtain ⟨r1, r2, r3⟩ := ih (exec d op).1 e1 e2
    exact ⟨r1, r2, fun k => le_trans (e3 k) (r3 k)⟩

theorem exec_nodup (d : DataStore) (op : Op) (k : Kind)
    (hids : ids_below_counters d) (hnd : (ids_of k d).Nodup) :
    (ids_of k (exec d op).1).Nodup := by
  rcases exec_id_step d op k with ⟨hsub, -, -⟩ | ⟨hids1, -, -⟩
  · exact hnd.sublist hsub
  · rw [hids1]
    apply List.Nodup.append hnd (List.nodup_singleton _)
    intro x hx hx2
    rw [List.mem_singleton] at hx2
    have := (hids k x hx).2
    omega

theorem run_nodup (ops : List Op) (k : Kind) :
    ∀ d : DataStore, ids_below_counters d → counters_positive d → (ids_of k d).Nodup →
      (ids_of k (run d ops).1).Nodup := by
  induction ops with
  | nil => intro d _ _ h; exact h
  | cons op ops ih =>
    intro d h1 h2 h3
    obtain ⟨e1, e2, -⟩ := exec_bounds d op h1 h2
    exact ih (exec d op).1 e1 e2 (exec_nodup d op k h1 h3)

/-- The loop body of `filter_students` appends the student when no test of the body
skips it. -/
theorem filter_students_step_eq (data : DataStore) (f : Int) (ql : CppString) (use_min : Bool)
    (m : ℚ) (acc : List StudentResult) (st : Student) :
    filter_students_step data f ql use_min m acc st =
      if (¬ (f = -1 ∧ st.group_id ≠ 0) ∧ ¬ (f > 0 ∧ st.group_id ≠ f) ∧
         ¬ (!ql.isEmpty ∧ !(str_contains (to_lower_ascii st.name) ql)) ∧
         ¬ (use_min ∧ (average_subjects_for_student data st.id < 0 ∨
              average_subjects_for_student data st.id < m)))
      then acc ++ [{ student := st, avg := average_subjects_for_student data st.id }]
      else acc := by
  unfold filter_students_step
  by_cases h1 : f = -1 ∧ st.group_id ≠ 0
  · rw [if_pos h1, if_neg (fun h => h.1 h1)]
  · rw [if_neg h1]
    by_cases h2 : f > 0 ∧ st.group_id ≠ f
    · rw [if_pos h2, if_neg (fun h => h.2.1 h2)]
    · rw [if_neg h2]
      by_cases h3 : (!ql.isEmpty ∧ !(str_contains (to_lower_ascii st.name) ql))
      · rw [if_pos h3, if_neg (fun h => h.2.2.1 h3)]
      · rw [if_neg h3]
        by_cases h4 : (use_min ∧ (average_subjects_for_student data st.id < 0 ∨
              average_subjects_for_student data st.id < m))
        · simp only
          rw [if_pos h4, if_neg (fun h => h.2.2.2 h4)]
        · simp only
          rw [if_neg h4, if_pos ⟨h1, h2, h3, h4⟩]

/-- The loop of `filter_students` appends, in list order, the students that pass all
the tests of its body. -/
theorem filter_students_foldl (data : DataStore) (f : Int) (ql : CppString) (use_min : Bool)
    (m : ℚ) (l : List Student) (acc : List StudentResult) :
    l.foldl (filter_students_step data f ql use_min m) acc =
      acc ++ (l.filter (fun st => decide
        (¬ (f = -1 ∧ st.group_id ≠ 0) ∧ ¬ (f > 0 ∧ st.group_id ≠ f) ∧
         ¬ (!ql.isEmpty ∧ !(str_contains (to_lower_ascii st.name) ql)) ∧
         ¬ (use_min ∧ (average_subjects_for_student data st.id < 0 ∨
              average_subjects_for_student data st.id < m))))).map
        (fun st => { student := st, avg := average_subjects_for_student data st.id }) := by
  induction l generalizing acc with
  | nil => simp
  | cons st l ih =>
    rw [List.foldl_cons, ih, List.filter_cons, filter_students_step_eq]
    split_ifs with h h' h'
    · simp
    · exact absurd (decide_eq_true h) h'
    · exact absurd (of_decide_eq_true h') h
    · rfl

/-- A student with a grade, in a store without negative grade values, has a
non-negative overall average. -/
theorem average_nonneg (data : DataStore) (s : Int)
    (hval : ∀ g ∈ data.grades, 0 ≤ g.value) (hgrade : ∃ g ∈ data.grades, g.student_id = s) :
    0 ≤ average_subjects_for_student data s := by
  have hne : subject_aggregates_for_student data s ≠ [] := by
    obtain ⟨g, hg, hs⟩ := hgrade
    have hmem : g ∈ pair_grades data s g.subject_id := by
      apply List.mem_filter.2
      exact ⟨hg, by simp [hs]⟩
    have := (aggregates_mem_iff data s g.subject_id _).2 ⟨List.ne_nil_of_mem hmem, rfl⟩
    exact List.ne_nil_of_mem this
  have hfold := average_fold (subject_mean data s) _ (aggregates_entry_mean data s) (0, 0)
  unfold average_subjects_for_student
  have hemp : (subject_aggregates_for_student data s).isEmpty = false := by
    cases h : subject_aggregates_for_student data s with
    | nil => exact absurd h hne
    | cons _ _ => rfl
  have hpos : 0 < (subject_aggregates_for_student data s).length := List.length_pos.2 hne
  have hnz : ¬ ((subject_aggregates_for_student data s).length : Int) = 0 := by
    exact_mod_cast (Nat.pos_iff_ne_zero.1 hpos)
  simp only [hemp, hfold, zero_add]
  rw [if_neg (by simp), if_neg hnz]
  apply div_nonneg
  · apply List.sum_nonneg
    intro x hx
    simp only [List.mem_map] at hx
    obtain ⟨j, -, rfl⟩ := hx
    unfold subject_mean
    apply div_nonneg
    · have : 0 ≤ ((pair_grades data s j).map Grade.value).sum := by
        apply List.sum_nonneg
        intro v hv
        obtain ⟨g, hg, rfl⟩ := List.mem_map.1 hv
        exact hval g (List.mem_of_mem_filter hg)
      exact_mod_cast this
    · exact Nat.cast_nonneg _
  · exact_mod_cast Int.natCast_nonneg _

theorem average_of_no_grades (data : DataStore) (s : Int)
    (h : ¬ ∃ g ∈ data.grades, g.student_id = s) : average_subjects_for_student data s = -1 := by
  unfold average_subjects_for_student
  rw [aggregates_nil_of_no_grades data s (fun g hg hs => h ⟨g, hg, hs⟩)]
  rfl

/-- Claim C12. When the minimum-average filter is in use, whatever the threshold (zero
and negative values included), the group filter and the name query, every student in
the result of `filter_students` has at least one grade. -/
theorem C12_min_filter_excludes_ungraded (data : DataStore) (f : Int) (q : CppString) (m : ℚ)
    (r : StudentResult) (hr : r ∈ filter_students data f q true m) :
    (∃ g ∈ data.grades, g.student_id = r.student.id) ∧
    r.avg = average_subjects_for_student data r.student.id ∧ r.avg ≠ -1 ∧ m ≤ r.avg := by
  unfold filter_students at hr
  rw [filter_students_foldl, List.nil_append, List.mem_map] at hr
  obtain ⟨st, hst, rfl⟩ := hr
  have hkeep := of_decide_eq_true (List.mem_filter.1 hst).2
  have h4 := hkeep.2.2.2
  have hge : 0 ≤ average_subjects_for_student data st.id := by
    by_contra hc
    exact h4 ⟨rfl, Or.inl (not_le.1 hc)⟩
  have hm : m ≤ average_subjects_for_student data st.id := by
    by_contra hc
    exact h4 ⟨rfl, Or.inr (not_le.1 hc)⟩
  refine ⟨?_, rfl, ?_, hm⟩
  · by_contra hno
    rw [average_of_no_grades data st.id hno] at hge
    norm_num at hge
  · simp only
    intro h
    rw [h] at hge
    norm_num at hge

/-- Witness of C12: with the minimum -5 in use the student without grades is not
listed, and without the minimum the student is listed. -/
theorem C12_min_filter_excludes_ungraded_witness :
    filter_students query_store 0 [] true (-5) = [] ∧
    (filter_students query_store 0 [] false (-5)).length = 1 ∧
    (∀ r ∈ filter_students example_store 0 [] true 4,
      ∃ g ∈ example_store.grades, g.student_id = r.student.id) := by
  refine ⟨?_, by decide, ?_⟩
  · apply List.eq_nil_iff_forall_not_mem.2
    intro r hr
    obtain ⟨⟨g, hg, -⟩, -⟩ := C12_min_filter_excludes_ungraded query_store 0 [] (-5) r hr
    simp [query_store, DataStore.empty] at hg
  · intro r hr
    exact (C12_min_filter_excludes_ungraded example_store 0 [] 4 r hr).1

/-! ### `std::sort` -/

theorem sort_insert_perm {α : Type} (comp : α → α → Bool) (x : α) (l : List α) :
    (sort_insert comp x l).Perm (x :: l) := by
  induction l with
  | nil => exact List.Perm.refl _
  | cons y ys ih =>
    unfold sort_insert
    split_ifs
    · exact List.Perm.refl _
    · exact (List.Perm.cons y ih).trans (List.Perm.swap x y ys)

theorem std_sort_perm {α : Type} (comp : α → α → Bool) (l : List α) :
    (std_sort comp l).Perm l := by
  induction l with
  | nil => exact List.Perm.refl _
  | cons x xs ih =>
    unfold std_sort
    exact (sort_insert_perm comp x _).trans (List.Perm.cons x ih)

/-- Inserting into a strictly sorted list an element comparable with all of it. -/
theorem sort_insert_sorted {α : Type} (comp : α → α → Bool)
    (htrans : ∀ a b c, comp a b = true → comp b c = true → comp a c = true)
    (x : α) (l : List α) (hl : l.Pairwise (fun a b => comp a b = true))
    (hx : ∀ y ∈ l, comp x y = true ∨ comp y x = true) :
    (sort_insert comp x l).Pairwise (fun a b => comp a b = true) := by
  induction l with
  | nil => simp [sort_insert]
  | cons y ys ih =>
    rw [List.pairwise_cons] at hl
    unfold sort_insert
    by_cases hxy : comp x y = true
    · rw [if_pos hxy]
      refine List.pairwise_cons.2 ⟨?_, List.pairwise_cons.2 hl⟩
      intro z hz
      rcases List.mem_cons.1 hz with rfl | hz
      · exact hxy
      · exact htrans _ _ _ hxy (hl.1 z hz)
    · rw [if_neg hxy]
      have hyx : comp y x = true := (hx y (List.mem_cons_self _ _)).resolve_left hxy
      refine List.pairwise_cons.2 ⟨?_, ih hl.2 (fun z hz => hx z (List.mem_cons_of_mem _ hz))⟩
      intro z hz
      rcases List.mem_cons.1 ((sort_insert_perm comp x ys).subset hz) with rfl | hz
      · exact hyx
      · exact hl.1 z hz

/-- Sorting a list whose elements are pairwise comparable gives a strictly sorted list. -/
theorem std_sort_sorted {α : Type} (comp : α → α → Bool)
    (htrans : ∀ a b c, comp a b = true → comp b c = true → comp a c = true)
    (l : List α) (hl : l.Pairwise (fun a b => comp a b = true ∨ comp b a = true)) :
    (std_sort comp l).Pairwise (fun a b => comp a b = true) := by
  induction l with
  | nil => simp [std_sort]
  | cons x xs ih =>
    rw [List.pairwise_cons] at hl
    unfold std_sort
    apply sort_insert_sorted comp htrans x _ (ih hl.2)
    intro y hy
    exact hl.1 y ((std_sort_perm comp xs).subset hy)

/-- Two strictly sorted lists with the same elements are equal. -/
theorem sorted_perm_unique {α : Type} (comp : α → α → Bool)
    (hirr : ∀ a, comp a a = false)
    (htrans : ∀ a b c, comp a b = true → comp b c = true → comp a c = true)
    (l1 l2 : List α) (hp : l1.Perm l2)
    (h1 : l1.Pairwise (fun a b => comp a b = true))
    (h2 : l2.Pairwise (fun a b => comp a b = true)) : l1 = l2 := by
  haveI : IsAntisymm α (fun a b => comp a b = true) :=
    ⟨fun a b hab hba => by
      have := htrans a b a hab hba
      rw [hirr a] at this
      cases this⟩
  exact List.eq_of_perm_of_sorted hp h1 h2

/-! ### Comparison of strings -/

theorem string_lt_irrefl (a : CppString) : string_lt a a = false := by
  induction a with
  | nil => rfl
  | cons x xs ih => simp [string_lt, ih]

theorem string_lt_cons (a b : Nat) (as bs : CppString) :
    string_lt (a :: as) (b :: bs) = true ↔ a < b ∨ (a = b ∧ string_lt as bs = true) := by
  simp only [string_lt]
  by_cases h1 : a < b
  · simp [h1]
  · by_cases h2 : b < a
    · simp [h1, h2]
      intro h; omega
    · have : a = b := by omega
      simp [h1, h2, this]

theorem string_lt_trans (a b c : CppString) :
    string_lt a b = true → string_lt b c = true → string_lt a c = true := by
  induction a generalizing b c with
  | nil =>
    intro h1 h2
    cases b with
    | nil => simp [string_lt] at h1
    | cons y ys =>
      cases c with
      | nil => simp [string_lt] at h2
      | cons z zs => simp [string_lt]
  | cons x xs ih =>
    intro h1 h2
    cases b with
    | nil => simp [string_lt] at h1
    | cons y ys =>
      cases c with
      | nil => simp [string_lt] at h2
      | cons z zs =>
        rw [string_lt_cons] at h1 h2 ⊢
        rcases h1 with h1 | ⟨rfl, h1⟩
        · rcases h2 with h2 | ⟨rfl, h2⟩
          · exact Or.inl (lt_trans h1 h2)
          · exact Or.inl h1
        · rcases h2 with h2 | ⟨rfl, h2⟩
          · exact Or.inl h2
          · exact Or.inr ⟨rfl, ih ys zs h1 h2⟩

theorem string_lt_total (a b : CppString) (h : a ≠ b) :
    string_lt a b = true ∨ string_lt b a = true := by
  induction a generalizing b with
  | nil =>
    cases b with
    | nil => exact absurd rfl h
    | cons y ys => left; simp [string_lt]
  | cons x xs ih =>
    cases b with
    | nil => right; simp [string_lt]
    | cons y ys =>
      rw [string_lt_cons, string_lt_cons]
      rcases lt_trichotomy x y with hlt | heq | hgt
      · exact Or.inl (Or.inl hlt)
      · subst heq
        have hne : xs ≠ ys := fun h' => h (by rw [h'])
        rcases ih ys hne with h1 | h1
        · exact Or.inl (Or.inr ⟨rfl, h1⟩)
        · exact Or.inr (Or.inr ⟨rfl, h1⟩)
      · exact Or.inr (Or.inl hgt)

/-! ### Comparators with the id as last tie-break -/

theorem lex_by_irrefl {α K : Type} (ltK : K → K → Prop) (key : α → K) (ident : α → Int)
    (a : α) : ¬ lex_by ltK key ident a a := by
  rintro (⟨h, -⟩ | ⟨-, h⟩)
  · exact h rfl
  · exact lt_irrefl _ h

theorem lex_by_trans {α K : Type} (ltK : K → K → Prop) (key : α → K) (ident : α → Int)
    (hirr : ∀ x, ¬ ltK x x) (htr : ∀ x y z, ltK x y → ltK y z → ltK x z)
    (a b c : α) : lex_by ltK key ident a b → lex_by ltK key ident b c →
      lex_by ltK key ident a c := by
  rintro (⟨-, h1⟩ | ⟨e1, h1⟩) (⟨-, h2⟩ | ⟨e2, h2⟩)
  · have h := htr _ _ _ h1 h2
    exact Or.inl ⟨fun e => hirr _ (e ▸ h), h⟩
  · rw [e2] at h1
    exact Or.inl ⟨fun e => hirr _ (e ▸ h1), h1⟩
  · rw [← e1] at h2
    exact Or.inl ⟨fun e => hirr _ (e ▸ h2), h2⟩
  · exact Or.inr ⟨e1.trans e2, lt_trans h1 h2⟩

theorem lex_by_total {α K : Type} (ltK : K → K → Prop) (key : α → K) (ident : α → Int)
    (htot : ∀ x y, x ≠ y → ltK x y ∨ ltK y x)
    (a b : α) (hid : ident a ≠ ident b) :
    lex_by ltK key ident a b ∨ lex_by ltK key ident b a := by
  by_cases hk : key a = key b
  · rcases lt_or_gt_of_ne hid with h | h
    · exact Or.inl (Or.inr ⟨hk, h⟩)
    · exact Or.inr (Or.inr ⟨hk.symm, h⟩)
  · rcases htot _ _ hk with h | h
    · exact Or.inl (Or.inl ⟨hk, h⟩)
    · exact Or.inr (Or.inl ⟨fun e => hk e.symm, h⟩)

theorem cmp_asc_iff (sort_key : Int) (a b : StudentResult) :
    cmp_asc sort_key a b = true ↔
      if sort_key = 1 then
        lex_by (fun _ _ : Unit => False) (fun _ => ()) (fun r => r.student.id) a b
      else if sort_key = 2 then
        lex_by (fun x y => string_lt x y = true) (fun r => to_lower_ascii r.student.name)
          (fun r => r.student.id) a b
      else lex_by (fun x y : ℚ => x < y) StudentResult.avg (fun r => r.student.id) a b := by
  unfold cmp_asc lex_by
  by_cases h1 : sort_key = 1
  · simp [h1]
  · by_cases h2 : sort_key = 2
    · simp only [h1, h2, if_false, if_true]
      by_cases hn : to_lower_ascii a.student.name = to_lower_ascii b.student.name
      · simp [hn]
      · simp [hn]
    · simp only [h1, h2, if_false]
      by_cases hn : a.avg = b.avg
      · simp [hn]
      · simp [hn]

/-- The comparator `cmp_asc` is irreflexive and transitive, and it orders any two
entries with different student ids. -/
theorem cmp_asc_order (sort_key : Int) :
    (∀ a, cmp_asc sort_key a a = false) ∧
    (∀ a b c, cmp_asc sort_key a b = true → cmp_asc sort_key b c = true →
      cmp_asc sort_key a c = true) ∧
    (∀ a b : StudentResult, a.student.id ≠ b.student.id →
      cmp_asc sort_key a b = true ∨ cmp_asc sort_key b a = true) := by
  refine ⟨?_, ?_, ?_⟩
  · intro a
    have h : ¬ cmp_asc sort_key a a = true := by
      rw [cmp_asc_iff]
      split_ifs <;> exact lex_by_irrefl _ _ _ a
    simpa using h
  · intro a b c
    rw [cmp_asc_iff, cmp_asc_iff, cmp_asc_iff]
    split_ifs
    · exact lex_by_trans _ _ _ (fun _ h => h) (fun _ _ _ h _ => h) a b c
    · exact lex_by_trans _ _ _ (fun x h => by rw [string_lt_irrefl] at h; cases h)
        string_lt_trans a b c
    · exact lex_by_trans _ _ _ (fun x => lt_irrefl x) (fun _ _ _ => lt_trans) a b c
  · intro a b hid
    rw [cmp_asc_iff, cmp_asc_iff]
    split_ifs
    · exact lex_by_total _ _ _ (fun x y h => absurd rfl h) a b hid
    · exact lex_by_total _ _ _ string_lt_total a b hid
    · exact lex_by_total _ _ _ (fun x y h => lt_or_gt_of_ne h) a b hid

theorem search_cmp_order (sort_key : Int) (asc : Bool) :
    (∀ a, search_cmp sort_key asc a a = false) ∧
    (∀ a b c, search_cmp sort_key asc a b = true → search_cmp sort_key asc b c = true →
      search_cmp sort_key asc a c = true) ∧
    (∀ a b : StudentResult, a.student.id ≠ b.student.id →
      search_cmp sort_key asc a b = true ∨ search_cmp sort_key asc b a = true) := by
  obtain ⟨h1, h2, h3⟩ := cmp_asc_order sort_key
  cases asc
  · refine ⟨fun a => h1 a, fun a b c hab hbc => h2 c b a hbc hab, fun a b hid => ?_⟩
    exact (h3 a b hid).symm
  · exact ⟨fun a => h1 a, fun a b c hab hbc => h2 a b c hab hbc, fun a b hid => h3 a b hid⟩

/-- For a comparator that is a strict total order on the elements of a list without
repetitions, the result of `std_sort` is the only strictly sorted list with these
elements, and every permutation of the list is sorted to it. -/
theorem std_sort_canonical {α : Type} (comp : α → α → Bool)
    (hirr : ∀ a, comp a a = false)
    (htrans : ∀ a b c, comp a b = true → comp b c = true → comp a c = true)
    (l : List α) (hnd : l.Nodup)
    (htot : ∀ a ∈ l, ∀ b ∈ l, a ≠ b → comp a b = true ∨ comp b a = true) :
    (std_sort comp l).Pairwise (fun a b => comp a b = true) ∧
    (∀ out : List α, out.Perm l → out.Pairwise (fun a b => comp b a = false) →
      out = std_sort comp l) ∧
    (∀ l2 : List α, l2.Perm l → std_sort comp l2 = std_sort comp l) := by
  have hstrict : ∀ l2 : List α, l2.Perm l →
      (std_sort comp l2).Pairwise (fun a b => comp a b = true) := by
    intro l2 hp
    apply std_sort_sorted comp htrans
    apply (hp.nodup_iff.2 hnd).pairwise_of_forall_ne
    intro a ha b hb hne
    exact htot a (hp.subset ha) b (hp.subset hb) hne
  refine ⟨hstrict l (List.Perm.refl _), ?_, ?_⟩
  · intro out hp hsorted
    have hcomp : out.Pairwise (fun a b => comp a b = true ∨ comp b a = true) := by
      apply (hp.nodup_iff.2 hnd).pairwise_of_forall_ne
      intro a ha b hb hne
      exact htot a (hp.subset ha) b (hp.subset hb) hne
    have hout : out.Pairwise (fun a b => comp a b = true) := by
      refine (hsorted.and hcomp).imp ?_
      rintro a b ⟨h1, h2 | h2⟩
      · exact h2
      · rw [h1] at h2; cases h2
    exact sorted_perm_unique comp hirr htrans _ _
      (hp.trans (std_sort_perm comp l).symm) hout (hstrict l (List.Perm.refl _))
  · intro l2 hp
    exact sorted_perm_unique comp hirr htrans _ _
      (((std_sort_perm comp l2).trans hp).trans (std_sort_perm comp l).symm)
      (hstrict l2 hp) (hstrict l (List.Perm.refl _))

/-- Claim C13. On a result set with pairwise distinct student ids, for every sort key
and either order, the comparator of `students_search_menu` is a strict total order
(irreflexive, transitive, and any two different entries are ordered one way); hence
the sorted list is the only sorted arrangement of the set, any permutation of the set
is sorted to the same list, sorting a sorted list changes nothing, and sorting by name,
then by id, then by name again gives the same list as sorting by name once. -/
theorem C13_sort_total_order (rs : List StudentResult) (sort_key : Int) (asc : Bool)
    (hnd : (rs.map (fun r => r.student.id)).Nodup) :
    ((∀ a, search_cmp sort_key asc a a = false) ∧
     (∀ a b c, search_cmp sort_key asc a b = true → search_cmp sort_key asc b c = true →
        search_cmp sort_key asc a c = true) ∧
     (∀ a ∈ rs, ∀ b ∈ rs, a ≠ b →
        search_cmp sort_key asc a b = true ∨ search_cmp sort_key asc b a = true)) ∧
    (std_sort (search_cmp sort_key asc) rs).Perm rs ∧
    (std_sort (search_cmp sort_key asc) rs).Pairwise
      (fun a b => search_cmp sort_key asc a b = true) ∧
    (∀ out : List StudentResult, out.Perm rs →
      out.Pairwise (fun a b => search_cmp sort_key asc b a = false) →
      out = std_sort (search_cmp sort_key asc) rs) ∧
    (∀ rs2 : List StudentResult, rs2.Perm rs →
      std_sort (search_cmp sort_key asc) rs2 = std_sort (search_cmp sort_key asc) rs) ∧
    std_sort (search_cmp sort_key asc) (std_sort (search_cmp sort_key asc) rs)
      = std_sort (search_cmp sort_key asc) rs ∧
    (∀ asc1 : Bool,
      std_sort (search_cmp 2 asc) (std_sort (search_cmp 1 asc1) (std_sort (search_cmp 2 asc) rs))
        = std_sort (search_cmp 2 asc) rs) := by
  have hnodup : rs.Nodup := List.Nodup.of_map _ hnd
  have hids : ∀ a ∈ rs, ∀ b ∈ rs, a ≠ b → a.student.id ≠ b.student.id :=
    fun a ha b hb hne hid => hne (List.inj_on_of_nodup_map hnd ha hb hid)
  have htot : ∀ (k : Int) (o : Bool), ∀ a ∈ rs, ∀ b ∈ rs, a ≠ b →
      search_cmp k o a b = true ∨ search_cmp k o b a = true :=
    fun k o a ha b hb hne => (search_cmp_order k o).2.2 a b (hids a ha b hb hne)
  have hcanon : ∀ (k : Int) (o : Bool), _ := fun k o =>
    std_sort_canonical (search_cmp k o) (search_cmp_order k o).1 (search_cmp_order k o).2.1
      rs hnodup (htot k o)
  refine ⟨⟨(search_cmp_order sort_key asc).1, (search_cmp_order sort_key asc).2.1,
    htot sort_key asc⟩, std_sort_perm _ rs, (hcanon sort_key asc).1, (hcanon sort_key asc).2.1,
    (hcanon sort_key asc).2.2, ?_, ?_⟩
  · exact (hcanon sort_key asc).2.2 _ (std_sort_perm _ rs)
  · intro asc1
    apply (hcanon 2 asc).2.2
    exact (std_sort_perm _ _).trans (std_sort_perm _ rs)

/-- Witness of C13: three entries with the same lowercased name and the same average
are ordered by id, whatever their order in the input. -/
theorem C13_sort_total_order_witness :
    (tie_results.map (fun r => r.student.id)).Nodup ∧
    (std_sort (search_cmp 2 true) tie_results).map (fun r => r.student.id) = [1, 2, 3] ∧
    std_sort (search_cmp 2 true) tie_results.reverse = std_sort (search_cmp 2 true) tie_results :=
  ⟨by decide, by decide,
   (C13_sort_total_order tie_results 2 true (by decide)).2.2.2.2.1 tie_results.reverse
     (List.reverse_perm _)⟩

/-! ### UTF-8 -/

set_option maxRecDepth 100000 in
theorem lead_byte_2 : ∀ n : Fin 256,
    starts_char (UInt8.toNat (UInt8.ofNat n.val &&& 31 ||| 192)) = true := by decide

set_option maxRecDepth 100000 in
theorem lead_byte_3 : ∀ n : Fin 256,
    starts_char (UInt8.toNat (UInt8.ofNat n.val &&& 15 ||| 224)) = true := by decide

set_option maxRecDepth 100000 in
theorem lead_byte_4 : ∀ n : Fin 256,
    starts_char (UInt8.toNat (UInt8.ofNat n.val &&& 7 ||| 240)) = true := by decide

set_option maxRecDepth 100000 in
theorem continuation_byte : ∀ n : Fin 256,
    starts_char (UInt8.toNat (UInt8.ofNat n.val &&& 63 ||| 128)) = false := by decide

theorem ascii_byte : ∀ n, n < 128 → starts_char n = true := by decide

theorem uint8_ofNat_toNat (x : UInt8) : UInt8.ofNat x.toNat = x := by
  cases x with
  | mk bv => simp [UInt8.ofNat, UInt8.toNat]

theorem lead2 (x : UInt8) : starts_char (UInt8.toNat (x &&& 31 ||| 192)) = true := by
  have h := lead_byte_2 ⟨x.toNat, UInt8.toNat_lt_size x⟩
  simpa only [uint8_ofNat_toNat] using h

theorem lead3 (x : UInt8) : starts_char (UInt8.toNat (x &&& 15 ||| 224)) = true := by
  have h := lead_byte_3 ⟨x.toNat, UInt8.toNat_lt_size x⟩
  simpa only [uint8_ofNat_toNat] using h

theorem lead4 (x : UInt8) : starts_char (UInt8.toNat (x &&& 7 ||| 240)) = true := by
  have h := lead_byte_4 ⟨x.toNat, UInt8.toNat_lt_size x⟩
  simpa only [uint8_ofNat_toNat] using h

theorem cont (x : UInt8) : starts_char (UInt8.toNat (x &&& 63 ||| 128)) = false := by
  have h := continuation_byte ⟨x.toNat, UInt8.toNat_lt_size x⟩
  simpa only [uint8_ofNat_toNat] using h

/-- The encoding of one code point is a byte that starts a character followed by
continuation bytes only. -/
theorem encode_char_shape (c : Char) :
    ∃ b rest, (String.utf8EncodeChar c).map UInt8.toNat = b :: rest ∧
      starts_char b = true ∧ ∀ x ∈ rest, starts_char x = false := by
  unfold String.utf8EncodeChar
  simp only
  split_ifs with h1 h2 h3
  · refine ⟨_, [], rfl, ?_, by simp⟩
    apply ascii_byte
    have hv : c.val.toNat ≤ 127 := h1
    simp only [UInt32.toUInt8, Nat.toUInt8, UInt8.ofNat, UInt8.toNat, BitVec.toNat_ofNat]
    omega
  · refine ⟨_, _, rfl, lead2 _, ?_⟩
    intro x hx
    simp only [List.map_cons, List.map_nil, List.mem_singleton] at hx
    subst hx
    exact cont _
  · refine ⟨_, _, rfl, lead3 _, ?_⟩
    intro x hx
    simp only [List.map_cons, List.map_nil, List.mem_cons, List.mem_singleton,
      List.not_mem_nil, or_false] at hx
    rcases hx with rfl | rfl <;> exact cont _
  · refine ⟨_, _, rfl, lead4 _, ?_⟩
    intro x hx
    simp only [List.map_cons, List.map_nil, List.mem_cons, List.mem_singleton,
      List.not_mem_nil, or_false] at hx
    rcases hx with rfl | rfl | rfl <;> exact cont _

theorem utf8_encode_cons (c : Char) (cs : List Char) :
    utf8_encode (c :: cs) = (String.utf8EncodeChar c).map UInt8.toNat ++ utf8_encode cs := by
  simp [utf8_encode, List.flatMap_cons]

theorem utf8_encode_append (as bs : List Char) :
    utf8_encode (as ++ bs) = utf8_encode as ++ utf8_encode bs := by
  simp [utf8_encode, List.flatMap_append]

/-! ### `utf8_length` -/

theorem utf8_length_foldl (l : CppString) (n : Nat) :
    l.foldl (fun count c => if starts_char c then count + 1 else count) n
      = n + utf8_length l := by
  unfold utf8_length
  induction l generalizing n with
  | nil => rfl
  | cons c l ih =>
    simp only [List.foldl_cons]
    rw [ih, ih (if starts_char c = true then 0 + 1 else 0)]
    split_ifs <;> omega

theorem utf8_length_cons (c : Nat) (l : CppString) :
    utf8_length (c :: l) = (if starts_char c then 1 else 0) + utf8_length l := by
  show (c :: l).foldl _ 0 = _
  rw [List.foldl_cons, utf8_length_foldl]

theorem utf8_length_append (a b : CppString) :
    utf8_length (a ++ b) = utf8_length a + utf8_length b := by
  induction a with
  | nil => simp [utf8_length]
  | cons c a ih => rw [List.cons_append, utf8_length_cons, utf8_length_cons, ih]; omega

theorem utf8_length_continuation (l : CppString) (h : ∀ x ∈ l, starts_char x = false) :
    utf8_length l = 0 := by
  induction l with
  | nil => rfl
  | cons c l ih =>
    rw [utf8_length_cons, h c (List.mem_cons_self _ _),
      ih (fun x hx => h x (List.mem_cons_of_mem _ hx))]
    rfl

theorem utf8_length_replicate_space (k : Nat) : utf8_length (List.replicate k 0x20) = k := by
  induction k with
  | zero => rfl
  | succ k ih =>
    rw [List.replicate_succ, utf8_length_cons, ih]
    have : starts_char 0x20 = true := by decide
    rw [this]
    simp
    omega

theorem utf8_length_encode (cs : List Char) : utf8_length (utf8_encode cs) = cs.length := by
  induction cs with
  | nil => rfl
  | cons c cs ih =>
    obtain ⟨b, rest, hshape, hb, hrest⟩ := encode_char_shape c
    rw [utf8_encode_cons, hshape, utf8_length_append, utf8_length_cons, hb,
      utf8_length_continuation rest hrest, ih, List.length_cons]
    simp
    omega

/-! ### `utf8_truncate` -/

theorem truncate_index_cons (max_chars : Nat) (c : Nat) (t : CppString) (count i : Nat) :
    utf8_truncate_index max_chars (c :: t) count i =
      if starts_char c then
        if count = max_chars then i
        else utf8_truncate_index max_chars t (count + 1) (i + 1)
      else utf8_truncate_index max_chars t count (i + 1) := rfl

/-- The end position of the loop is the start position plus the number of bytes
passed. -/
theorem truncate_index_shift (max_chars : Nat) (t : CppString) (count i : Nat) :
    utf8_truncate_index max_chars t count i = i + utf8_truncate_index max_chars t count 0 := by
  induction t generalizing count i with
  | nil => simp [utf8_truncate_index]
  | cons c t ih =>
    rw [truncate_index_cons, truncate_index_cons]
    split_ifs
    · rfl
    · rw [ih (count + 1) (i + 1), ih (count + 1) (0 + 1)]; omega
    · rw [ih count (i + 1), ih count (0 + 1)]; omega

/-- The loop passes over continuation bytes. -/
theorem truncate_index_continuation (max_chars : Nat) (rest tail : CppString) (count : Nat)
    (h : ∀ x ∈ rest, starts_char x = false) :
    utf8_truncate_index max_chars (rest ++ tail) count 0
      = rest.length + utf8_truncate_index max_chars tail count 0 := by
  induction rest with
  | nil => simp
  | cons c rest ih =>
    rw [List.cons_append]
    rw [truncate_index_cons]
    rw [h c (List.mem_cons_self _ _)]
    simp only [Bool.false_eq_true, if_false]
    rw [truncate_index_shift, ih (fun x hx => h x (List.mem_cons_of_mem _ hx)),
      List.length_cons]
    omega

/-- On the encoding of code points the loop stops after the encoding of the first
`max_chars - count` of them. -/
theorem truncate_index_encode (max_chars : Nat) (cs : List Char) (count : Nat)
    (hc : count ≤ max_chars) :
    utf8_truncate_index max_chars (utf8_encode cs) count 0
      = (utf8_encode (cs.take (max_chars - count))).length := by
  induction cs generalizing count with
  | nil => simp [utf8_encode, utf8_truncate_index]
  | cons c cs ih =>
    obtain ⟨b, rest, hshape, hb, hrest⟩ := encode_char_shape c
    rw [utf8_encode_cons, hshape, List.cons_append]
    rw [truncate_index_cons]
    rw [hb]
    simp only [if_true]
    by_cases heq : count = max_chars
    · rw [if_pos heq, heq, Nat.sub_self, List.take_zero]
      rfl
    · rw [if_neg heq, truncate_index_shift, truncate_index_continuation _ _ _ _ hrest,
        ih (count + 1) (by omega)]
      have hsub : max_chars - count = (max_chars - (count + 1)) + 1 := by omega
      rw [hsub, List.take_succ_cons, utf8_encode_cons, hshape, List.length_append,
        List.length_cons]
      omega

/-- Truncating the encoding of code points gives the encoding of the first of them. -/
theorem utf8_truncate_encode (cs : List Char) (n : Nat) :
    utf8_truncate (utf8_encode cs) n = utf8_encode (cs.take n) := by
  unfold utf8_truncate
  by_cases h0 : n = 0
  · rw [if_pos h0, h0, List.take_zero]
    rfl
  · rw [if_neg h0, truncate_index_encode n cs 0 (Nat.zero_le _), Nat.sub_zero]
    conv_lhs => rw [← List.take_append_drop n cs, utf8_encode_append]
    simp

/-- Claim C15. Applied to the UTF-8 encoding of a sequence of code points,
`utf8_truncate` returns the UTF-8 encoding of the first `min n |cs|` code points: the
cut falls on a code-point boundary and the output is again an encoding. -/
theorem C15_utf8_truncate (cs : List Char) (n : Nat) :
    utf8_truncate (utf8_encode cs) n = utf8_encode (cs.take n) ∧
    (cs.take n).length = min n cs.length ∧
    utf8_truncate (bytes_of "Иванов") 3 = bytes_of "Ива" :=
  ⟨utf8_truncate_encode cs n, List.length_take _ _, by decide⟩

/-- Claim C17. Applied to the UTF-8 encoding of a sequence of code points,
`utf8_length` is the number of code points, not the number of bytes. -/
theorem C17_utf8_length (cs : List Char) :
    utf8_length (utf8_encode cs) = cs.length ∧
    utf8_length (bytes_of "Иванов") = 6 ∧ (bytes_of "Иванов").length = 12 :=
  ⟨utf8_length_encode cs, by decide, by decide⟩

/-- A truncated text has at most `max_chars` characters, whatever its bytes. -/
theorem truncate_take_length (max_chars : Nat) (t : CppString) (count : Nat)
    (hc : count ≤ max_chars) :
    count + utf8_length (t.take (utf8_truncate_index max_chars t count 0)) ≤ max_chars := by
  induction t generalizing count with
  | nil => simpa [utf8_truncate_index, utf8_length] using hc
  | cons c t ih =>
    rw [truncate_index_cons]
    by_cases hs : starts_char c = true
    · rw [if_pos hs]
      by_cases heq : count = max_chars
      · rw [if_pos heq, List.take_zero]
        simpa [utf8_length] using hc
      · rw [if_neg heq, truncate_index_shift]
        have hone : 0 + 1 + utf8_truncate_index max_chars t (count + 1) 0
            = utf8_truncate_index max_chars t (count + 1) 0 + 1 := by omega
        rw [hone, List.take_succ_cons, utf8_length_cons, if_pos hs]
        have := ih (count + 1) (by omega)
        omega
    · rw [if_neg hs, truncate_index_shift]
      have hone : 0 + 1 + utf8_truncate_index max_chars t count 0
          = utf8_truncate_index max_chars t count 0 + 1 := by omega
      rw [hone, List.take_succ_cons, utf8_length_cons, if_neg hs]
      have := ih count hc
      omega

theorem utf8_length_truncate_le (t : CppString) (n : Nat) :
    utf8_length (utf8_truncate t n) ≤ n := by
  unfold utf8_truncate
  by_cases h0 : n = 0
  · rw [if_pos h0]; exact Nat.zero_le _
  · rw [if_neg h0]
    have := truncate_take_length n t 0 (Nat.zero_le _)
    omega

/-- The fitted text has at most `width` characters, whatever its bytes. -/
theorem utf8_length_fit_cell_le (t : CppString) (width : Nat) :
    utf8_length (fit_cell t width) ≤ width := by
  unfold fit_cell
  split_ifs with h1 h2
  · exact h1
  · exact utf8_length_truncate_le t width
  · rw [utf8_length_append]
    have := utf8_length_truncate_le t (width - 3)
    have he : utf8_length kEllipsis = 3 := by decide
    omega

/-- Claim C14. For a text of code points `cs` and a width `w`, counted in characters:
`fit_cell` returns the text unchanged when it has at most `w` characters; otherwise,
when `w ≤ 3`, its first `w` characters without ellipsis; otherwise its first `w - 3`
characters followed by the three characters "...".  The result never has more than `w`
characters (for any bytes at all), and "Иванов Иван Иванович" at width 8 gives
"Ивано...". -/
theorem C14_fit_cell (cs : List Char) (w : Nat) :
    fit_cell (utf8_encode cs) w =
      (if cs.length ≤ w then utf8_encode cs
       else if w ≤ 3 then utf8_encode (cs.take w)
       else utf8_encode (cs.take (w - 3)) ++ utf8_encode ['.', '.', '.']) ∧
    utf8_length (fit_cell (utf8_encode cs) w) ≤ w ∧
    (∀ t : CppString, utf8_length (fit_cell t w) ≤ w) ∧
    fit_cell (bytes_of "Иванов Иван Иванович") 8 = bytes_of "Ивано..." := by
  refine ⟨?_, utf8_length_fit_cell_le _ w, fun t => utf8_length_fit_cell_le t w, by decide⟩
  unfold fit_cell
  rw [utf8_length_encode, utf8_truncate_encode cs w, utf8_truncate_encode cs (w - 3)]
  have he : kEllipsis = utf8_encode ['.', '.', '.'] := by decide
  rw [he]

theorem column_width_pos (w : Int) : 1 ≤ column_width w := by
  unfold column_width
  split_ifs with h
  · exact le_refl 1
  · omega

/-! ### Grouping the grades of a student by subject -/

theorem by_subject_foldl_find (s j : Int) (gs : List Grade) (m : StdMap (List Grade))
    (hm : m.Pairwise (fun a b => a.1 < b.1)) :
    (gs.foldl (by_subject_step s) m).Pairwise (fun a b => a.1 < b.1) ∧
    map_find (gs.foldl (by_subject_step s) m) j =
      (gs.filter (fun g => g.student_id == s && g.subject_id == j)).foldl
        (fun o g => some ((o.getD []) ++ [g])) (map_find m j) := by
  induction gs generalizing m with
  | nil => exact ⟨hm, rfl⟩
  | cons g gs ih =>
    simp only [List.foldl_cons]
    by_cases hs : g.student_id = s
    · have hstep : by_subject_step s m g =
          map_modify [] (fun grades => grades ++ [g]) g.subject_id m := by
        simp [by_subject_step, hs]
      have hsorted := map_modify_sorted [] (fun grades => grades ++ [g]) g.subject_id m hm
      rw [hstep]
      refine ⟨(ih _ hsorted).1, ?_⟩
      rw [(ih _ hsorted).2]
      by_cases hj : g.subject_id = j
      · have hb : (g.student_id == s && g.subject_id == j) = true := by simp [hs, hj]
        rw [List.filter_cons, if_pos hb, List.foldl_cons, ← hj,
          map_find_modify_same _ _ _ _ hm]
      · have hb : (g.student_id == s && g.subject_id == j) = false := by simp [hj]
        rw [List.filter_cons, hb, map_find_modify_other _ _ _ _ _ (Ne.symm hj)]
        rfl
    · have hstep : by_subject_step s m g = m := by
        simp [by_subject_step, hs]
      have hb : (g.student_id == s && g.subject_id == j) = false := by simp [hs]
      rw [hstep, List.filter_cons, hb]
      exact ih m hm

theorem collect_fold_some (l acc : List Grade) :
    l.foldl (fun o g => some ((o.getD []) ++ [g])) (some acc) = some (acc ++ l) := by
  induction l generalizing acc with
  | nil => simp
  | cons g l ih => simp only [List.foldl_cons, Option.getD_some, ih, List.append_assoc,
      List.singleton_append]

theorem collect_fold_none (l : List Grade) :
    l.foldl (fun o g => some ((o.getD []) ++ [g])) none = if l = [] then none else some l := by
  cases l with
  | nil => rfl
  | cons g l =>
    simp only [List.foldl_cons, Option.getD_none, List.nil_append, collect_fold_some]
    simp

/-- The first loop of `grades_by_subject_for_student` files under each subject the
grades of the pair, in list order. -/
theorem by_subject_find (data : DataStore) (s j : Int) :
    (data.grades.foldl (by_subject_step s) []).Pairwise (fun a b => a.1 < b.1) ∧
    map_find (data.grades.foldl (by_subject_step s) []) j =
      if pair_grades data s j = [] then none else some (pair_grades data s j) := by
  have h := by_subject_foldl_find s j data.grades [] List.Pairwise.nil
  refine ⟨h.1, ?_⟩
  rw [h.2]
  exact collect_fold_none _

/-- The second loop of `grades_by_subject_for_student` replaces each entry by its
values in attempt order. -/
theorem by_subject_values_find (j : Int) (m : StdMap (List Grade))
    (hm : m.Pairwise (fun a b => a.1 < b.1)) (res : StdMap (List Int))
    (hres : res.Pairwise (fun a b => a.1 < b.1)) :
    map_find (m.foldl by_subject_values_step res) j =
      match map_find m j with
      | some grades => some ((std_sort attempt_lt grades).map Grade.value)
      | none => map_find res j := by
  induction m generalizing res with
  | nil => rfl
  | cons e m ih =>
    obtain ⟨k, grades⟩ := e
    rw [List.pairwise_cons] at hm
    have hres2 := map_modify_sorted [] (fun _ => (std_sort attempt_lt grades).map Grade.value)
      k res hres
    rw [List.foldl_cons]
    have hstep : by_subject_values_step res (k, grades) =
        map_modify [] (fun _ => (std_sort attempt_lt grades).map Grade.value) k res := rfl
    rw [hstep, ih hm.2 _ hres2]
    by_cases hk : j = k
    · subst hk
      rw [map_find_eq_none_of_lower m j (fun e he => hm.1 e he)]
      simp only [map_find, if_true]
      rw [map_find_modify_same _ _ _ _ hres]
    · simp only [map_find, hk, if_false]
      rw [map_find_modify_other _ _ _ _ _ hk]

/-- The entry of a subject in the result of `grades_by_subject_for_student`. -/
theorem grades_by_subject_find (data : DataStore) (s j : Int) :
    map_find (grades_by_subject_for_student data s) j =
      if pair_grades data s j = [] then none
      else some (grades_for_student_subject data s j) := by
  unfold grades_by_subject_for_student
  simp only
  rw [by_subject_values_find j _ (by_subject_find data s j).1 [] List.Pairwise.nil,
    (by_subject_find data s j).2]
  by_cases h : pair_grades data s j = []
  · simp [h, map_find]
  · simp only [h, if_false]
    rfl

/-! ### `std::to_string` never yields the marker "-" -/

theorem digit_ne_dash : ∀ d, d < 10 → (Nat.digitChar d).toNat ≠ 0x2D := by decide

theorem toDigitsCore_digits (fuel : Nat) : ∀ (n : Nat) (ds : List Char),
    (∀ c ∈ ds, c.toNat ≠ 0x2D) → (0 < fuel ∨ ds ≠ []) →
    Nat.toDigitsCore 10 fuel n ds ≠ [] ∧ ∀ c ∈ Nat.toDigitsCore 10 fuel n ds, c.toNat ≠ 0x2D := by
  induction fuel with
  | zero =>
    intro n ds hds hne
    simp only [Nat.toDigitsCore]
    exact ⟨hne.resolve_left (lt_irrefl 0), hds⟩
  | succ fuel ih =>
    intro n ds hds _
    have hd : (Nat.digitChar (n % 10)).toNat ≠ 0x2D := digit_ne_dash _ (Nat.mod_lt _ (by decide))
    have hds2 : ∀ c ∈ Nat.digitChar (n % 10) :: ds, c.toNat ≠ 0x2D := by
      intro c hc
      rcases List.mem_cons.1 hc with rfl | hc
      · exact hd
      · exact hds c hc
    simp only [Nat.toDigitsCore]
    split_ifs
    · exact ⟨List.cons_ne_nil _ _, hds2⟩
    · exact ih _ _ hds2 (Or.inr (List.cons_ne_nil _ _))

theorem decimal_digits_spec (n : Nat) :
    decimal_digits n ≠ [] ∧ ∀ b ∈ decimal_digits n, b ≠ 0x2D := by
  obtain ⟨h1, h2⟩ := toDigitsCore_digits (n + 1) n [] (by simp) (Or.inl (Nat.succ_pos _))
  unfold decimal_digits Nat.toDigits
  refine ⟨by simpa using h1, ?_⟩
  intro b hb
  obtain ⟨c, hc, rfl⟩ := List.mem_map.1 hb
  exact h2 c hc

theorem to_string_ne_dash (v : Int) : to_string v ≠ kDash := by
  obtain ⟨h1, h2⟩ := decimal_digits_spec v.natAbs
  obtain ⟨h3, h4⟩ := decimal_digits_spec v.toNat
  unfold to_string kDash
  split_ifs
  · intro h
    simp at h
    exact h1 h
  · intro h
    have : (0x2D : Nat) ∈ decimal_digits v.toNat := by rw [h]; simp
    exact h4 _ this rfl

/-! ### Grades in attempt order -/

theorem attempt_lt_order :
    (∀ a, attempt_lt a a = false) ∧
    (∀ a b c, attempt_lt a b = true → attempt_lt b c = true → attempt_lt a c = true) := by
  refine ⟨fun a => by simp [attempt_lt], ?_⟩
  intro a b c h1 h2
  simp only [attempt_lt, decide_eq_true_eq] at h1 h2 ⊢
  exact lt_trans h1 h2

/-- The grades of a pair with pairwise distinct attempt numbers, sorted by `std_sort`:
a permutation of the grades of the pair in strictly increasing attempt order, and the
only arrangement of them without a descent. -/
theorem sorted_pair_spec (data : DataStore) (s j : Int)
    (hnd : ((pair_grades data s j).map Grade.attempt).Nodup) :
    (std_sort attempt_lt (pair_grades data s j)).Perm (pair_grades data s j) ∧
    (std_sort attempt_lt (pair_grades data s j)).Pairwise (fun a b => a.attempt < b.attempt) ∧
    (∀ out : List Grade, out.Perm (pair_grades data s j) →
      out.Pairwise (fun a b => ¬ b.attempt < a.attempt) →
      out = std_sort attempt_lt (pair_grades data s j)) := by
  have hnodup : (pair_grades data s j).Nodup := List.Nodup.of_map _ hnd
  have htot : ∀ a ∈ pair_grades data s j, ∀ b ∈ pair_grades data s j, a ≠ b →
      attempt_lt a b = true ∨ attempt_lt b a = true := by
    intro a ha b hb hne
    have hatt : a.attempt ≠ b.attempt := fun h => hne (List.inj_on_of_nodup_map hnd ha hb h)
    simp only [attempt_lt, decide_eq_true_eq]
    exact lt_or_gt_of_ne hatt
  obtain ⟨c1, c2, -⟩ := std_sort_canonical attempt_lt attempt_lt_order.1 attempt_lt_order.2
    _ hnodup htot
  refine ⟨std_sort_perm _ _, ?_, ?_⟩
  · exact c1.imp (fun h => by simpa [attempt_lt] using h)
  · intro out hp hs
    apply c2 out hp
    exact hs.imp (fun h => by simpa [attempt_lt] using h)

/-- The last value of the attempt history of a pair is the value of the grade with
the greatest attempt number. -/
theorem history_last (data : DataStore) (s j : Int)
    (hnd : ((pair_grades data s j).map Grade.attempt).Nodup)
    (g : Grade) (hg : g ∈ pair_grades data s j)
    (hmax : ∀ h ∈ pair_grades data s j, h.attempt ≤ g.attempt) :
    (grades_for_student_subject data s j).getLast? = some g.value := by
  obtain ⟨hperm, hsorted, -⟩ := sorted_pair_spec data s j hnd
  have hval : grades_for_student_subject data s j
      = (std_sort attempt_lt (pair_grades data s j)).map Grade.value := rfl
  rw [hval]
  rcases List.eq_nil_or_concat (std_sort attempt_lt (pair_grades data s j)) with h0 | ⟨init, x, hx⟩
  · have := hperm.symm.subset hg
    rw [h0] at this
    cases this
  · rw [List.concat_eq_append] at hx
    rw [hx] at hsorted ⊢
    have hgmem : g ∈ init ++ [x] := by rw [← hx]; exact hperm.symm.subset hg
    have hxmem : x ∈ pair_grades data s j := hperm.subset (by rw [hx]; simp)
    have hgx : g = x := by
      rcases List.mem_append.1 hgmem with hgi | hgl
      · have hlt : g.attempt < x.attempt :=
          (List.pairwise_append.1 hsorted).2.2 g hgi x (by simp)
        have := hmax x hxmem
        omega
      · simpa using hgl
    subst hgx
    simp

/-- The claim as stated fails: grade ids are positive and pairwise distinct, the grade
with the greatest id of the pair (1, 1) has the value 3, and the matrix shows 5, the
value of the grade with the greatest attempt number. -/
theorem C18_counterexample :
    (∀ g ∈ reordered_store.grades, 0 < g.id) ∧ (reordered_store.grades.map Grade.id).Nodup ∧
    (map_find (subject_aggregates_for_student reordered_store 1) 1).map
      SubjectAggregate.latest_value = some 3 ∧
    journal_matrix_cell (grades_by_subject_for_student reordered_store 1) 1 = to_string 5 ∧
    to_string 5 ≠ to_string 3 ∧
    (journal_matrix reordered_store 0).map (fun row => (row.drop 3).take 2)
      = [[to_string 5, kDash]] := by
  refine ⟨by decide, by decide, by decide, by decide, by decide, by decide⟩

theorem exists_max_attempt (l : List Grade) (hl : l ≠ []) :
    ∃ g ∈ l, ∀ h ∈ l, h.attempt ≤ g.attempt := by
  induction l with
  | nil => exact absurd rfl hl
  | cons x xs ih =>
    by_cases hxs : xs = []
    · subst hxs
      exact ⟨x, by simp, by simp⟩
    · obtain ⟨g, hg, hmax⟩ := ih hxs
      by_cases hx : g.attempt ≤ x.attempt
      · refine ⟨x, by simp, ?_⟩
        intro h hh
        rcases List.mem_cons.1 hh with rfl | hh
        · exact le_refl _
        · exact le_trans (hmax h hh) hx
      · refine ⟨g, List.mem_cons_of_mem _ hg, ?_⟩
        intro h hh
        rcases List.mem_cons.1 hh with rfl | hh
        · omega
        · exact hmax h hh

/-- Claim C18, amended. For a pair whose grades have pairwise distinct attempt numbers,
the cell of `journal_matrix` is the marker "-" exactly when the pair has no grade, and
otherwise the text of the value of the grade with the greatest attempt number of the
pair.  When that grade also has the greatest id of the pair, and the grade ids of the
store are positive, the cell is the text of `latest_value` of the student's aggregate
for the subject. -/
theorem C18_matrix_cell (data : DataStore) (s j : Int)
    (hnd : ((pair_grades data s j).map Grade.attempt).Nodup) :
    (journal_matrix_cell (grades_by_subject_for_student data s) j = kDash ↔
      pair_grades data s j = []) ∧
    (∀ g ∈ pair_grades data s j, (∀ h ∈ pair_grades data s j, h.attempt ≤ g.attempt) →
      journal_matrix_cell (grades_by_subject_for_student data s) j = to_string g.value) ∧
    (∀ g ∈ pair_grades data s j, (∀ h ∈ pair_grades data s j, h.attempt ≤ g.attempt) →
      (∀ h ∈ pair_grades data s j, h.id < g.id ∨ h = g) → (∀ h ∈ data.grades, 0 < h.id) →
      ∀ agg, (j, agg) ∈ subject_aggregates_for_student data s →
        journal_matrix_cell (grades_by_subject_for_student data s) j
          = to_string agg.latest_value) := by
  have hcell : ∀ g ∈ pair_grades data s j, (∀ h ∈ pair_grades data s j, h.attempt ≤ g.attempt) →
      journal_matrix_cell (grades_by_subject_for_student data s) j = to_string g.value := by
    intro g hg hmax
    unfold journal_matrix_cell
    rw [grades_by_subject_find, if_neg (List.ne_nil_of_mem hg)]
    simp only
    rw [history_last data s j hnd g hg hmax]
  refine ⟨?_, hcell, ?_⟩
  · constructor
    · intro hdash
      by_contra hne
      obtain ⟨g, hg, hmax⟩ := exists_max_attempt _ hne
      rw [hcell g hg hmax] at hdash
      exact to_string_ne_dash _ hdash
    · intro h
      unfold journal_matrix_cell
      rw [grades_by_subject_find, if_pos h]
  · intro g hg hmax hid hpos agg hagg
    obtain ⟨hl, rfl⟩ := (aggregates_mem_iff data s j agg).1 hagg
    have hpp : ∀ h ∈ pair_grades data s j, 0 < h.id :=
      fun h hh => hpos h (List.mem_of_mem_filter hh)
    obtain ⟨g0, hg0, hmax0, -, e2, -⟩ := aggregate_fold_latest (pair_grades data s j) hl hpp
    have hgg : g0 = g := by
      rcases hid g0 hg0 with hlt | heq
      · have := hmax0 g hg
        omega
      · exact heq
    rw [hcell g hg hmax, e2, hgg]

/-- Witness of C18: in the worked example the pair (1, 1) has the attempts 1 and 2 and
the cell shows 4, the value of attempt 2. -/
theorem C18_matrix_cell_witness :
    ((pair_grades example_store 1 1).map Grade.attempt).Nodup ∧
    journal_matrix_cell (grades_by_subject_for_student example_store 1) 1 = to_string 4 ∧
    journal_matrix_cell (grades_by_subject_for_student example_store 2) 1 = kDash :=
  ⟨by decide,
   (C18_matrix_cell example_store 1 1 (by decide)).2.1
     { id := 3, student_id := 1, subject_id := 1, value := 4, attempt := 2 }
     (by decide) (by decide),
   (C18_matrix_cell example_store 2 1 (by decide)).1.2 (by decide)⟩

theorem student_name_lt_iff (a b : Student) :
    student_name_lt a b = true ↔
      lex_by (fun x y => string_lt x y = true) (fun st : Student => to_lower_ascii st.name)
        Student.id a b := by
  unfold student_name_lt lex_by
  by_cases hn : to_lower_ascii a.name = to_lower_ascii b.name
  · simp [hn]
  · simp [hn]

theorem student_name_lt_order :
    (∀ a, student_name_lt a a = false) ∧
    (∀ a b c, student_name_lt a b = true → student_name_lt b c = true →
      student_name_lt a c = true) ∧
    (∀ a b : Student, a.id ≠ b.id →
      student_name_lt a b = true ∨ student_name_lt b a = true) := by
  refine ⟨?_, ?_, ?_⟩
  · intro a
    have h : ¬ student_name_lt a a = true := by
      rw [student_name_lt_iff]
      exact lex_by_irrefl _ _ _ a
    simpa using h
  · intro a b c
    rw [student_name_lt_iff, student_name_lt_iff, student_name_lt_iff]
    exact lex_by_trans _ _ _ (fun x h => by rw [string_lt_irrefl] at h; cases h)
      string_lt_trans a b c
  · intro a b hid
    rw [student_name_lt_iff, student_name_lt_iff]
    exact lex_by_total _ _ _ string_lt_total a b hid

/-- Claim C20. In a store with pairwise distinct student ids, `students_for_group_sorted`
is a permutation of exactly the students that match the filter (all for 0, those without
group for -1, those of the group for a positive filter), sorted by ASCII-lowercased
name, students with equal lowercased names by ascending id; it is the only such
arrangement, and it does not depend on the order of the student list. -/
theorem C20_students_for_group_sorted (data : DataStore) (f : Int)
    (hnd : (data.students.map Student.id).Nodup) :
    (students_for_group_sorted data f).Perm
      (data.students.filter (fun st => matches_group_filter st f)) ∧
    (∀ st : Student, matches_group_filter st f = true ↔
      (f = 0 ∨ (f = -1 ∧ st.group_id = 0) ∨ (f ≠ 0 ∧ f ≠ -1 ∧ st.group_id = f))) ∧
    (students_for_group_sorted data f).Pairwise (fun a b =>
      string_lt (to_lower_ascii a.name) (to_lower_ascii b.name) = true ∨
      (to_lower_ascii a.name = to_lower_ascii b.name ∧ a.id < b.id)) ∧
    (∀ out : List Student,
      out.Perm (data.students.filter (fun st => matches_group_filter st f)) →
      out.Pairwise (fun a b => student_name_lt b a = false) →
      out = students_for_group_sorted data f) ∧
    (∀ other : DataStore, other.students.Perm data.students →
      students_for_group_sorted other f = students_for_group_sorted data f) := by
  have hsub : (data.students.filter (fun st => matches_group_filter st f)).Sublist
      data.students := List.filter_sublist _
  have hnodup : (data.students.filter (fun st => matches_group_filter st f)).Nodup :=
    (List.Nodup.of_map _ hnd).sublist hsub
  have htot : ∀ a ∈ data.students.filter (fun st => matches_group_filter st f),
      ∀ b ∈ data.students.filter (fun st => matches_group_filter st f), a ≠ b →
      student_name_lt a b = true ∨ student_name_lt b a = true := by
    intro a ha b hb hne
    apply student_name_lt_order.2.2
    intro hid
    exact hne (List.inj_on_of_nodup_map hnd (hsub.subset ha) (hsub.subset hb) hid)
  obtain ⟨c1, c2, c3⟩ := std_sort_canonical student_name_lt student_name_lt_order.1
    student_name_lt_order.2.1 _ hnodup htot
  refine ⟨std_sort_perm _ _, ?_, ?_, c2, ?_⟩
  · intro st
    unfold matches_group_filter
    by_cases h0 : f = 0
    · simp [h0]
    · by_cases h1 : f = -1
      · simp [h1]
      · simp [h0, h1]
  · refine c1.imp ?_
    intro a b h
    rw [student_name_lt_iff] at h
    rcases h with ⟨-, h⟩ | ⟨h1, h2⟩
    · exact Or.inl h
    · exact Or.inr ⟨h1, h2⟩
  · intro other hperm
    exact c3 _ (List.Perm.filter _ hperm)

/-- Witness of C20: the students "b", "a", "A" are listed as "a" (id 2), "A" (id 3),
"b" (id 1). -/
theorem C20_students_for_group_sorted_witness :
    (name_store.students.map Student.id).Nodup ∧
    (students_for_group_sorted name_store 0).map Student.id = [2, 3, 1] ∧
    (∀ other : DataStore, other.students.Perm name_store.students →
      students_for_group_sorted other 0 = students_for_group_sorted name_store 0) :=
  ⟨by decide, by decide, (C20_students_for_group_sorted name_store 0 (by decide)).2.2.2.2⟩

theorem csv_escape_fold (text out : CppString) :
    text.foldl csv_escape_step out =
      out ++ text.flatMap (fun c => if c = 0x22 then [0x22, 0x22] else [c]) := by
  induction text generalizing out with
  | nil => simp
  | cons c text ih =>
    rw [List.foldl_cons, ih, List.flatMap_cons]
    unfold csv_escape_step
    split_ifs <;> simp

/-- Claim C27. For every text and delimiter, `csv_escape` returns the text unchanged
when it contains none of the delimiter, a double quote, a line feed or a carriage
return, and otherwise (in particular when it contains the delimiter, a double quote or
a newline) a double quote, the text with every double quote doubled, and a double
quote. -/
theorem C27_csv_escape (text : CppString) (delim : Nat) :
    csv_escape text delim =
      (if ∃ c ∈ text, c = delim ∨ c = 0x22 ∨ c = 0x0A ∨ c = 0x0D then
        [0x22] ++ text.flatMap (fun c => if c = 0x22 then [0x22, 0x22] else [c]) ++ [0x22]
       else text) ∧
    csv_escape (bytes_of "a;b\"c") 0x3B = bytes_of "\"a;b\"\"c\"" ∧
    csv_escape (bytes_of "abc") 0x3B = bytes_of "abc" := by
  refine ⟨?_, by decide, by decide⟩
  unfold csv_escape
  have hany : text.any (csv_special delim) = true ↔
      ∃ c ∈ text, c = delim ∨ c = 0x22 ∨ c = 0x0A ∨ c = 0x0D := by
    simp [List.any_eq_true, csv_special, or_assoc]
  by_cases h : ∃ c ∈ text, c = delim ∨ c = 0x22 ∨ c = 0x0A ∨ c = 0x0D
  · rw [if_pos h]
    have := hany.2 h
    simp only [this, Bool.not_true, Bool.false_eq_true, if_false, csv_escape_fold]
  · rw [if_neg h]
    have : text.any (csv_special delim) = false := by
      rw [← Bool.not_eq_true]; exact fun hc => h (hany.1 hc)
    simp only [this, Bool.not_false, if_true]

/-- A linear search for an id that no record has finds nothing. -/
theorem find_none_of_not_mem {α : Type} (key : α → Int) (id : Int) (l : List α)
    (h : id ∉ l.map key) : l.find? (fun x => key x == id) = none := by
  apply List.find?_eq_none.2
  intro x hx hk
  exact h (List.mem_map.2 ⟨x, hx, by simpa using hk⟩)

/-- Claim C24. Given an id that no record of the corresponding collection has, each of
the four delete operations and the four edit operations leaves the store exactly as it
was (the four collections and the four id counters) and reports that nothing was found
or that the collection is empty. -/
theorem C24_unknown_id_no_effect (data : DataStore) (id : Int) (new_name : CppString)
    (new_group new_value : Option Int) :
    (id ∉ data.students.map Student.id →
      (delete_student data id).1 = data ∧
      (edit_student data id new_name new_group).1 = data ∧
      ((delete_student data id).2 = Report.not_found ∨
        (delete_student data id).2 = Report.collection_empty) ∧
      ((edit_student data id new_name new_group).2 = Report.not_found ∨
        (edit_student data id new_name new_group).2 = Report.collection_empty)) ∧
    (id ∉ data.groups.map Group.id →
      (delete_group data id).1 = data ∧
      (edit_group data id new_name).1 = data ∧
      ((delete_group data id).2 = Report.not_found ∨
        (delete_group data id).2 = Report.collection_empty) ∧
      ((edit_group data id new_name).2 = Report.not_found ∨
        (edit_group data id new_name).2 = Report.collection_empty)) ∧
    (id ∉ data.subjects.map Subject.id →
      (delete_subject data id).1 = data ∧
      (edit_subject data id new_name).1 = data ∧
      ((delete_subject data id).2 = Report.not_found ∨
        (delete_subject data id).2 = Report.collection_empty) ∧
      ((edit_subject data id new_name).2 = Report.not_found ∨
        (edit_subject data id new_name).2 = Report.collection_empty)) ∧
    (id ∉ data.grades.map Grade.id →
      (delete_grade data id).1 = data ∧
      (edit_grade data id new_value).1 = data ∧
      ((delete_grade data id).2 = Report.not_found ∨
        (delete_grade data id).2 = Report.collection_empty) ∧
      ((edit_grade data id new_value).2 = Report.not_found ∨
        (edit_grade data id new_value).2 = Report.collection_empty)) := by
  refine ⟨?_, ?_, ?_, ?_⟩
  · intro h
    have hf := find_none_of_not_mem Student.id id data.students h
    have hf2 : find_student data id = none := hf
    unfold delete_student edit_student
    rw [hf, hf2]
    by_cases he : data.students.isEmpty = true
    · simp [he]
    · simp [he]
  · intro h
    have hf := find_none_of_not_mem Group.id id data.groups h
    have hf2 : find_group data id = none := hf
    unfold delete_group edit_group
    rw [hf, hf2]
    by_cases he : data.groups.isEmpty = true
    · simp [he]
    · simp [he]
  · intro h
    have hf := find_none_of_not_mem Subject.id id data.subjects h
    have hf2 : find_subject data id = none := hf
    unfold delete_subject edit_subject
    rw [hf, hf2]
    by_cases he : data.subjects.isEmpty = true
    · simp [he]
    · simp [he]
  · intro h
    have hf := find_none_of_not_mem Grade.id id data.grades h
    have hf2 : find_grade data id = none := hf
    unfold delete_grade edit_grade
    rw [hf, hf2]
    by_cases he : data.grades.isEmpty = true
    · simp [he]
    · simp [he]

/-- Witness of C24: no student, group, subject or grade of the worked example has the
id 9; deleting student 9 changes nothing and reports that it was not found. -/
theorem C24_unknown_id_no_effect_witness :
    (9 : Int) ∉ example_store.students.map Student.id ∧
    delete_student example_store 9 = (example_store, Report.not_found) ∧
    (edit_grade example_store 9 (some 5)).1 = example_store :=
  ⟨by decide, by decide,
   ((C24_unknown_id_no_effect example_store 9 [] none (some 5)).2.2.2 (by decide)).2.1⟩

/-- What assignment through the pointer of a `find_*` does to a vector with a match. -/
theorem modify_first_split {α : Type} (p : α → Bool) (l : List α)
    (h : ∃ a ∈ l, p a = true) :
    ∃ l1 a l2, l = l1 ++ a :: l2 ∧ p a = true ∧ (∀ x ∈ l1, ¬ p x = true) ∧
      l.find? p = some a ∧ ∀ f : α → α, modify_first p f l = l1 ++ f a :: l2 := by
  induction l with
  | nil =>
    obtain ⟨a, ha, -⟩ := h
    cases ha
  | cons x xs ih =>
    by_cases hx : p x = true
    · refine ⟨[], x, xs, rfl, hx, by simp, ?_, ?_⟩
      · simp [List.find?, hx]
      · intro f
        simp [modify_first, hx]
    · have h2 : ∃ a ∈ xs, p a = true := by
        obtain ⟨a, ha, hpa⟩ := h
        rcases List.mem_cons.1 ha with rfl | ha
        · exact absurd hpa hx
        · exact ⟨a, ha, hpa⟩
      obtain ⟨l1, a, l2, e1, e2, e3, e4, e5⟩ := ih h2
      refine ⟨x :: l1, a, l2, by rw [e1]; rfl, e2, ?_, ?_, ?_⟩
      · intro y hy
        rcases List.mem_cons.1 hy with rfl | hy
        · exact hx
        · exact e3 y hy
      · simp [List.find?, hx, e4]
      · intro f
        simp [modify_first, hx, e5]

/-- Claim C25. `edit_grade` with the id of an existing grade and a new value changes
only the `value` of the first grade that has the id: its id, student, subject and
attempt, every other grade and the order of the grade list are unchanged, and so are
students, groups, subjects and the four id counters. -/
theorem C25_edit_grade_frame (data : DataStore) (id v : Int)
    (hex : id ∈ data.grades.map Grade.id) :
    (∃ l1 g l2, data.grades = l1 ++ g :: l2 ∧ g.id = id ∧ (∀ x ∈ l1, x.id ≠ id) ∧
      (edit_grade data id (some v)).1.grades = l1 ++ { g with value := v } :: l2 ∧
      (edit_grade data id (some v)).2 = Report.updated (decide (v ≠ g.value))) ∧
    (edit_grade data id (some v)).1.students = data.students ∧
    (edit_grade data id (some v)).1.groups = data.groups ∧
    (edit_grade data id (some v)).1.subjects = data.subjects ∧
    (edit_grade data id (some v)).1.next_student_id = data.next_student_id ∧
    (edit_grade data id (some v)).1.next_group_id = data.next_group_id ∧
    (edit_grade data id (some v)).1.next_subject_id = data.next_subject_id ∧
    (edit_grade data id (some v)).1.next_grade_id = data.next_grade_id := by
  obtain ⟨g0, hg0, hid0⟩ := List.mem_map.1 hex
  have hne : data.grades.isEmpty = false := isEmpty_false_of_mem hg0
  obtain ⟨l1, g, l2, hsplit, hp, hl1, hfind, hmod⟩ :=
    modify_first_split (fun g : Grade => g.id == id) data.grades ⟨g0, hg0, by simp [hid0]⟩
  have hfind2 : find_grade data id = some g := hfind
  have hgid : g.id = id := by simpa using hp
  have hedit : grade_edit (revalue_to (some v) g.value) g = { g with value := v } := by
    unfold revalue_to grade_edit
    by_cases hv : v = g.value
    · simp [hv]
    · simp [hv]
  have hrep : (revalue_to (some v) g.value).isSome = decide (v ≠ g.value) := by
    unfold revalue_to
    by_cases hv : v = g.value
    · simp [hv]
    · simp [hv]
  have hres : edit_grade data id (some v) =
      ({ data with grades := l1 ++ { g with value := v } :: l2 },
       Report.updated (decide (v ≠ g.value))) := by
    unfold edit_grade
    rw [hne, hfind2]
    simp only [Bool.false_eq_true, if_false]
    rw [hmod, hedit, hrep]
  rw [hres]
  refine ⟨⟨l1, g, l2, hsplit, hgid, ?_, rfl, rfl⟩, rfl, rfl, rfl, rfl, rfl, rfl, rfl⟩
  intro x hx
  simpa using hl1 x hx

/-- Witness of C25: editing grade 3 of the worked example to the value 5. -/
theorem C25_edit_grade_frame_witness :
    (3 : Int) ∈ example_store.grades.map Grade.id ∧
    (edit_grade example_store 3 (some 5)).1.grades =
      [{ id := 1, student_id := 1, subject_id := 1, value := 2, attempt := 1 },
       { id := 2, student_id := 1, subject_id := 2, value := 5, attempt := 1 },
       { id := 3, student_id := 1, subject_id := 1, value := 5, attempt := 2 }] ∧
    (edit_grade example_store 3 (some 5)).1.students = example_store.students :=
  ⟨by decide, by decide, (C25_edit_grade_frame example_store 3 5 (by decide)).2.1⟩

/-! ### `std::set<int>` -/

theorem mem_set_insert (x k : Int) (s : List Int) :
    k ∈ set_insert x s ↔ k = x ∨ k ∈ s := by
  induction s with
  | nil => simp [set_insert]
  | cons y ys ih =>
    unfold set_insert
    split_ifs with h1 h2
    · simp
    · subst h2
      simp
    · simp only [List.mem_cons, ih]
      tauto

theorem mem_set_of_fold {α : Type} (key : α → Int) (l : List α) (s : List Int) (k : Int) :
    k ∈ l.foldl (fun s x => set_insert (key x) s) s ↔ k ∈ l.map key ∨ k ∈ s := by
  induction l generalizing s with
  | nil => simp
  | cons x xs ih =>
    rw [List.foldl_cons, ih, mem_set_insert, List.map_cons, List.mem_cons]
    tauto

theorem set_contains_fold {α : Type} (key : α → Int) (l : List α) (k : Int) :
    set_contains (l.foldl (fun s x => set_insert (key x) s) []) k = true ↔ k ∈ l.map key := by
  simp [set_contains, mem_set_of_fold]

/-- Claim C26. For every four collections read from the database, the clean-up pass
of `load_data` yields a store with referential integrity: the grades kept are, in
order, exactly those whose student and subject were loaded; a student's `group_id` is
reset to 0 exactly when it is non-zero and names no loaded group, every other field of
every student being kept; groups and subjects are kept as read. -/
theorem C26_load_data_cleanup (groups : List Group) (students : List Student)
    (subjects : List Subject) (grades : List Grade) :
    referential_integrity (load_data groups students subjects grades) ∧
    (load_data groups students subjects grades).grades =
      grades.filter (fun g => decide (g.student_id ∈ students.map Student.id ∧
        g.subject_id ∈ subjects.map Subject.id)) ∧
    (load_data groups students subjects grades).students =
      students.map (fun st =>
        if st.group_id ≠ 0 ∧ st.group_id ∉ groups.map Group.id then { st with group_id := 0 }
        else st) ∧
    (load_data groups students subjects grades).students.map Student.id
      = students.map Student.id ∧
    (load_data groups students subjects grades).students.map Student.name
      = students.map Student.name ∧
    (load_data groups students subjects grades).groups = groups ∧
    (load_data groups students subjects grades).subjects = subjects := by
  have hstud : (load_data groups students subjects grades).students =
      students.map (fun st =>
        if st.group_id ≠ 0 ∧ st.group_id ∉ groups.map Group.id then { st with group_id := 0 }
        else st) := by
    unfold load_data
    simp only
    apply List.map_congr_left
    intro st _
    have hc := set_contains_fold Group.id groups st.group_id
    by_cases hm : st.group_id ∈ groups.map Group.id
    · have : set_contains (groups.foldl (fun s group => set_insert group.id s) [])
          st.group_id = true := hc.2 hm
      simp [this, hm]
    · have : set_contains (groups.foldl (fun s group => set_insert group.id s) [])
          st.group_id = false := by
        rw [← Bool.not_eq_true]; exact fun h => hm (hc.1 h)
      simp only [this, hm]
      simp
  have hids : (load_data groups students subjects grades).students.map Student.id
      = students.map Student.id := by
    rw [hstud, List.map_map]
    apply List.map_congr_left
    intro st _
    simp only [Function.comp]
    split_ifs <;> rfl
  have hnames : (load_data groups students subjects grades).students.map Student.name
      = students.map Student.name := by
    rw [hstud, List.map_map]
    apply List.map_congr_left
    intro st _
    simp only [Function.comp]
    split_ifs <;> rfl
  have hgrades : (load_data groups students subjects grades).grades =
      grades.filter (fun g => decide (g.student_id ∈ students.map Student.id ∧
        g.subject_id ∈ subjects.map Subject.id)) := by
    have hg0 : (load_data groups students subjects grades).grades =
        grades.filter (fun g =>
          !(!(set_contains ((load_data groups students subjects grades).students.foldl
                (fun s student => set_insert student.id s) []) g.student_id) ||
            !(set_contains (subjects.foldl (fun s subject => set_insert subject.id s) [])
                g.subject_id))) := rfl
    rw [hg0]
    apply List.filter_congr
    intro g _
    have h1 := set_contains_fold Student.id
      (load_data groups students subjects grades).students g.student_id
    rw [hids] at h1
    have h2 := set_contains_fold Subject.id subjects g.subject_id
    rw [Bool.eq_iff_iff]
    simp only [Bool.not_eq_true', Bool.or_eq_false_iff, Bool.not_eq_false', decide_eq_true_eq]
    rw [h1, h2]
  refine ⟨?_, hgrades, hstud, hids, hnames, rfl, rfl⟩
  refine ⟨?_, ?_⟩
  · intro g hg
    rw [hgrades] at hg
    have := of_decide_eq_true (List.mem_filter.1 hg).2
    rw [hids]
    exact this
  · intro st hst hne
    rw [hstud] at hst
    obtain ⟨y, -, rfl⟩ := List.mem_map.1 hst
    show _ ∈ groups.map Group.id
    by_cases hc : y.group_id ≠ 0 ∧ y.group_id ∉ groups.map Group.id
    · rw [if_pos hc] at hne
      exact absurd rfl hne
    · rw [if_neg hc] at hne ⊢
      by_contra hm
      exact hc ⟨hne, hm⟩

/-- The overall average of a student with a grade, as computed by the two loops: the
sum of the subject means over the keys of the aggregate map, divided by their number. -/
theorem average_of_graded (data : DataStore) (s : Int)
    (hgrade : ∃ g ∈ data.grades, g.student_id = s) :
    subject_aggregates_for_student data s ≠ [] ∧
    average_subjects_for_student data s =
      (((subject_aggregates_for_student data s).map Prod.fst).map (subject_mean data s)).sum /
        ((subject_aggregates_for_student data s).length : ℚ) := by
  have hne : subject_aggregates_for_student data s ≠ [] := by
    obtain ⟨g, hg, hs⟩ := hgrade
    have hmem : g ∈ pair_grades data s g.subject_id := by
      apply List.mem_filter.2
      exact ⟨hg, by simp [hs]⟩
    have := (aggregates_mem_iff data s g.subject_id _).2 ⟨List.ne_nil_of_mem hmem, rfl⟩
    exact List.ne_nil_of_mem this
  refine ⟨hne, ?_⟩
  have hfold := average_fold (subject_mean data s) _ (aggregates_entry_mean data s) (0, 0)
  unfold average_subjects_for_student
  have hemp : (subject_aggregates_for_student data s).isEmpty = false := by
    cases h : subject_aggregates_for_student data s with
    | nil => exact absurd h hne
    | cons _ _ => rfl
  have hpos : 0 < (subject_aggregates_for_student data s).length := List.length_pos.2 hne
  have hnz : ¬ ((subject_aggregates_for_student data s).length : Int) = 0 := by
    exact_mod_cast (Nat.pos_iff_ne_zero.1 hpos)
  simp only [hemp, hfold, zero_add]
  rw [if_neg (by simp), if_neg hnz]
  push_cast
  rfl

/-- The mean of a non-empty list lies between any bounds of its elements. -/
theorem mean_bounds (l : List ℚ) (hl : l ≠ []) (a b : ℚ) (h : ∀ x ∈ l, a ≤ x ∧ x ≤ b) :
    a ≤ l.sum / (l.length : ℚ) ∧ l.sum / (l.length : ℚ) ≤ b := by
  have hsum : (l.length : ℚ) * a ≤ l.sum ∧ l.sum ≤ (l.length : ℚ) * b := by
    clear hl
    induction l with
    | nil => simp
    | cons x xs ih =>
      have hx := h x (List.mem_cons_self _ _)
      have := ih (fun y hy => h y (List.mem_cons_of_mem _ hy))
      simp only [List.length_cons, List.sum_cons]
      push_cast
      constructor <;> nlinarith [this.1, this.2, hx.1, hx.2]
  have hpos : (0 : ℚ) < (l.length : ℚ) := by
    exact_mod_cast List.length_pos.2 hl
  constructor
  · rw [le_div_iff₀ hpos]; linarith [hsum.1]
  · rw [div_le_iff₀ hpos]; linarith [hsum.2]

/-- The mean of a student's values in a subject lies between bounds of the values. -/
theorem subject_mean_bounds (data : DataStore) (s j : Int) (a b : Int)
    (hval : ∀ g ∈ data.grades, a ≤ g.value ∧ g.value ≤ b) (hne : pair_grades data s j ≠ []) :
    (a : ℚ) ≤ subject_mean data s j ∧ subject_mean data s j ≤ (b : ℚ) := by
  have h := mean_bounds ((pair_grades data s j).map (fun g => (g.value : ℚ)))
    (by simpa using hne) a b (by
      intro x hx
      obtain ⟨g, hg, rfl⟩ := List.mem_map.1 hx
      have := hval g (List.mem_of_mem_filter hg)
      exact ⟨by exact_mod_cast this.1, by exact_mod_cast this.2⟩)
  unfold subject_mean
  have hcast : ((((pair_grades data s j).map Grade.value).sum : Int) : ℚ)
      = ((pair_grades data s j).map (fun g => (g.value : ℚ))).sum := by
    rw [Int.cast_list_sum, List.map_map]
    rfl
  rw [hcast]
  simpa using h

/-- With grade values between `a` and `b`, the overall average of a student with a
grade lies between `a` and `b`. -/
theorem average_bounds (data : DataStore) (s : Int) (a b : Int)
    (hval : ∀ g ∈ data.grades, a ≤ g.value ∧ g.value ≤ b)
    (hgrade : ∃ g ∈ data.grades, g.student_id = s) :
    (a : ℚ) ≤ average_subjects_for_student data s ∧
    average_subjects_for_student data s ≤ (b : ℚ) := by
  obtain ⟨hne, havg⟩ := average_of_graded data s hgrade
  rw [havg]
  have h := mean_bounds (((subject_aggregates_for_student data s).map Prod.fst).map
    (subject_mean data s)) (by simpa using hne) a b (by
      intro x hx
      obtain ⟨j, hj, rfl⟩ := List.mem_map.1 hx
      obtain ⟨e, he, rfl⟩ := List.mem_map.1 hj
      obtain ⟨k, agg⟩ := e
      exact subject_mean_bounds data s k a b hval ((aggregates_mem_iff data s k agg).1 he).1)
  simpa using h

theorem report_top_entries_fold (data : DataStore) (l : List Student) (acc : List (Int × ℚ)) :
    l.foldl (fun entries student =>
      if average_subjects_for_student data student.id ≥ 0 then
        entries ++ [(student.id, average_subjects_for_student data student.id)]
      else entries) acc =
    acc ++ (l.filter (fun st => decide (0 ≤ average_subjects_for_student data st.id))).map
      (fun st => (st.id, average_subjects_for_student data st.id)) := by
  induction l generalizing acc with
  | nil => simp
  | cons st l ih =>
    rw [List.foldl_cons, ih, List.filter_cons]
    by_cases h : 0 ≤ average_subjects_for_student data st.id
    · simp [h]
    · simp [h]

theorem format_fixed2_ne_none (v : ℚ) : format_fixed2 v ≠ kNone := by
  intro h
  have hmem : (0x2E : Nat) ∈ format_fixed2 v := by
    unfold format_fixed2
    simp
  rw [h] at hmem
  revert hmem
  decide

/-- Claim C29. In a store whose grade values all lie in [1,5], the overall average of a
student with a grade lies between 1 and 5; so the result is the sentinel -1 exactly
when the student has no grade, and the tests `avg < 0.0` and `avg >= 0.0` of
`format_avg`, `filter_students` and `report_top_n` separate exactly the students
without grades from those with grades. -/
theorem C29_average_range (data : DataStore) (s : Int)
    (hval : ∀ g ∈ data.grades, 1 ≤ g.value ∧ g.value ≤ 5) :
    ((∃ g ∈ data.grades, g.student_id = s) →
      1 ≤ average_subjects_for_student data s ∧ average_subjects_for_student data s ≤ 5) ∧
    (average_subjects_for_student data s = -1 ↔ ¬ ∃ g ∈ data.grades, g.student_id = s) ∧
    (average_subjects_for_student data s < 0 ↔ ¬ ∃ g ∈ data.grades, g.student_id = s) ∧
    (0 ≤ average_subjects_for_student data s ↔ ∃ g ∈ data.grades, g.student_id = s) ∧
    (format_avg (average_subjects_for_student data s) = kNone ↔
      ¬ ∃ g ∈ data.grades, g.student_id = s) ∧
    report_top_entries data =
      (data.students.filter (fun st => decide (∃ g ∈ data.grades, g.student_id = st.id))).map
        (fun st => (st.id, average_subjects_for_student data st.id)) ∧
    (filter_students data 0 [] true 0).map StudentResult.student =
      data.students.filter (fun st => decide (∃ g ∈ data.grades, g.student_id = st.id)) := by
  have hrange : ∀ id, (∃ g ∈ data.grades, g.student_id = id) →
      1 ≤ average_subjects_for_student data id ∧ average_subjects_for_student data id ≤ 5 := by
    intro id hg
    have := average_bounds data id 1 5 hval hg
    simpa using this
  have hiff : ∀ id, 0 ≤ average_subjects_for_student data id ↔
      ∃ g ∈ data.grades, g.student_id = id := by
    intro id
    constructor
    · intro h
      by_contra hno
      rw [average_of_no_grades data id hno] at h
      norm_num at h
    · intro hg
      linarith [(hrange id hg).1]
  refine ⟨hrange s, ?_, ?_, hiff s, ?_, ?_, ?_⟩
  · constructor
    · intro h hg
      have := (hrange s hg).1
      rw [h] at this
      norm_num at this
    · exact average_of_no_grades data s
  · rw [← hiff s, not_le]
  · rw [← hiff s]
    unfold format_avg
    constructor
    · intro h hge
      rw [if_neg (not_lt.2 hge)] at h
      exact format_fixed2_ne_none _ h
    · intro h
      rw [if_pos (not_le.1 h)]
  · unfold report_top_entries
    rw [report_top_entries_fold, List.nil_append]
    congr 1
    apply List.filter_congr
    intro st _
    exact decide_eq_decide.2 (hiff st.id)
  · unfold filter_students
    rw [filter_students_foldl, List.nil_append, List.map_map]
    have hid : (StudentResult.student ∘ fun st : Student =>
        ({ student := st, avg := average_subjects_for_student data st.id } : StudentResult))
        = id := by
      funext st; rfl
    rw [hid, List.map_id]
    apply List.filter_congr
    intro st _
    apply decide_eq_decide.2
    rw [← hiff st.id]
    constructor
    · intro h
      by_contra hc
      exact h.2.2.2 ⟨rfl, Or.inl (not_le.1 hc)⟩
    · intro h
      refine ⟨by omega, by omega, by simp [to_lower_ascii, trim], ?_⟩
      rintro ⟨-, hlt | hlt⟩
      · exact absurd h (not_le.2 hlt)
      · exact absurd h (not_le.2 hlt)

/-- Witness of C29: the worked example has values in [1,5]; its student has the
average 4 and is the one entry of the ranking. -/
theorem C29_average_range_witness :
    (∀ g ∈ example_store.grades, 1 ≤ g.value ∧ g.value ≤ 5) ∧
    (1 ≤ average_subjects_for_student example_store 1 ∧
      average_subjects_for_student example_store 1 ≤ 5) ∧
    (report_top_entries example_store).map Prod.fst = [1] := by
  have h := C29_average_range example_store 1 (by decide)
  refine ⟨by decide, h.1 (by decide), ?_⟩
  rw [h.2.2.2.2.2.1]
  decide

/-- The grades of a student whose grades all belong to two subjects split into the
grades of the two pairs, up to order. -/
theorem student_grades_two_subjects (data : DataStore) (s j1 j2 : Int) (hne : j1 ≠ j2)
    (hall : ∀ g ∈ data.grades, g.student_id = s → g.subject_id = j1 ∨ g.subject_id = j2) :
    (pair_grades data s j1 ++ pair_grades data s j2).Perm (student_grades data s) := by
  have hp := List.filter_append_perm (fun g : Grade => g.subject_id == j1)
    (student_grades data s)
  have e1 : (student_grades data s).filter (fun g : Grade => g.subject_id == j1) =
      pair_grades data s j1 := by
    unfold student_grades pair_grades
    rw [List.filter_filter]
    apply List.filter_congr
    intro g _
    exact Bool.and_comm _ _
  have e2 : (student_grades data s).filter (fun g : Grade => !(g.subject_id == j1)) =
      pair_grades data s j2 := by
    unfold student_grades pair_grades
    rw [List.filter_filter]
    apply List.filter_congr
    intro g hg
    by_cases hs : g.student_id = s
    · rcases hall g hg hs with h | h
      · have e1 : (g.subject_id == j1) = true := by simp [h]
        have e2 : (g.subject_id == j2) = false := by simp [h, hne]
        rw [e1, e2]; simp
      · have e1 : (g.subject_id == j1) = false := by
          simp only [h, beq_eq_false_iff_ne]; exact fun e => hne e.symm
        have e2 : (g.subject_id == j2) = true := by simp [h]
        rw [e1, e2]; simp
    · have e0 : (g.student_id == s) = false := by simp [hs]
      rw [e0]; simp
  rw [e1, e2] at hp
  exact hp

/-- Two means of positive length: the mean of the two means equals the mean of all
values exactly when the lengths are equal or the means are equal. -/
theorem mean_of_means_eq_iff (S1 S2 n1 n2 : ℚ) (h1 : 0 < n1) (h2 : 0 < n2) :
    (S1 / n1 + S2 / n2) / 2 = (S1 + S2) / (n1 + n2) ↔ (n1 = n2 ∨ S1 / n1 = S2 / n2) := by
  have hn1 : n1 ≠ 0 := ne_of_gt h1
  have hn2 : n2 ≠ 0 := ne_of_gt h2
  have hs : n1 + n2 ≠ 0 := ne_of_gt (add_pos h1 h2)
  have key : (S1 / n1 + S2 / n2) / 2 - (S1 + S2) / (n1 + n2) =
      (S1 / n1 - S2 / n2) * (n2 - n1) / (2 * (n1 + n2)) := by
    field_simp
    ring
  constructor
  · intro h
    have h0 : (S1 / n1 - S2 / n2) * (n2 - n1) / (2 * (n1 + n2)) = 0 := by
      rw [← key, h, sub_self]
    have h2 : (2 : ℚ) * (n1 + n2) ≠ 0 := mul_ne_zero (by norm_num) hs
    rcases (div_eq_zero_iff.1 h0) with h3 | h3
    · rcases mul_eq_zero.1 h3 with h4 | h4
      · right; linarith
      · left; linarith
    · exact absurd h3 h2
  · intro h
    have h0 : (S1 / n1 - S2 / n2) * (n2 - n1) / (2 * (n1 + n2)) = 0 := by
      rcases h with h | h
      · rw [h, sub_self, mul_zero, zero_div]
      · rw [h, sub_self, zero_mul, zero_div]
    rw [← key] at h0
    linarith

/-- The overall average and the flat mean of a student whose grades belong to exactly
two subjects, in terms of the two pairs. -/
theorem two_subject_means (data : DataStore) (s j1 j2 : Int) (hne : j1 ≠ j2)
    (h1 : pair_grades data s j1 ≠ []) (h2 : pair_grades data s j2 ≠ [])
    (hall : ∀ g ∈ data.grades, g.student_id = s → g.subject_id = j1 ∨ g.subject_id = j2) :
    average_subjects_for_student data s =
      (subject_mean data s j1 + subject_mean data s j2) / 2 ∧
    flat_mean data s =
      ((((pair_grades data s j1).map Grade.value).sum : ℚ) +
        (((pair_grades data s j2).map Grade.value).sum : ℚ)) /
      (((pair_grades data s j1).length : ℚ) + ((pair_grades data s j2).length : ℚ)) := by
  constructor
  · obtain ⟨g, hg⟩ := List.exists_mem_of_ne_nil _ h1
    have hgm := List.mem_filter.1 hg
    have hgs : g.student_id = s := by
      have := hgm.2
      simp only [Bool.and_eq_true, beq_iff_eq] at this
      exact this.1
    have havg := (average_of_graded data s ⟨g, hgm.1, hgs⟩).2
    have hkeys := aggregates_keys_perm data s
    have hgs2 : (graded_subjects data s).Perm [j1, j2] := by
      refine (List.perm_ext_iff_of_nodup (List.nodup_dedup _) (by simp [hne])).2 ?_
      intro j
      simp only [graded_subjects, student_grades, List.mem_dedup, List.mem_map,
        List.mem_filter, beq_iff_eq, List.mem_cons, List.mem_singleton, List.not_mem_nil,
        or_false]
      constructor
      · rintro ⟨g', ⟨hg', hs'⟩, rfl⟩
        exact hall g' hg' hs'
      · rintro (rfl | rfl)
        · exact ⟨g, ⟨hgm.1, hgs⟩, by
            have := hgm.2
            simp only [Bool.and_eq_true, beq_iff_eq] at this
            exact this.2⟩
        · obtain ⟨g2, hg2⟩ := List.exists_mem_of_ne_nil _ h2
          have hm2 := List.mem_filter.1 hg2
          have := hm2.2
          simp only [Bool.and_eq_true, beq_iff_eq] at this
          exact ⟨g2, ⟨hm2.1, this.1⟩, this.2⟩
    have hperm := hkeys.trans hgs2
    have hlen : (subject_aggregates_for_student data s).length = 2 := by
      have := hperm.length_eq
      simpa using this
    have hsum := (hperm.map (subject_mean data s)).sum_eq
    rw [havg, hsum, hlen]
    simp
  · have hperm := student_grades_two_subjects data s j1 j2 hne hall
    unfold flat_mean
    rw [← hperm.length_eq, ← (hperm.map Grade.value).sum_eq]
    simp only [List.map_append, List.sum_append, List.length_append]
    push_cast
    rfl

theorem pairwise_modify_first {α : Type} (R : α → α → Prop) (p : α → Bool) (f : α → α)
    (hl : ∀ a b, R a b → R (f a) b) (hr : ∀ a b, R a b → R a (f b)) (l : List α)
    (h : l.Pairwise R) : (modify_first p f l).Pairwise R := by
  induction l with
  | nil => exact List.Pairwise.nil
  | cons x xs ih =>
    rw [List.pairwise_cons] at h
    unfold modify_first
    by_cases hp : p x = true
    · rw [if_pos hp, List.pairwise_cons]
      exact ⟨fun b hb => hl x b (h.1 b hb), h.2⟩
    · rw [if_neg hp, List.pairwise_cons]
      refine ⟨?_, ih h.2⟩
      intro b hb
      rcases mem_modify_first p f xs b hb with hb | ⟨y, hy, -, rfl⟩
      · exact h.1 b hb
      · exact hr x y (h.1 y hy)

theorem grade_before_edit_left (rv : Option Int) (a b : Grade) (h : grade_before a b) :
    grade_before (grade_edit rv a) b := by
  obtain ⟨e1, e2, e3, e4⟩ := grade_edit_fields rv a
  unfold grade_before at h ⊢
  rw [e1, e2, e3, e4]
  exact h

theorem grade_before_edit_right (rv : Option Int) (a b : Grade) (h : grade_before a b) :
    grade_before a (grade_edit rv b) := by
  obtain ⟨e1, e2, e3, e4⟩ := grade_edit_fields rv b
  unfold grade_before at h ⊢
  rw [e1, e2, e3, e4]
  exact h

/-- The attempt number computed by `next_attempt` exceeds the attempt number of every
grade of the pair in the store. -/
theorem next_attempt_gt (data : DataStore) (s j : Int) :
    ∀ h ∈ pair_grades data s j, h.attempt < next_attempt data s j := by
  intro h hh
  rw [next_attempt_eq_pair]
  have := (foldl_max_attempt_ge (pair_grades data s j) 1).2 h hh
  omega

/-- A store with the same grade list and grade counter is in creation order as well. -/
theorem grade_order_congr (d d1 : DataStore) (hg : d1.grades = d.grades)
    (hc : d1.next_grade_id = d.next_grade_id) (h : grade_order d) : grade_order d1 := by
  unfold grade_order at h ⊢
  rw [hg, hc]
  exact h

/-- A store whose grade list is a sublist, with the same grade counter, is in creation
order as well. -/
theorem grade_order_sublist (d d1 : DataStore) (hg : d1.grades.Sublist d.grades)
    (hc : d1.next_grade_id = d.next_grade_id) (h : grade_order d) : grade_order d1 := by
  unfold grade_order at h ⊢
  rw [hc]
  exact ⟨h.1.sublist hg, fun g hgm => h.2 g (hg.subset hgm)⟩

/-- Every operation keeps the grade list in creation order. -/
theorem exec_grade_order (d : DataStore) (op : Op) (h : grade_order d) :
    grade_order (exec d op).1 := by
  cases op with
  | create_student name group_id => exact grade_order_congr d _ rfl rfl h
  | create_group name => exact grade_order_congr d _ rfl rfl h
  | add_subject name => exact grade_order_congr d _ rfl rfl h
  | add_grade s j v =>
    show grade_order (add_grade d s j v).1
    rcases add_grade_cases d s j v with ⟨he, -, -⟩ | ⟨d1, g, he, hg, hd1, -⟩
    · rw [he]; exact h
    · rw [he]
      show grade_order d1
      have hgid : g.id = d.next_grade_id := by rw [hg]
      have hgs : g.student_id = s := by rw [hg]
      have hgj : g.subject_id = j := by rw [hg]
      have hga : g.attempt = next_attempt d s j := by rw [hg]
      have hgr : d1.grades = d.grades ++ [g] := by rw [hd1]
      have hcn : d1.next_grade_id = d.next_grade_id + 1 := by rw [hd1]
      unfold grade_order at h ⊢
      rw [hgr, hcn]
      refine ⟨?_, ?_⟩
      · rw [List.pairwise_append]
        refine ⟨h.1, List.pairwise_singleton _ _, ?_⟩
        intro a ha b hb
        rw [List.mem_singleton] at hb
        subst hb
        refine ⟨by rw [hgid]; exact h.2 a ha, ?_⟩
        intro e1 e2
        rw [hga]
        apply next_attempt_gt d s j a
        apply List.mem_filter.2
        refine ⟨ha, ?_⟩
        rw [hgs] at e1
        rw [hgj] at e2
        simp [e1, e2]
      · intro a ha
        rw [List.mem_append, List.mem_singleton] at ha
        rcases ha with ha | rfl
        · have := h.2 a ha; omega
        · rw [hgid]; omega
  | edit_student id new_name new_group =>
    show grade_order (edit_student d id new_name new_group).1
    unfold edit_student
    split
    · exact h
    · split
      · exact h
      · exact grade_order_congr d _ rfl rfl h
  | edit_group id new_name =>
    show grade_order (edit_group d id new_name).1
    unfold edit_group
    split
    · exact h
    · split
      · exact h
      · exact grade_order_congr d _ rfl rfl h
  | edit_subject id new_name =>
    show grade_order (edit_subject d id new_name).1
    unfold edit_subject
    split
    · exact h
    · split
      · exact h
      · exact grade_order_congr d _ rfl rfl h
  | edit_grade id new_value =>
    show grade_order (edit_grade d id new_value).1
    unfold edit_grade
    split
    · exact h
    · split
      · exact h
      · rename_i grade _
        unfold grade_order at h ⊢
        refine ⟨pairwise_modify_first grade_before _ _
          (grade_before_edit_left _) (grade_before_edit_right _) _ h.1, ?_⟩
        intro g hg
        rcases mem_modify_first _ _ _ g hg with hg | ⟨y, hy, -, rfl⟩
        · exact h.2 g hg
        · rw [(grade_edit_fields _ y).1]; exact h.2 y hy
  | delete_student id =>
    show grade_order (delete_student d id).1
    unfold delete_student
    split
    · exact h
    · split
      · exact h
      · exact grade_order_sublist d _ (List.filter_sublist _) rfl h
  | delete_group id =>
    show grade_order (delete_group d id).1
    unfold delete_group
    split
    · exact h
    · split
      · exact h
      · exact grade_order_congr d _ rfl rfl h
  | delete_subject id =>
    show grade_order (delete_subject d id).1
    unfold delete_subject
    split
    · exact h
    · split
      · exact h
      · exact grade_order_sublist d _ (List.filter_sublist _) rfl h
  | delete_grade id =>
    show grade_order (delete_grade d id).1
    unfold delete_grade
    split
    · exact h
    · split
      · exact h
      · exact grade_order_sublist d _ (List.eraseP_sublist _) rfl h

/-- Every run keeps the grade list in creation order. -/
theorem run_grade_order (ops : List Op) :
    ∀ d : DataStore, grade_order d → grade_order (run d ops).1 := by
  induction ops with
  | nil => intro d h; exact h
  | cons op ops ih =>
    intro d h
    exact ih (exec d op).1 (exec_grade_order d op h)

/-- Two distinct members of a pairwise ordered list are related one way or the other. -/
theorem pairwise_mem_cases {α : Type} (R : α → α → Prop) (l : List α) (h : l.Pairwise R)
    (a b : α) (ha : a ∈ l) (hb : b ∈ l) (hne : a ≠ b) : R a b ∨ R b a := by
  induction l with
  | nil => simp at ha
  | cons x xs ih =>
    rw [List.pairwise_cons] at h
    rw [List.mem_cons] at ha hb
    rcases ha with rfl | ha
    · rcases hb with rfl | hb
      · exact absurd rfl hne
      · exact Or.inl (h.1 b hb)
    · rcases hb with rfl | hb
      · exact Or.inr (h.1 a ha)
      · exact ih h.2 ha hb

/-- In a store in creation order, two distinct grades of one pair have different attempt
numbers, ordered like their ids. -/
theorem grade_order_pair (d : DataStore) (h : grade_order d) (s j : Int) (g k : Grade)
    (hg : g ∈ pair_grades d s j) (hk : k ∈ pair_grades d s j) (hne : g ≠ k) :
    g.attempt ≠ k.attempt ∧ g.id ≠ k.id ∧ (g.id < k.id ↔ g.attempt < k.attempt) := by
  have mg := List.mem_filter.1 hg
  have mk := List.mem_filter.1 hk
  have fg := mg.2
  have fk := mk.2
  simp only [Bool.and_eq_true, beq_iff_eq] at fg fk
  have es : g.student_id = k.student_id := by rw [fg.1, fk.1]
  have ej : g.subject_id = k.subject_id := by rw [fg.2, fk.2]
  rcases pairwise_mem_cases grade_before d.grades h.1 g k mg.1 mk.1 hne with hb | hb
  · have h1 := hb.1
    have h2 := hb.2 es ej
    exact ⟨by omega, by omega, by constructor <;> intro <;> assumption⟩
  · have h1 := hb.1
    have h2 := hb.2 es.symm ej.symm
    exact ⟨by omega, by omega, by constructor <;> intro <;> omega⟩

theorem grade_order_empty : grade_order DataStore.empty := by decide

/-- In a store in creation order the grades of a pair have increasing ids and increasing
attempt numbers along the grade list. -/
theorem grade_order_pair_list (d : DataStore) (h : grade_order d) (s j : Int) :
    (pair_grades d s j).Pairwise (fun a b => a.id < b.id ∧ a.attempt < b.attempt) := by
  have hsub : (pair_grades d s j).Pairwise grade_before :=
    h.1.sublist (List.filter_sublist _)
  refine hsub.imp_of_mem ?_
  intro a b ha hb hab
  have fa := (List.mem_filter.1 ha).2
  have fb := (List.mem_filter.1 hb).2
  simp only [Bool.and_eq_true, beq_iff_eq] at fa fb
  exact ⟨hab.1, hab.2 (by rw [fa.1, fb.1]) (by rw [fa.2, fb.2])⟩

theorem grade_order_of_no_grades (d : DataStore) (h : d.grades = []) : grade_order d := by
  unfold grade_order
  rw [h]
  exact ⟨List.Pairwise.nil, fun g hg => absurd hg (List.not_mem_nil g)⟩

/-- Claim C28. In every store reached from the empty store by the operations of the core,
two distinct grades of one (student, subject) pair have different attempt numbers, and
the one with the smaller id is the one with the smaller attempt number; hence a grade of
the pair with the highest id also has the highest attempt number. -/
theorem C28_id_order_is_attempt_order (ops : List Op) (s j : Int) :
    (∀ g ∈ pair_grades (run DataStore.empty ops).1 s j,
      ∀ h ∈ pair_grades (run DataStore.empty ops).1 s j, g ≠ h →
        g.attempt ≠ h.attempt ∧ (g.id < h.id ↔ g.attempt < h.attempt)) ∧
    (∀ g ∈ pair_grades (run DataStore.empty ops).1 s j,
      (∀ h ∈ pair_grades (run DataStore.empty ops).1 s j, h.id ≤ g.id) →
        ∀ h ∈ pair_grades (run DataStore.empty ops).1 s j, h.attempt ≤ g.attempt) := by
  have hord := run_grade_order ops DataStore.empty grade_order_empty
  refine ⟨?_, ?_⟩
  · intro g hg h hh hne
    obtain ⟨h1, -, h3⟩ := grade_order_pair _ hord s j g h hg hh hne
    exact ⟨h1, h3⟩
  · intro g hg hmax h hh
    by_cases e : h = g
    · rw [e]
    · obtain ⟨-, h2, h3⟩ := grade_order_pair _ hord s j h g hh hg e
      have hle := hmax h hh
      have hlt : h.id < g.id := lt_of_le_of_ne hle h2
      exact le_of_lt (h3.1 hlt)

/-- Witness of C28: after five grade operations on one pair, the grades with ids 1 and 3
of the pair (1, 1) have the attempts 1 and 2. -/
theorem C28_id_order_is_attempt_order_witness :
    (pair_grades (run DataStore.empty
      (Op.create_student [0x53] 0 :: Op.add_subject [0x41] :: reuse_ops)).1 1 1).map
        (fun g => (g.id, g.attempt)) = [(1, 1), (3, 2)] ∧
    ((1 : Int) < 3 ↔ (1 : Int) < 2) := by
  refine ⟨by decide, ?_⟩
  exact ((C28_id_order_is_attempt_order
    (Op.create_student [0x53] 0 :: Op.add_subject [0x41] :: reuse_ops) 1 1).1
    { id := 1, student_id := 1, subject_id := 1, value := 5, attempt := 1 } (by decide)
    { id := 3, student_id := 1, subject_id := 1, value := 3, attempt := 2 } (by decide)
    (by decide)).2

/-- Counterexample to C22: from a store with an empty grade list, the operations
add_grade, add_grade, delete_grade (of the second grade), add_grade for the pair (1, 1)
assign the attempt numbers 1, 2, 2 in creation order: the number 2 of the deleted grade
is assigned again. -/
theorem C22_counterexample :
    one_pair_store.grades = [] ∧
    reuse_ops = [Op.add_grade 1 1 5, Op.add_grade 1 1 4, Op.delete_grade 2,
      Op.add_grade 1 1 3] ∧
    (created_for_pair (run one_pair_store reuse_ops).2 1 1).map Grade.attempt = [1, 2, 2] ∧
    ¬ ((created_for_pair (run one_pair_store reuse_ops).2 1 1).map Grade.attempt).Pairwise
      (fun a b => a < b) := by
  decide

/-- Claim C22, amended. For every sequence of operations starting from a store with an
empty grade list and every (student, subject) pair, the attempt number assigned to a
new grade of the pair is strictly greater than the attempt number of every grade of the
pair that is in the store at that moment, so that the attempt numbers of the pair's
grades present in the store are strictly increasing in creation order; the attempt
number of a grade that was deleted can be assigned again. -/
theorem C22_attempts_increase (d0 : DataStore) (hstart : d0.grades = []) (pre : List Op)
    (s j v : Int) (g : Grade)
    (hadd : (exec (run d0 pre).1 (Op.add_grade s j v)).2 = Report.added g) :
    (∀ h ∈ pair_grades (run d0 pre).1 s j, h.attempt < g.attempt) ∧
    (∀ h ∈ created_for_pair (run d0 pre).2 s j, h ∈ (run d0 pre).1.grades →
      h.attempt < g.attempt) ∧
    pair_grades (exec (run d0 pre).1 (Op.add_grade s j v)).1 s j =
      pair_grades (run d0 pre).1 s j ++ [g] ∧
    (pair_grades (exec (run d0 pre).1 (Op.add_grade s j v)).1 s j).Pairwise
      (fun a b => a.id < b.id ∧ a.attempt < b.attempt) := by
  have hord := run_grade_order pre d0 (grade_order_of_no_grades d0 hstart)
  have hord1 := exec_grade_order (run d0 pre).1 (Op.add_grade s j v) hord
  have hgt := next_attempt_gt (run d0 pre).1 s j
  have hex : exec (run d0 pre).1 (Op.add_grade s j v) = add_grade (run d0 pre).1 s j v := rfl
  rw [hex] at hadd hord1 ⊢
  rcases add_grade_cases (run d0 pre).1 s j v with ⟨-, hno, -⟩ | ⟨d1, g1, he, hg, hd1, -⟩
  · exact absurd hadd (hno g)
  · rw [he] at hadd hord1 ⊢
    have hgg : g1 = g := by
      have := hadd
      simp only [Report.added.injEq] at this
      exact this
    subst hgg
    have hga : g1.attempt = next_attempt (run d0 pre).1 s j := by rw [hg]
    have hgs : g1.student_id = s ∧ g1.subject_id = j := by rw [hg]; exact ⟨rfl, rfl⟩
    have hfirst : ∀ h ∈ pair_grades (run d0 pre).1 s j, h.attempt < g1.attempt := by
      intro h hh
      rw [hga]
      exact hgt h hh
    refine ⟨hfirst, ?_, ?_, grade_order_pair_list d1 hord1 s j⟩
    · intro h hh hmem
      apply hfirst
      have := (List.mem_filter.1 hh).2
      exact List.mem_filter.2 ⟨hmem, this⟩
    · rw [pair_grades_append (run d0 pre).1 d1 g1 s j (by rw [hd1]), if_pos hgs]

/-- Witness of C22 (amended): after two grades of the pair (1, 1) and the deletion of
the second one, the third grade gets the attempt number 2, above the attempt number 1
of the grade still in the store. -/
theorem C22_attempts_increase_witness :
    (pair_grades (run one_pair_store
      [Op.add_grade 1 1 5, Op.add_grade 1 1 4, Op.delete_grade 2]).1 1 1).map Grade.attempt
        = [1] ∧
    ∀ h ∈ pair_grades (run one_pair_store
      [Op.add_grade 1 1 5, Op.add_grade 1 1 4, Op.delete_grade 2]).1 1 1,
      h.attempt < (2 : Int) :=
  ⟨by decide,
   (C22_attempts_increase one_pair_store rfl
    [Op.add_grade 1 1 5, Op.add_grade 1 1 4, Op.delete_grade 2] 1 1 3
    { id := 3, student_id := 1, subject_id := 1, value := 3, attempt := 2 } (by decide)).1⟩

/-- Sorting with the descending comparator gives the reverse of sorting with the
ascending one, for results with pairwise distinct student ids. -/
theorem std_sort_desc_reverse (sort_key : Int) (rs : List StudentResult)
    (hnd : (rs.map (fun r => r.student.id)).Nodup) :
    std_sort (search_cmp sort_key false) rs
      = (std_sort (search_cmp sort_key true) rs).reverse := by
  have hrs : rs.Nodup := List.Nodup.of_map _ hnd
  have hids : ∀ a ∈ rs, ∀ b ∈ rs, a ≠ b → a.student.id ≠ b.student.id := by
    intro a ha b hb hne e
    exact hne (List.inj_on_of_nodup_map hnd ha hb e)
  obtain ⟨ia, ta, tota⟩ := search_cmp_order sort_key true
  obtain ⟨id, td, totd⟩ := search_cmp_order sort_key false
  have hasc := (std_sort_canonical (search_cmp sort_key true) ia ta rs hrs
    (fun a ha b hb hne => tota a b (hids a ha b hb hne))).1
  have hdesc := (std_sort_canonical (search_cmp sort_key false) id td rs hrs
    (fun a ha b hb hne => totd a b (hids a ha b hb hne))).1
  have hflip : ∀ a b, search_cmp sort_key false a b = search_cmp sort_key true b a := by
    intro a b
    simp [search_cmp]
  have hrev : ((std_sort (search_cmp sort_key true) rs).reverse).Pairwise
      (fun a b => search_cmp sort_key false a b = true) := by
    rw [List.pairwise_reverse]
    exact hasc.imp (fun {a b} h => by rw [hflip]; exact h)
  have hperm : (std_sort (search_cmp sort_key false) rs).Perm
      ((std_sort (search_cmp sort_key true) rs).reverse) :=
    (std_sort_perm _ rs).trans
      ((std_sort_perm _ rs).symm.trans (List.reverse_perm _).symm)
  exact sorted_perm_unique (search_cmp sort_key false) id td _ _ hperm hdesc hrev

/-- Claim C30. For results with pairwise distinct student ids and every sort key, the
list that `students_search_menu` produces in descending order (any sort order other
than 1) is the reverse of the list it produces in ascending order (sort order 1): the
key and the id tie-break are reversed together. -/
theorem C30_descending_is_reverse (data : DataStore) (group_filter : Int)
    (name_query : CppString) (use_min_avg : Bool) (min_avg : ℚ) (sort_key sort_order : Int)
    (hdesc : sort_order ≠ 1)
    (hnd : ((filter_students data group_filter name_query use_min_avg min_avg).map
      (fun r => r.student.id)).Nodup) :
    students_search_menu data group_filter name_query use_min_avg min_avg sort_key sort_order
      = (students_search_menu data group_filter name_query use_min_avg min_avg
          sort_key 1).reverse ∧
    (∀ rs : List StudentResult, (rs.map (fun r => r.student.id)).Nodup →
      std_sort (search_cmp sort_key false) rs
        = (std_sort (search_cmp sort_key true) rs).reverse) := by
  refine ⟨?_, std_sort_desc_reverse sort_key⟩
  unfold students_search_menu
  by_cases he : data.students.isEmpty = true
  · simp [he]
  · have h1 : (sort_order == 1) = false := by simp [hdesc]
    have h2 : ((1 : Int) == 1) = true := rfl
    simp only [he, h1, h2]
    exact std_sort_desc_reverse sort_key _ hnd

/-- Witness of C30: the three students of `name_store`, sorted by name, come out in the
id order 2, 3, 1 ascending and 1, 3, 2 descending. -/
theorem C30_descending_is_reverse_witness :
    ((filter_students name_store 0 [] false 0).map (fun r => r.student.id)).Nodup ∧
    (students_search_menu name_store 0 [] false 0 2 1).map (fun r => r.student.id)
      = [2, 3, 1] ∧
    students_search_menu name_store 0 [] false 0 2 2
      = (students_search_menu name_store 0 [] false 0 2 1).reverse := by
  have hnd : ((filter_students name_store 0 [] false 0).map
      (fun r => r.student.id)).Nodup := by
    decide
  refine ⟨hnd, ?_, (C30_descending_is_reverse name_store 0 [] false 0 2 2 (by decide) hnd).1⟩
  decide

theorem fit_cell_nil (width : Nat) : fit_cell [] width = [] := by
  unfold fit_cell
  rw [if_pos]
  exact Nat.zero_le _

/-- The cell of a column padded on the right: the fitted text followed by spaces. -/
theorem pad_right_fit_cell (t : CppString) (width : Nat) :
    pad_right_utf8 (fit_cell t width) width =
      fit_cell t width ++ List.replicate (width - utf8_length (fit_cell t width)) 0x20 := by
  have hle := utf8_length_fit_cell_le t width
  simp only [pad_right_utf8]
  split_ifs with h
  · have : width - utf8_length (fit_cell t width) = 0 := by omega
    rw [this]; simp
  · rfl

/-- The cell of a column padded on the left: spaces followed by the fitted text. -/
theorem pad_left_fit_cell (t : CppString) (width : Nat) :
    pad_left_utf8 (fit_cell t width) width =
      List.replicate (width - utf8_length (fit_cell t width)) 0x20 ++ fit_cell t width := by
  have hle := utf8_length_fit_cell_le t width
  simp only [pad_left_utf8]
  split_ifs with h
  · have : width - utf8_length (fit_cell t width) = 0 := by omega
    rw [this]; simp
  · rfl

/-- The cell of the loop body of `print_table_row`, with a missing column text read as
the empty text. -/
theorem table_cell_eq (col : Option CppString) (w : Int) (right : Bool) :
    table_cell col w right =
      if right then pad_left_utf8 (fit_cell (col.getD []) (column_width w)) (column_width w)
      else pad_right_utf8 (fit_cell (col.getD []) (column_width w)) (column_width w) := by
  cases col with
  | none => simp only [table_cell, Option.getD_none, fit_cell_nil]
  | some t => simp only [table_cell, Option.getD_some]

/-- The output of `print_table_row`, column by column. -/
theorem print_table_row_eq (cols : List CppString) (widths : List Int)
    (align_right : List Bool) :
    print_table_row cols widths align_right =
      ((List.range widths.length).map (fun i =>
        [0x7C, 0x20] ++
        (if align_right.getD i false then
          pad_left_utf8 (fit_cell (cols.getD i []) (column_width (widths.getD i 0)))
            (column_width (widths.getD i 0))
         else
          pad_right_utf8 (fit_cell (cols.getD i []) (column_width (widths.getD i 0)))
            (column_width (widths.getD i 0))) ++ [0x20])).flatten ++ [0x7C, 0x0A] := by
  unfold print_table_row
  congr 2
  apply List.ext_getElem
  · simp
  · intro i h1 h2
    have hi : i < widths.length := by simpa using h1
    simp only [List.getElem_mapIdx, List.getElem_map, List.getElem_range, table_cell_eq]
    simp [List.getD_eq_getElem?_getD, List.getElem?_eq_getElem hi]

/-- Claim C16. The row that `print_table_row` writes is, for each column in turn, the
bytes "| ", the cell and a space, closed by "|" and a line feed; the cell of a column
with text `t`, width `w` (a width below 1 counting as 1) and either alignment is
`pad_left_utf8` or `pad_right_utf8` applied to `fit_cell t w`: it has exactly `w`
characters counted by `utf8_length`, and it is `fit_cell t w` with spaces only added,
after it in a left-aligned column and before it in a right-aligned one. -/
theorem C16_print_table_row (cols : List CppString) (widths : List Int)
    (align_right : List Bool) :
    print_table_row cols widths align_right =
      ((List.range widths.length).map (fun i =>
        [0x7C, 0x20] ++
        (if align_right.getD i false then
          pad_left_utf8 (fit_cell (cols.getD i []) (column_width (widths.getD i 0)))
            (column_width (widths.getD i 0))
         else
          pad_right_utf8 (fit_cell (cols.getD i []) (column_width (widths.getD i 0)))
            (column_width (widths.getD i 0))) ++ [0x20])).flatten ++ [0x7C, 0x0A] ∧
    (∀ (t : CppString) (w : Int),
      (column_width w : Int) = max 1 w ∧
      print_table_row [t] [w] [false] =
        [0x7C, 0x20] ++ pad_right_utf8 (fit_cell t (column_width w)) (column_width w)
          ++ [0x20, 0x7C, 0x0A] ∧
      print_table_row [t] [w] [true] =
        [0x7C, 0x20] ++ pad_left_utf8 (fit_cell t (column_width w)) (column_width w)
          ++ [0x20, 0x7C, 0x0A] ∧
      utf8_length (pad_right_utf8 (fit_cell t (column_width w)) (column_width w))
        = column_width w ∧
      utf8_length (pad_left_utf8 (fit_cell t (column_width w)) (column_width w))
        = column_width w ∧
      pad_right_utf8 (fit_cell t (column_width w)) (column_width w) =
        fit_cell t (column_width w) ++
          List.replicate (column_width w - utf8_length (fit_cell t (column_width w))) 0x20 ∧
      pad_left_utf8 (fit_cell t (column_width w)) (column_width w) =
        List.replicate (column_width w - utf8_length (fit_cell t (column_width w))) 0x20 ++
          fit_cell t (column_width w)) ∧
    print_table_row [bytes_of "Иванов", bytes_of "Ива"] [4, 5] [true, false]
      = bytes_of "| И... | Ива   |" ++ [0x0A] ∧
    print_table_row [bytes_of "Иванов"] [0, 2] []
      = bytes_of "| И |    |" ++ [0x0A] := by
  refine ⟨print_table_row_eq cols widths align_right, ?_, by decide, by decide⟩
  intro t w
  have hle := utf8_length_fit_cell_le t (column_width w)
  refine ⟨?_, ?_, ?_, ?_, ?_, pad_right_fit_cell t _, pad_left_fit_cell t _⟩
  · unfold column_width
    split_ifs with h
    · rw [max_eq_left (by omega)]; rfl
    · rw [max_eq_right (by omega)]; omega
  · rw [print_table_row_eq]
    have h1 : List.range ([w] : List Int).length = [0] := rfl
    rw [h1]
    simp
  · rw [print_table_row_eq]
    have h1 : List.range ([w] : List Int).length = [0] := rfl
    rw [h1]
    simp
  · rw [pad_right_fit_cell, utf8_length_append, utf8_length_replicate_space]; omega
  · rw [pad_left_fit_cell, utf8_length_append, utf8_length_replicate_space]; omega

/-- A result within the range of `int` is stored as it is. -/
theorem wrap_int32_of_range (x : Int) (h1 : -2147483648 ≤ x) (h2 : x ≤ 2147483647) :
    wrap_int32 x = x := by
  unfold wrap_int32
  omega

/-- The stored value always lies in the range of `int`. -/
theorem wrap_int32_range (x : Int) :
    -2147483648 ≤ wrap_int32 x ∧ wrap_int32 x ≤ 2147483647 := by
  unfold wrap_int32
  omega

theorem next_attempt_int32_foldl_filter (s j : Int) (gs : List Grade) (a : Int) :
    gs.foldl (next_attempt_step_int32 s j) a =
      (gs.filter (fun g => g.student_id == s && g.subject_id == j)).foldl
        (fun acc g => max acc (wrap_int32 (g.attempt + 1))) a := by
  induction gs generalizing a with
  | nil => rfl
  | cons g gs ih =>
    by_cases h : g.student_id = s ∧ g.subject_id = j
    · have hb : (g.student_id == s && g.subject_id == j) = true := by simp [h.1, h.2]
      simp only [List.foldl_cons, List.filter_cons, hb, if_true, ih]
      simp [next_attempt_step_int32, h]
    · have hb : (g.student_id == s && g.subject_id == j) = false := by
        simp only [Bool.and_eq_false_imp, beq_iff_eq, beq_eq_false_iff_ne]
        intro h1 h2; exact h ⟨h1, h2⟩
      simp only [List.foldl_cons, List.filter_cons, hb, ih]
      simp [next_attempt_step_int32, h]

theorem next_attempt_int32_eq_pair (data : DataStore) (s j : Int) :
    next_attempt_int32 data s j =
      (pair_grades data s j).foldl (fun acc g => max acc (wrap_int32 (g.attempt + 1))) 1 := by
  unfold next_attempt_int32 pair_grades
  exact next_attempt_int32_foldl_filter s j data.grades 1

theorem foldl_max_wrap_eq (l : List Grade) (a : Int)
    (h : ∀ g ∈ l, -2147483648 ≤ g.attempt + 1 ∧ g.attempt < 2147483647) :
    l.foldl (fun acc g => max acc (wrap_int32 (g.attempt + 1))) a =
      l.foldl (fun acc g => max acc (g.attempt + 1)) a := by
  induction l generalizing a with
  | nil => rfl
  | cons x xs ih =>
    have hx := h x (List.mem_cons_self _ _)
    rw [List.foldl_cons, List.foldl_cons, wrap_int32_of_range _ hx.1 (by omega)]
    exact ih _ (fun g hg => h g (List.mem_cons_of_mem _ hg))

/-- While every attempt number of the pair is below the largest `int`, the `int`
arithmetic of `next_attempt` is exact. -/
theorem next_attempt_int32_exact (data : DataStore) (s j : Int)
    (h : ∀ g ∈ pair_grades data s j, -2147483648 ≤ g.attempt + 1 ∧ g.attempt < 2147483647) :
    next_attempt_int32 data s j = next_attempt data s j := by
  rw [next_attempt_int32_eq_pair, next_attempt_eq_pair]
  exact foldl_max_wrap_eq _ 1 h

/-- Counterexample to C3: the pair (1, 1) of `max_attempt_store` has one grade, of
attempt 2147483647 (at least 1); the sum `grade.attempt + 1` does not fit an `int`, and
`next_attempt` returns 1, not 1 plus the greatest attempt of the pair. -/
theorem C3_counterexample :
    (∀ g ∈ max_attempt_store.grades, 1 ≤ g.attempt) ∧
    (pair_grades max_attempt_store 1 1).map Grade.attempt = [2147483647] ∧
    next_attempt_int32 max_attempt_store 1 1 = 1 ∧
    next_attempt_int32 max_attempt_store 1 1 ≠ 1 + 2147483647 := by
  decide

/-- Claim C3, amended. In a store whose grades all have an attempt number of at least 1
and below 2147483647, the largest value of `int`, `next_attempt` returns 1 when no grade
has the pair, and otherwise 1 plus the greatest attempt among the grades of the pair
(so gaps are never filled); the result is the same in every store that has the same
grades for the pair, whatever its other grades.  Within these bounds the `int`
arithmetic is exact. -/
theorem C3_next_attempt (data : DataStore) (s j : Int)
    (hattempt : ∀ g ∈ data.grades, 1 ≤ g.attempt)
    (hmax : ∀ g ∈ data.grades, g.attempt < 2147483647) :
    (pair_grades data s j = [] → next_attempt_int32 data s j = 1) ∧
    (pair_grades data s j ≠ [] →
      ∃ g ∈ pair_grades data s j,
        (∀ h ∈ pair_grades data s j, h.attempt ≤ g.attempt) ∧
        next_attempt_int32 data s j = 1 + g.attempt) ∧
    (∀ other : DataStore, pair_grades other s j = pair_grades data s j →
      next_attempt_int32 other s j = next_attempt_int32 data s j) ∧
    next_attempt_int32 data s j = next_attempt data s j := by
  have hexact : next_attempt_int32 data s j = next_attempt data s j := by
    apply next_attempt_int32_exact
    intro g hg
    have hm := List.mem_of_mem_filter hg
    have := hattempt g hm
    exact ⟨by omega, hmax g hm⟩
  refine ⟨?_, ?_, ?_, hexact⟩
  · intro h
    rw [next_attempt_int32_eq_pair, h]; rfl
  · intro hne
    rw [hexact, next_attempt_eq_pair]
    have hge := foldl_max_attempt_ge (pair_grades data s j) 1
    rcases foldl_max_attempt_mem (pair_grades data s j) 1 with h | ⟨g, hg, h⟩
    · obtain ⟨g, hg⟩ := List.exists_mem_of_ne_nil _ hne
      have h1 : 1 ≤ g.attempt := hattempt g (List.mem_of_mem_filter hg)
      have h2 := hge.2 g hg
      rw [h] at h2
      omega
    · refine ⟨g, hg, ?_, ?_⟩
      · intro h' hh'
        have := hge.2 h' hh'
        rw [h] at this
        omega
      · rw [h]; ring
  · intro other h
    rw [next_attempt_int32_eq_pair, next_attempt_int32_eq_pair, h]

/-- Witness of C3: the pair (1, 1) has attempts 1 and 3, another pair has attempt 7;
the next attempt is 4, and 1 for a pair without grades. -/
theorem C3_next_attempt_witness :
    (∀ g ∈ gap_store.grades, 1 ≤ g.attempt) ∧
    (∀ g ∈ gap_store.grades, g.attempt < 2147483647) ∧
    next_attempt_int32 gap_store 1 1 = 4 ∧
    next_attempt_int32 gap_store 2 2 = 1 := by
  have hall : ∀ g ∈ gap_store.grades, 1 ≤ g.attempt := by decide
  have hmax : ∀ g ∈ gap_store.grades, g.attempt < 2147483647 := by decide
  have h := C3_next_attempt gap_store 1 1 hall hmax
  have h2 := C3_next_attempt gap_store 2 2 hall hmax
  refine ⟨hall, hmax, ?_, h2.1 (by decide)⟩
  obtain ⟨g, hg, hmx, heq⟩ := h.2.1 (by decide)
  rw [heq]
  have hg3 : g.attempt ≤ 3 := by
    revert g
    decide
  have := hmx ⟨3, 1, 1, 4, 3⟩ (by decide)
  simp at this
  omega

/-- While the counters are positive and below the largest `int`, an operation with
`int` arithmetic leaves the same ids and counters, and assigns the same id, as the
operation with exact arithmetic. -/
theorem exec_int32_ids (d : DataStore) (op : Op)
    (hc : ∀ k, 0 < counter_of k d ∧ counter_of k d < 2147483647) (k : Kind) :
    ids_of k (exec_int32 d op).1 = ids_of k (exec d op).1 ∧
    counter_of k (exec_int32 d op).1 = counter_of k (exec d op).1 ∧
    assigned_id op (exec_int32 d op).2 = assigned_id op (exec d op).2 := by
  have h1 := hc Kind.student
  have h2 := hc Kind.group
  have h3 := hc Kind.subject
  have h4 := hc Kind.grade
  simp only [counter_of] at h1 h2 h3 h4
  cases op with
  | create_student name group_id =>
    have hw := wrap_int32_of_range (d.next_student_id + 1) (by omega) (by omega)
    cases k <;>
      simp [exec, exec_int32, create_student_record, create_student_record_int32, ids_of,
        counter_of, hw]
  | create_group name =>
    have hw := wrap_int32_of_range (d.next_group_id + 1) (by omega) (by omega)
    cases k <;>
      simp [exec, exec_int32, create_group_record, create_group_record_int32, ids_of,
        counter_of, hw]
  | add_subject name =>
    have hw := wrap_int32_of_range (d.next_subject_id + 1) (by omega) (by omega)
    cases k <;>
      simp [exec, exec_int32, add_subject, add_subject_int32, ids_of, counter_of, hw]
  | add_grade student_id subject_id value =>
    have hw := wrap_int32_of_range (d.next_grade_id + 1) (by omega) (by omega)
    simp only [exec, exec_int32, add_grade, add_grade_int32]
    split_ifs
    · exact ⟨rfl, rfl, rfl⟩
    · exact ⟨rfl, rfl, rfl⟩
    · exact ⟨rfl, rfl, rfl⟩
    · exact ⟨rfl, rfl, rfl⟩
    · cases k <;> simp [ids_of, counter_of, assigned_id, hw]
  | edit_student id new_name new_group => exact ⟨rfl, rfl, rfl⟩
  | edit_group id new_name => exact ⟨rfl, rfl, rfl⟩
  | edit_subject id new_name => exact ⟨rfl, rfl, rfl⟩
  | edit_grade id new_value => exact ⟨rfl, rfl, rfl⟩
  | delete_student id => exact ⟨rfl, rfl, rfl⟩
  | delete_group id => exact ⟨rfl, rfl, rfl⟩
  | delete_subject id => exact ⟨rfl, rfl, rfl⟩
  | delete_grade id => exact ⟨rfl, rfl, rfl⟩

theorem exec_int32_id_step (d : DataStore) (op : Op)
    (hc : ∀ k, 0 < counter_of k d ∧ counter_of k d < 2147483647) (k : Kind) :
    id_step k d (exec_int32 d op).1 (assigned_id op (exec_int32 d op).2) := by
  obtain ⟨e1, e2, e3⟩ := exec_int32_ids d op hc k
  have h := exec_id_step d op k
  unfold id_step at h ⊢
  rw [e1, e2, e3]
  exact h

/-- One operation with `int` arithmetic, run while every counter is below the largest
`int`, keeps the ids positive and below the counters, keeps the counters positive, and
moves a counter up by at most one. -/
theorem exec_int32_bounds (d : DataStore) (op : Op)
    (hids : ids_below_counters d) (hpos : counters_positive d)
    (hroom : ∀ k, counter_of k d < 2147483647) :
    ids_below_counters (exec_int32 d op).1 ∧ counters_positive (exec_int32 d op).1 ∧
    ∀ k, counter_of k d ≤ counter_of k (exec_int32 d op).1 ∧
      counter_of k (exec_int32 d op).1 ≤ counter_of k d + 1 := by
  have hc : ∀ k, 0 < counter_of k d ∧ counter_of k d < 2147483647 :=
    fun k => ⟨hpos k, hroom k⟩
  refine ⟨?_, ?_, ?_⟩
  · intro k x hx
    rcases exec_int32_id_step d op hc k with ⟨hsub, hcn, -⟩ | ⟨hids1, hcn, -⟩
    · rw [hcn]; exact hids k x (hsub.subset hx)
    · rw [hcn]
      rw [hids1, List.mem_append, List.mem_singleton] at hx
      rcases hx with hx | rfl
      · have := hids k x hx
        exact ⟨this.1, by omega⟩
      · exact ⟨hpos k, by omega⟩
  · intro k
    rcases exec_int32_id_step d op hc k with ⟨-, hcn, -⟩ | ⟨-, hcn, -⟩
    · rw [hcn]; exact hpos k
    · rw [hcn]; have := hpos k; omega
  · intro k
    rcases exec_int32_id_step d op hc k with ⟨-, hcn, -⟩ | ⟨-, hcn, -⟩
    · rw [hcn]; omega
    · rw [hcn]; omega

theorem run_int32_bounds (ops : List Op) :
    ∀ d : DataStore, ids_below_counters d → counters_positive d →
      (∀ k, counter_of k d + ops.length ≤ 2147483647) →
      ids_below_counters (run_int32 d ops).1 ∧ counters_positive (run_int32 d ops).1 ∧
      ∀ k, counter_of k d ≤ counter_of k (run_int32 d ops).1 ∧
        counter_of k (run_int32 d ops).1 ≤ counter_of k d + ops.length := by
  induction ops with
  | nil =>
    intro d h1 h2 _
    exact ⟨h1, h2, fun k => ⟨le_refl _, by simp [run_int32]⟩⟩
  | cons op ops ih =>
    intro d h1 h2 h3
    have hroom : ∀ k, counter_of k d < 2147483647 := by
      intro k
      have := h3 k
      simp only [List.length_cons, Nat.cast_add, Nat.cast_one] at this
      omega
    obtain ⟨e1, e2, e3⟩ := exec_int32_bounds d op h1 h2 hroom
    have h3n : ∀ k, counter_of k (exec_int32 d op).1 + ops.length ≤ 2147483647 := by
      intro k
      have := h3 k
      have := (e3 k).2
      simp only [List.length_cons, Nat.cast_add, Nat.cast_one] at *
      omega
    obtain ⟨r1, r2, r3⟩ := ih (exec_int32 d op).1 e1 e2 h3n
    refine ⟨r1, r2, ?_⟩
    intro k
    have a1 := e3 k
    have a2 := r3 k
    have hrun : (run_int32 d (op :: ops)).1 = (run_int32 (exec_int32 d op).1 ops).1 := rfl
    rw [hrun]
    simp only [List.length_cons, Nat.cast_add, Nat.cast_one]
    omega

theorem run_int32_append (d : DataStore) (pre post : List Op) :
    (run_int32 d (pre ++ post)).1 = (run_int32 (run_int32 d pre).1 post).1 := by
  induction pre generalizing d with
  | nil => rfl
  | cons op pre ih =>
    show (run_int32 (exec_int32 d op).1 (pre ++ post)).1
      = (run_int32 (run_int32 (exec_int32 d op).1 pre).1 post).1
    exact ih _

theorem run_int32_nodup (ops : List Op) (k : Kind) :
    ∀ d : DataStore, ids_below_counters d → counters_positive d →
      (∀ k, counter_of k d + ops.length ≤ 2147483647) → (ids_of k d).Nodup →
      (ids_of k (run_int32 d ops).1).Nodup := by
  induction ops with
  | nil => intro d _ _ _ h; exact h
  | cons op ops ih =>
    intro d h1 h2 h3 h4
    have hroom : ∀ k, counter_of k d < 2147483647 := by
      intro k
      have := h3 k
      simp only [List.length_cons, Nat.cast_add, Nat.cast_one] at this
      omega
    obtain ⟨e1, e2, e3⟩ := exec_int32_bounds d op h1 h2 hroom
    have h3n : ∀ k, counter_of k (exec_int32 d op).1 + ops.length ≤ 2147483647 := by
      intro k
      have := h3 k
      have := (e3 k).2
      simp only [List.length_cons, Nat.cast_add, Nat.cast_one] at *
      omega
    have hnd : (ids_of k (exec_int32 d op).1).Nodup := by
      rcases exec_int32_id_step d op (fun k => ⟨h2 k, hroom k⟩) k with
        ⟨hsub, -, -⟩ | ⟨hids1, -, -⟩
      · exact h4.sublist hsub
      · rw [hids1]
        apply List.Nodup.append h4 (List.nodup_singleton _)
        intro x hx hx2
        rw [List.mem_singleton] at hx2
        have := (h1 k x hx).2
        omega
    exact ih (exec_int32 d op).1 e1 e2 h3n hnd

/-- The counters have room for `n` more operations in every shorter run. -/
theorem room_of_shorter_run (d : DataStore) (n : Nat) (pre : List Op)
    (hroom : ∀ k, counter_of k d + n ≤ 2147483647) (hlen : pre.length ≤ n) :
    ∀ k, counter_of k d + pre.length ≤ 2147483647 := by
  intro k
  have := hroom k
  have : (pre.length : Int) ≤ n := by exact_mod_cast hlen
  omega

/-- Freshness of the ids assigned with `int` arithmetic while the counters have room. -/
theorem fresh_ids_int32_of_room (data : DataStore) (n : Nat)
    (hids : ids_below_counters data) (hpos : counters_positive data)
    (hroom : ∀ k, counter_of k data + n ≤ 2147483647) : fresh_ids_int32 data n := by
  intro pre op k x hlen hassigned
  have hpre := room_of_shorter_run data n pre hroom (le_of_lt hlen)
  obtain ⟨b1, b2, b3⟩ := run_int32_bounds pre data hids hpos hpre
  have hlt : ∀ k, counter_of k (run_int32 data pre).1 < 2147483647 := by
    intro k
    have := (b3 k).2
    have := hroom k
    have : (pre.length : Int) < n := by exact_mod_cast hlen
    omega
  have hx : x = counter_of k (run_int32 data pre).1 := by
    rcases exec_int32_id_step (run_int32 data pre).1 op (fun k => ⟨b2 k, hlt k⟩) k with
      ⟨-, -, hno⟩ | ⟨-, -, ha⟩
    · exact absurd hassigned (hno x)
    · rw [ha] at hassigned
      have := Option.some.inj hassigned
      exact (congrArg Prod.snd this).symm
  refine ⟨hx ▸ b2 k, ?_, ?_⟩
  · intro pre1 post1 hsplit y hy
    have hl1 : pre1.length ≤ n := by
      have : pre.length = pre1.length + post1.length := by rw [hsplit, List.length_append]
      omega
    have hl2 : pre1.length + post1.length ≤ n := by
      have : pre.length = pre1.length + post1.length := by rw [hsplit, List.length_append]
      omega
    obtain ⟨c1, c2, c3⟩ := run_int32_bounds pre1 data hids hpos
      (room_of_shorter_run data n pre1 hroom hl1)
    have hroom2 : ∀ k, counter_of k (run_int32 data pre1).1 + post1.length ≤ 2147483647 := by
      intro k
      have := (c3 k).2
      have := hroom k
      have : ((pre1.length : Int) + post1.length) ≤ n := by exact_mod_cast hl2
      omega
    obtain ⟨-, -, c4⟩ := run_int32_bounds post1 (run_int32 data pre1).1 c1 c2 hroom2
    have hle := (c4 k).1
    rw [← run_int32_append, ← hsplit] at hle
    have := (c1 k y hy).2
    omega
  · intro pre1 op1 post1 y hsplit hy
    have hlen2 : pre.length = pre1.length + (post1.length + 1) := by
      rw [hsplit, List.length_append, List.length_cons]
    have hl1 : pre1.length ≤ n := by omega
    obtain ⟨c1, c2, c3⟩ := run_int32_bounds pre1 data hids hpos
      (room_of_shorter_run data n pre1 hroom hl1)
    have hlt1 : ∀ k, counter_of k (run_int32 data pre1).1 < 2147483647 := by
      intro k
      have := (c3 k).2
      have := hroom k
      have : (pre1.length : Int) < n := by
        have : pre1.length < n := by omega
        exact_mod_cast this
      omega
    obtain ⟨e1, e2, e3⟩ := exec_int32_bounds (run_int32 data pre1).1 op1 c1 c2 hlt1
    have hroom3 : ∀ k, counter_of k (exec_int32 (run_int32 data pre1).1 op1).1
        + post1.length ≤ 2147483647 := by
      intro k
      have := (c3 k).2
      have := (e3 k).2
      have := hroom k
      have : ((pre1.length : Int) + (post1.length + 1)) ≤ n := by
        have : pre1.length + (post1.length + 1) ≤ n := by omega
        exact_mod_cast this
      omega
    obtain ⟨-, -, c4⟩ := run_int32_bounds post1 (exec_int32 (run_int32 data pre1).1 op1).1
      e1 e2 hroom3
    have hle := (c4 k).1
    have hrun : (run_int32 (exec_int32 (run_int32 data pre1).1 op1).1 post1).1
        = (run_int32 data pre).1 := by
      rw [hsplit, run_int32_append]
      rfl
    rw [hrun] at hle
    rcases exec_int32_id_step (run_int32 data pre1).1 op1 (fun k => ⟨c2 k, hlt1 k⟩) k with
      ⟨-, -, hno⟩ | ⟨-, hc, ha⟩
    · exact absurd hy (hno y)
    · rw [ha] at hy
      have hyv : counter_of k (run_int32 data pre1).1 = y :=
        congrArg Prod.snd (Option.some.inj hy)
      omega

/-- Counterexample to C8: `max_counter_store`, the store that `load_data` builds from
one student with the id 2147483646, has only positive ids below the counters; the first
create returns 2147483647, the increment of the counter does not fit an `int`, and the
second create returns -2147483648, which is neither positive nor greater than the ids
assigned before. -/
theorem C8_counterexample :
    ids_below_counters max_counter_store ∧ counters_positive max_counter_store ∧
    load_data [] [{ id := 2147483646, name := [0x53], group_id := 0 }] [] []
      = max_counter_store ∧
    (exec_int32 max_counter_store (Op.create_student [] 0)).2 = Report.created 2147483647 ∧
    (exec_int32 (run_int32 max_counter_store [Op.create_student [] 0]).1
      (Op.create_student [] 0)).2 = Report.created (-2147483648) ∧
    ¬ fresh_ids_int32 max_counter_store 2 := by
  refine ⟨?_, ?_, by decide, by decide, by decide, ?_⟩
  · intro k x hx
    cases k <;> simp [ids_of, max_counter_store, DataStore.empty] at hx
    subst hx
    decide
  · intro k
    cases k <;> decide
  · intro h
    have := (h [Op.create_student [] 0] (Op.create_student [] 0) Kind.student (-2147483648)
      (by decide) (by decide)).1
    exact absurd this (by decide)

/-! ### Binary exponent and rounding to `double` -/

theorem binary_digits_core_zero (fuel acc : Nat) : binary_digits_core fuel 0 acc = acc := by
  cases fuel with
  | zero => rfl
  | succ f => simp [binary_digits_core]

/-- The loop of `binary_digits` counts the binary digits of a positive `n`: with
`r - acc` digits, `2 ^ (r - acc - 1) ≤ n < 2 ^ (r - acc)`. -/
theorem binary_digits_core_spec (fuel : Nat) : ∀ (n acc : Nat), n ≤ fuel → 0 < n →
    acc < binary_digits_core fuel n acc ∧
    2 ^ (binary_digits_core fuel n acc - acc - 1) ≤ n ∧
    n < 2 ^ (binary_digits_core fuel n acc - acc) := by
  induction fuel with
  | zero => intro n acc h1 h2; omega
  | succ fuel ih =>
    intro n acc hle hpos
    have hn : ¬ n = 0 := by omega
    simp only [binary_digits_core, if_neg hn]
    by_cases h2 : n / 2 = 0
    · rw [h2, binary_digits_core_zero]
      have h1 : n = 1 := by omega
      subst h1
      have e : acc + 1 - acc = 1 := by omega
      rw [e]
      exact ⟨by omega, by norm_num, by norm_num⟩
    · have hpos2 : 0 < n / 2 := Nat.pos_of_ne_zero h2
      have hle2 : n / 2 ≤ fuel := by omega
      obtain ⟨a1, a2, a3⟩ := ih (n / 2) (acc + 1) hle2 hpos2
      set r := binary_digits_core fuel (n / 2) (acc + 1) with hr
      have e1 : r - acc - 1 = (r - (acc + 1) - 1) + 1 := by omega
      have e2 : r - acc = (r - (acc + 1)) + 1 := by omega
      refine ⟨by omega, ?_, ?_⟩
      · rw [e1, pow_succ]
        have := Nat.div_mul_le_self n 2
        calc 2 ^ (r - (acc + 1) - 1) * 2 ≤ n / 2 * 2 := Nat.mul_le_mul_right 2 a2
          _ ≤ n := this
      · rw [e2, pow_succ]
        have : n < (n / 2 + 1) * 2 := by omega
        calc n < (n / 2 + 1) * 2 := this
          _ ≤ 2 ^ (r - (acc + 1)) * 2 := Nat.mul_le_mul_right 2 a3

/-- A positive `n` has `binary_digits n ≥ 1` binary digits. -/
theorem binary_digits_spec (n : Nat) (hn : 0 < n) :
    0 < binary_digits n ∧ 2 ^ (binary_digits n - 1) ≤ n ∧ n < 2 ^ binary_digits n := by
  have h := binary_digits_core_spec n n 0 (le_refl n) hn
  simpa [binary_digits] using h

theorem pow2_eq_zpow (e : Int) : pow2 e = (2 : ℚ) ^ e := by
  unfold pow2
  split_ifs with h
  · have he : e = ((e.toNat : Nat) : Int) := (Int.toNat_of_nonneg h).symm
    conv_rhs => rw [he]
    rw [zpow_natCast]
    push_cast
    rfl
  · have hneg : 0 ≤ -e := by omega
    have he : e = -(((-e).toNat : Nat) : Int) := by
      rw [Int.toNat_of_nonneg hneg]; ring
    conv_rhs => rw [he]
    rw [zpow_neg, zpow_natCast]
    push_cast
    rw [one_div]

theorem pow2_pos (e : Int) : 0 < pow2 e := by
  rw [pow2_eq_zpow]
  exact zpow_pos (by norm_num) e

/-- The binary exponent `e` of a non-zero `q` satisfies `2 ^ e ≤ |q| < 2 ^ (e + 1)`. -/
theorem binary_exponent_spec (q : ℚ) (hq : q ≠ 0) :
    pow2 (binary_exponent q) ≤ |q| ∧ |q| < pow2 (binary_exponent q + 1) := by
  have hnum : 0 < q.num.natAbs := Int.natAbs_pos.2 (Rat.num_ne_zero.2 hq)
  have hden : 0 < q.den := q.den_pos
  obtain ⟨n1, n2, n3⟩ := binary_digits_spec q.num.natAbs hnum
  obtain ⟨d1, d2, d3⟩ := binary_digits_spec q.den hden
  have habs : |q| = (q.num.natAbs : ℚ) / (q.den : ℚ) := by
    have h1 : |q| = |(q.num : ℚ)| / |(q.den : ℚ)| := by
      conv_lhs => rw [← Rat.num_div_den q]
      exact abs_div _ _
    rw [h1, abs_of_pos (by exact_mod_cast hden : (0 : ℚ) < (q.den : ℚ))]
    congr 1
    rw [← Int.cast_abs, Int.abs_eq_natAbs]
    rfl
  have hdq : (0 : ℚ) < (q.den : ℚ) := by exact_mod_cast hden
  set bn := binary_digits q.num.natAbs with hbn
  set bd := binary_digits q.den with hbd
  have n2q : (2 : ℚ) ^ (bn - 1) ≤ (q.num.natAbs : ℚ) := by exact_mod_cast n2
  have n3q : (q.num.natAbs : ℚ) < (2 : ℚ) ^ bn := by exact_mod_cast n3
  have d2q : (2 : ℚ) ^ (bd - 1) ≤ (q.den : ℚ) := by exact_mod_cast d2
  have d3q : (q.den : ℚ) < (2 : ℚ) ^ bd := by exact_mod_cast d3
  -- bounds of the quotient by powers of two
  have hupper : |q| < (2 : ℚ) ^ ((bn : Int) - (bd : Int) + 1) := by
    rw [habs, div_lt_iff₀ hdq]
    have e : ((bn : Int) - (bd : Int) + 1) = (bn : Int) - ((bd - 1 : Nat) : Int) := by omega
    rw [e, zpow_sub₀ (by norm_num : (2 : ℚ) ≠ 0), zpow_natCast, zpow_natCast]
    have hp : (0 : ℚ) < 2 ^ (bd - 1) := by positivity
    calc (q.num.natAbs : ℚ) < 2 ^ bn := n3q
      _ = 2 ^ bn / 2 ^ (bd - 1) * 2 ^ (bd - 1) := by field_simp
      _ ≤ 2 ^ bn / 2 ^ (bd - 1) * (q.den : ℚ) := by
        apply mul_le_mul_of_nonneg_left d2q
        positivity
  have hlower : (2 : ℚ) ^ ((bn : Int) - (bd : Int) - 1) ≤ |q| := by
    rw [habs, le_div_iff₀ hdq]
    have e : ((bn : Int) - (bd : Int) - 1) = ((bn - 1 : Nat) : Int) - (bd : Int) := by omega
    rw [e, zpow_sub₀ (by norm_num : (2 : ℚ) ≠ 0), zpow_natCast, zpow_natCast]
    have hp : (0 : ℚ) < 2 ^ bd := by positivity
    calc 2 ^ (bn - 1) / 2 ^ bd * (q.den : ℚ) ≤ 2 ^ (bn - 1) / 2 ^ bd * 2 ^ bd := by
          apply mul_le_mul_of_nonneg_left (le_of_lt d3q)
          positivity
      _ = 2 ^ (bn - 1) := by field_simp
      _ ≤ (q.num.natAbs : ℚ) := n2q
  unfold binary_exponent
  simp only [← hbn, ← hbd]
  split_ifs with h
  · refine ⟨h, ?_⟩
    rw [pow2_eq_zpow]
    exact hupper
  · refine ⟨?_, ?_⟩
    · rw [pow2_eq_zpow]; exact hlower
    · have e : (bn : Int) - (bd : Int) - 1 + 1 = (bn : Int) - (bd : Int) := by ring
      rw [e]
      exact not_le.1 h

/-- Rounding to the nearest integer moves a number by at most one half. -/
theorem round_half_even_error (x : ℚ) : |(round_half_even x : ℚ) - x| ≤ 1 / 2 := by
  have h1 := Int.floor_le x
  have h2 := Int.lt_floor_add_one x
  unfold round_half_even
  simp only
  split_ifs with a b c
  · rw [abs_le]; constructor <;> linarith
  · push_cast; rw [abs_le]; constructor <;> linarith
  · rw [abs_le]; constructor <;> linarith
  · push_cast; rw [abs_le]; constructor <;> linarith

theorem round_half_even_nonneg (x : ℚ) (hx : 0 ≤ x) : 0 ≤ round_half_even x := by
  have h1 : 0 ≤ Int.floor x := Int.floor_nonneg.2 hx
  unfold round_half_even
  simp only
  split_ifs <;> omega

/-- Rounding to `double` keeps a non-negative result non-negative. -/
theorem round_double_nonneg (q : ℚ) (hq : 0 ≤ q) : 0 ≤ round_double q := by
  unfold round_double
  split_ifs with h
  · exact le_refl 0
  · have hp := pow2_pos (max (binary_exponent q) (-1022) - 52)
    apply mul_nonneg _ (le_of_lt hp)
    have := round_half_even_nonneg (q / pow2 (max (binary_exponent q) (-1022) - 52))
      (div_nonneg hq (le_of_lt hp))
    exact_mod_cast this

/-- Rounding to `double` moves a result by at most half a unit in the last place: by
at most `(|q| + 1) / 2 ^ 53`. -/
theorem round_double_error (q : ℚ) : |round_double q - q| ≤ (|q| + 1) / 2 ^ 53 := by
  unfold round_double
  split_ifs with h
  · rw [h]; norm_num
  · set e := binary_exponent q with he
    have hp := pow2_pos (max e (-1022) - 52)
    set ulp := pow2 (max e (-1022) - 52) with hulp
    have herr := round_half_even_error (q / ulp)
    have h1 : (round_half_even (q / ulp) : ℚ) * ulp - q
        = ((round_half_even (q / ulp) : ℚ) - q / ulp) * ulp := by
      field_simp
    rw [h1, abs_mul, abs_of_pos hp]
    have h2 : |(round_half_even (q / ulp) : ℚ) - q / ulp| * ulp ≤ 1 / 2 * ulp :=
      mul_le_mul_of_nonneg_right herr (le_of_lt hp)
    refine le_trans h2 ?_
    have hlow := (binary_exponent_spec q h).1
    rw [← he] at hlow
    rw [hulp, pow2_eq_zpow]
    rw [pow2_eq_zpow] at hlow
    have h53 : (0 : ℚ) < 2 ^ 53 := by positivity
    rw [le_div_iff₀ h53]
    by_cases hc : -1022 ≤ e
    · rw [max_eq_left hc]
      have e2 : (1 / 2 : ℚ) * 2 ^ (e - 52) * 2 ^ 53 = 2 ^ e := by
        have e3 : (2 : ℚ) ^ (e - 52) = 2 ^ e / 2 ^ (52 : Nat) := by
          rw [zpow_sub₀ (by norm_num : (2 : ℚ) ≠ 0)]
          congr 1
          exact zpow_natCast (2 : ℚ) 52
        rw [e3]
        have h52 : (2 : ℚ) ^ 53 = 2 * 2 ^ 52 := by norm_num
        rw [h52]
        field_simp
      rw [e2]
      have : (0 : ℚ) ≤ 1 := by norm_num
      linarith
    · rw [max_eq_right (by omega)]
      have e2 : (1 / 2 : ℚ) * 2 ^ ((-1022 : Int) - 52) * 2 ^ 53 ≤ 1 := by
        have : ((-1022 : Int) - 52) = -(1074 : Nat) := by norm_num
        rw [this, zpow_neg, zpow_natCast]
        have h1074 : (2 : ℚ) ^ 1074 = 2 ^ 54 * 2 ^ 1020 := by rw [← pow_add]
        have hbig : (1 : ℚ) ≤ 2 ^ 1020 := one_le_pow₀ (by norm_num)
        rw [h1074]
        have h54 : (0 : ℚ) < 2 ^ 54 := by positivity
        have hpos : (0 : ℚ) < 2 ^ 54 * 2 ^ 1020 := by positivity
        rw [mul_assoc, mul_comm (1 / 2 : ℚ), mul_assoc]
        rw [inv_mul_le_iff₀ hpos]
        calc (2 : ℚ) ^ 53 * (1 / 2) ≤ 2 ^ 54 * 1 := by norm_num
          _ ≤ 2 ^ 54 * 2 ^ 1020 := by
            apply mul_le_mul_of_nonneg_left hbig (le_of_lt h54)
          _ = 2 ^ 54 * 2 ^ 1020 * 1 := by ring
      have := abs_nonneg q
      linarith

/-! ### `int` sums of the aggregation engine -/

theorem map_modify_congr {β : Type} (dflt : β) (f f' : β → β) (k : Int) (m : StdMap β)
    (h0 : f dflt = f' dflt) (h : ∀ e ∈ m, f e.2 = f' e.2) :
    map_modify dflt f k m = map_modify dflt f' k m := by
  induction m with
  | nil => simp [map_modify, h0]
  | cons e m ih =>
    obtain ⟨k', v⟩ := e
    have hv : f v = f' v := h (k', v) (List.mem_cons_self _ _)
    have ih' := ih (fun e he => h e (List.mem_cons_of_mem _ he))
    simp only [map_modify, h0, hv, ih']

theorem mem_map_modify {β : Type} (dflt : β) (f : β → β) (k : Int) (m : StdMap β)
    (e : Int × β) (h : e ∈ map_modify dflt f k m) :
    e ∈ m ∨ e.2 = f dflt ∨ ∃ e0 ∈ m, e.2 = f e0.2 := by
  induction m with
  | nil =>
    simp only [map_modify, List.mem_singleton] at h
    right; left; rw [h]
  | cons x m ih =>
    obtain ⟨k', v⟩ := x
    simp only [map_modify] at h
    split_ifs at h with h1 h2
    · rcases List.mem_cons.1 h with rfl | h
      · right; left; rfl
      · left; exact h
    · rcases List.mem_cons.1 h with rfl | h
      · right; right; exact ⟨(k', v), List.mem_cons_self _ _, rfl⟩
      · left; exact List.mem_cons_of_mem _ h
    · rcases List.mem_cons.1 h with rfl | h
      · left; exact List.mem_cons_self _ _
      · rcases ih h with h | h | ⟨e0, he0, h⟩
        · left; exact List.mem_cons_of_mem _ h
        · right; left; exact h
        · right; right; exact ⟨e0, List.mem_cons_of_mem _ he0, h⟩

/-- Within the range of `int` the sums of one step are exact. -/
theorem aggregate_add_int32_eq (g : Grade) (agg : SubjectAggregate)
    (h1 : 0 ≤ agg.sum + g.value ∧ agg.sum + g.value ≤ 2147483647)
    (h2 : 0 ≤ agg.count ∧ agg.count < 2147483647) :
    aggregate_add_int32 g agg = aggregate_add g agg := by
  unfold aggregate_add_int32 aggregate_add
  rw [wrap_int32_of_range _ (by omega) h1.2, wrap_int32_of_range _ (by omega) (by omega)]

theorem aggregates_int32_foldl (s : Int) (l : List Grade) :
    ∀ (m : StdMap SubjectAggregate) (B C : Int),
      (∀ e ∈ m, 0 ≤ e.2.sum ∧ e.2.sum ≤ B ∧ 0 ≤ e.2.count ∧ e.2.count ≤ C) →
      0 ≤ B → 0 ≤ C → (∀ g ∈ l, 0 ≤ g.value) →
      B + (l.map Grade.value).sum ≤ 2147483647 → C + l.length ≤ 2147483647 →
      l.foldl (subject_aggregates_step_int32 s) m = l.foldl (subject_aggregates_step s) m := by
  induction l with
  | nil => intro m B C _ _ _ _ _ _; rfl
  | cons g l ih =>
    intro m B C hm hB hC hval hsum hlen
    have hg : 0 ≤ g.value := hval g (List.mem_cons_self _ _)
    have hval' : ∀ g' ∈ l, 0 ≤ g'.value := fun g' h => hval g' (List.mem_cons_of_mem _ h)
    have hrest : 0 ≤ (l.map Grade.value).sum := by
      apply List.sum_nonneg
      intro v hv
      obtain ⟨g', hg', rfl⟩ := List.mem_map.1 hv
      exact hval' g' hg'
    simp only [List.map_cons, List.sum_cons, List.length_cons, Nat.cast_add,
      Nat.cast_one] at hsum hlen
    simp only [List.foldl_cons]
    by_cases hs : g.student_id = s
    · have hstep : subject_aggregates_step_int32 s m g = subject_aggregates_step s m g := by
        simp only [subject_aggregates_step_int32, subject_aggregates_step, hs, ne_eq,
          not_true_eq_false, if_false]
        apply map_modify_congr
        · apply aggregate_add_int32_eq
          · simp only [SubjectAggregate.zero]; omega
          · simp only [SubjectAggregate.zero]; omega
        · intro e he
          obtain ⟨a1, a2, a3, a4⟩ := hm e he
          apply aggregate_add_int32_eq
          · omega
          · have : (0 : Int) ≤ l.length := Int.natCast_nonneg _
            omega
      rw [hstep]
      apply ih _ (B + g.value) (C + 1)
      · intro e he
        simp only [subject_aggregates_step, hs, ne_eq, not_true_eq_false, if_false] at he
        rcases mem_map_modify _ _ _ _ _ he with h | h | ⟨e0, he0, h⟩
        · obtain ⟨a1, a2, a3, a4⟩ := hm e h
          exact ⟨a1, by omega, a3, by omega⟩
        · rw [h]
          obtain ⟨b1, b2⟩ := aggregate_add_sum g SubjectAggregate.zero
          rw [b1, b2]
          simp only [SubjectAggregate.zero]
          exact ⟨by omega, by omega, by omega, by omega⟩
        · rw [h]
          obtain ⟨b1, b2⟩ := aggregate_add_sum g e0.2
          obtain ⟨a1, a2, a3, a4⟩ := hm e0 he0
          rw [b1, b2]
          exact ⟨by omega, by omega, by omega, by omega⟩
      · omega
      · omega
      · exact hval'
      · omega
      · omega
    · have h1 : subject_aggregates_step_int32 s m g = m := by
        simp [subject_aggregates_step_int32, hs]
      have h2 : subject_aggregates_step s m g = m := by
        simp [subject_aggregates_step, hs]
      rw [h1, h2]
      exact ih m B C hm hB hC hval' (by omega) (by omega)

/-- In a store whose grade values are not negative and add up to at most 2147483647,
and which has at most 2147483647 grades, the `int` sums of
`subject_aggregates_for_student` are exact. -/
theorem aggregates_int32_exact (data : DataStore) (s : Int)
    (hval : ∀ g ∈ data.grades, 0 ≤ g.value)
    (hsum : (data.grades.map Grade.value).sum ≤ 2147483647)
    (hlen : data.grades.length ≤ 2147483647) :
    subject_aggregates_for_student_int32 data s = subject_aggregates_for_student data s := by
  unfold subject_aggregates_for_student_int32 subject_aggregates_for_student
  apply aggregates_int32_foldl s data.grades [] 0 0
  · intro e he; simp at he
  · exact le_refl 0
  · exact le_refl 0
  · exact hval
  · omega
  · have : (data.grades.length : Int) ≤ 2147483647 := by exact_mod_cast hlen
    omega

theorem aggregates_int32_skip (s : Int) (l : List Grade) (m : StdMap SubjectAggregate)
    (h : ∀ g ∈ l, g.student_id ≠ s) :
    l.foldl (subject_aggregates_step_int32 s) m = m := by
  induction l generalizing m with
  | nil => rfl
  | cons g l ih =>
    have hg := h g (List.mem_cons_self _ _)
    have h1 : subject_aggregates_step_int32 s m g = m := by
      simp [subject_aggregates_step_int32, hg]
    rw [List.foldl_cons, h1]
    exact ih m (fun g' hg' => h g' (List.mem_cons_of_mem _ hg'))

/-- A student without grades gets the sentinel -1 in `double` arithmetic too. -/
theorem average_double_of_no_grades (data : DataStore) (s : Int)
    (h : ¬ ∃ g ∈ data.grades, g.student_id = s) :
    average_subjects_for_student_double data s = -1 := by
  unfold average_subjects_for_student_double subject_aggregates_for_student_int32
  rw [aggregates_int32_skip s data.grades [] (fun g hg hs => h ⟨g, hg, hs⟩)]
  rfl

/-- The second loop of `average_subjects_for_student` in `double` arithmetic, over
entries with positive counts and non-negative sums: the sum stays non-negative and the
counter counts the entries. -/
theorem average_fold_double (m : StdMap SubjectAggregate)
    (h : ∀ e ∈ m, 0 < e.2.count ∧ 0 ≤ e.2.sum) (acc : ℚ × Int)
    (h1 : 0 ≤ acc.1) (h2 : 0 ≤ acc.2) (h3 : acc.2 + m.length ≤ 2147483647) :
    0 ≤ (m.foldl average_subjects_step_double acc).1 ∧
    (m.foldl average_subjects_step_double acc).2 = acc.2 + m.length := by
  induction m generalizing acc with
  | nil => simp [h1]
  | cons e m ih =>
    have he := h e (List.mem_cons_self _ _)
    simp only [List.length_cons, Nat.cast_add, Nat.cast_one] at h3
    have hlen : (0 : Int) ≤ m.length := Int.natCast_nonneg _
    have hstep : average_subjects_step_double acc e =
        (round_double (acc.1 + round_double ((e.2.sum : ℚ) / (e.2.count : ℚ))), acc.2 + 1) := by
      simp only [average_subjects_step_double, gt_iff_lt, he.1, if_true]
      rw [wrap_int32_of_range _ (by omega) (by omega)]
    have hq : (0 : ℚ) ≤ round_double ((e.2.sum : ℚ) / (e.2.count : ℚ)) := by
      apply round_double_nonneg
      apply div_nonneg
      · exact_mod_cast he.2
      · exact_mod_cast le_of_lt he.1
    rw [List.foldl_cons, hstep]
    obtain ⟨r1, r2⟩ := ih (fun e' he' => h e' (List.mem_cons_of_mem _ he'))
      (round_double (acc.1 + round_double ((e.2.sum : ℚ) / (e.2.count : ℚ))), acc.2 + 1)
      (round_double_nonneg _ (add_nonneg h1 hq)) (by simp only; omega) (by simp only; omega)
    refine ⟨r1, ?_⟩
    rw [r2]
    simp only [List.length_cons, Nat.cast_add, Nat.cast_one]
    ring

/-- In a store whose grade values are not negative and add up to at most 2147483647,
and which has at most 2147483647 grades, the overall average of a student with a grade
is not negative in `double` arithmetic. -/
theorem average_double_nonneg (data : DataStore) (s : Int)
    (hval : ∀ g ∈ data.grades, 0 ≤ g.value)
    (hsum : (data.grades.map Grade.value).sum ≤ 2147483647)
    (hlen : data.grades.length ≤ 2147483647)
    (hgrade : ∃ g ∈ data.grades, g.student_id = s) :
    0 ≤ average_subjects_for_student_double data s := by
  have hne := (average_of_graded data s hgrade).1
  have hentries : ∀ e ∈ subject_aggregates_for_student data s, 0 < e.2.count ∧ 0 ≤ e.2.sum := by
    rintro ⟨j, agg⟩ hmem
    refine ⟨(aggregates_entry_mean data s (j, agg) hmem).1, ?_⟩
    obtain ⟨-, rfl⟩ := (aggregates_mem_iff data s j agg).1 hmem
    have hs := (aggregate_fold_sum (pair_grades data s j) SubjectAggregate.zero).1
    rw [hs]
    simp only [SubjectAggregate.zero, zero_add]
    apply List.sum_nonneg
    intro v hv
    obtain ⟨g, hg, rfl⟩ := List.mem_map.1 hv
    exact hval g (List.mem_of_mem_filter hg)
  have hcount : (subject_aggregates_for_student data s).length ≤ data.grades.length := by
    have h1 := (aggregates_keys_perm data s).length_eq
    rw [List.length_map] at h1
    rw [h1]
    unfold graded_subjects student_grades
    calc ((data.grades.filter (fun g => g.student_id == s)).map Grade.subject_id).dedup.length
        ≤ ((data.grades.filter (fun g => g.student_id == s)).map Grade.subject_id).length :=
          (List.dedup_sublist _).length_le
      _ = (data.grades.filter (fun g => g.student_id == s)).length := List.length_map _ _
      _ ≤ data.grades.length := List.length_filter_le _ _
  have hroom : (0 : Int) + (subject_aggregates_for_student data s).length ≤ 2147483647 := by
    have : ((subject_aggregates_for_student data s).length : Int) ≤ 2147483647 := by
      exact_mod_cast le_trans hcount hlen
    omega
  obtain ⟨r1, r2⟩ := average_fold_double _ hentries (0, 0) (le_refl _) (le_refl _) hroom
  unfold average_subjects_for_student_double
  rw [aggregates_int32_exact data s hval hsum hlen]
  have hemp : (subject_aggregates_for_student data s).isEmpty = false := by
    cases h : subject_aggregates_for_student data s with
    | nil => exact absurd h hne
    | cons _ _ => rfl
  have hpos : 0 < (subject_aggregates_for_student data s).length := List.length_pos.2 hne
  simp only [hemp, Bool.false_eq_true, if_false]
  have hnz : ¬ (List.foldl average_subjects_step_double (0, 0)
      (subject_aggregates_for_student data s)).2 = 0 := by
    rw [r2]
    have : (0 : Int) < (subject_aggregates_for_student data s).length := by exact_mod_cast hpos
    omega
  rw [if_neg hnz]
  apply round_double_nonneg
  apply div_nonneg r1
  rw [r2]
  have h0 : (0 : Int) ≤ ((0 : ℚ), (0 : Int)).2 + (subject_aggregates_for_student data s).length := by
    have : (0 : Int) ≤ (subject_aggregates_for_student data s).length := Int.natCast_nonneg _
    simp only
    omega
  exact_mod_cast h0

/-- The loop body of `filter_students` appends the student when no test of the body
skips it. -/
theorem filter_students_step_double_eq (data : DataStore) (f : Int) (ql : CppString)
    (use_min : Bool) (m : ℚ) (acc : List StudentResult) (st : Student) :
    filter_students_step_double data f ql use_min m acc st =
      if (¬ (f = -1 ∧ st.group_id ≠ 0) ∧ ¬ (f > 0 ∧ st.group_id ≠ f) ∧
         ¬ (!ql.isEmpty ∧ !(str_contains (to_lower_ascii st.name) ql)) ∧
         ¬ (use_min = true ∧ (average_subjects_for_student_double data st.id < 0 ∨
           average_subjects_for_student_double data st.id < m)))
      then acc ++ [{ student := st, avg := average_subjects_for_student_double data st.id }]
      else acc := by
  unfold filter_students_step_double
  by_cases h1 : f = -1 ∧ st.group_id ≠ 0
  · rw [if_pos h1, if_neg (fun h => h.1 h1)]
  · rw [if_neg h1]
    by_cases h2 : f > 0 ∧ st.group_id ≠ f
    · rw [if_pos h2, if_neg (fun h => h.2.1 h2)]
    · rw [if_neg h2]
      by_cases h3 : (!ql.isEmpty ∧ !(str_contains (to_lower_ascii st.name) ql))
      · rw [if_pos h3, if_neg (fun h => h.2.2.1 h3)]
      · rw [if_neg h3]
        simp only
        by_cases h4 : use_min = true ∧ (average_subjects_for_student_double data st.id < 0 ∨
            average_subjects_for_student_double data st.id < m)
        · rw [if_pos h4, if_neg (fun h => h.2.2.2 h4)]
        · rw [if_neg h4, if_pos ⟨h1, h2, h3, h4⟩]

theorem filter_students_double_foldl (data : DataStore) (f : Int) (ql : CppString)
    (use_min : Bool) (m : ℚ) (l : List Student) (acc : List StudentResult) :
    l.foldl (filter_students_step_double data f ql use_min m) acc =
      acc ++ (l.filter (fun st => decide
        (¬ (f = -1 ∧ st.group_id ≠ 0) ∧ ¬ (f > 0 ∧ st.group_id ≠ f) ∧
         ¬ (!ql.isEmpty ∧ !(str_contains (to_lower_ascii st.name) ql)) ∧
         ¬ (use_min = true ∧ (average_subjects_for_student_double data st.id < 0 ∨
           average_subjects_for_student_double data st.id < m))))).map
        (fun st => { student := st, avg := average_subjects_for_student_double data st.id }) := by
  induction l generalizing acc with
  | nil => simp
  | cons st l ih =>
    rw [List.foldl_cons, ih, List.filter_cons, filter_students_step_double_eq]
    split_ifs with h h' h'
    · simp
    · exact absurd (decide_eq_true h) h'
    · exact absurd (of_decide_eq_true h') h
    · rfl

/-- The claim as stated fails in four ways: the query is trimmed before it is matched
(the query " a" finds the student "ba"); a group filter below -1 filters nothing; with
a negative grade value a defined average is negative and is rejected even by a lower
minimum; and two grades of value 2147483647 add up, in `int`, to -2, so that the
average is negative again. -/
theorem C11_counterexample :
    filter_students_double query_store 0 [0x20, 0x61] false 0
      ≠ filter_expected query_store 0 [0x20, 0x61] false 0 ∧
    filter_students_double query_store (-2) [] false 0
      ≠ filter_expected query_store (-2) [] false 0 ∧
    (filter_students_double negative_store 0 [] true (-5) = [] ∧
      (filter_expected negative_store 0 [] true (-5)).map (fun r => r.student.id) = [1]) ∧
    (filter_students_double overflow_store 0 [] true (-5) = [] ∧
      (filter_expected overflow_store 0 [] true (-5)).map (fun r => r.student.id) = [1]) := by
  refine ⟨?_, ?_, ⟨?_, ?_⟩, ⟨?_, ?_⟩⟩
  · with_unfolding_all decide
  · with_unfolding_all decide
  · with_unfolding_all decide
  · with_unfolding_all decide
  · with_unfolding_all decide
  · with_unfolding_all decide

/-- Claim C11, amended. In a store whose grade values are not negative and add up to at
most 2147483647, with at most 2147483647 grades, and for a group filter `f ≥ -1`,
`filter_students` returns, in the order of the student list, exactly the students that
satisfy the three conditions, the name condition being taken for the query with the
white space at its ends removed (a query that is empty after trimming matches every
student) and the minimum being compared with the overall average as the program
computes it in `double` arithmetic; each entry carries that average. -/
theorem C11_filter_students (data : DataStore) (f : Int) (q : CppString) (use_min : Bool)
    (m : ℚ) (hf : -1 ≤ f) (hval : ∀ g ∈ data.grades, 0 ≤ g.value)
    (hsum : (data.grades.map Grade.value).sum ≤ 2147483647)
    (hlen : data.grades.length ≤ 2147483647) :
    filter_students_double data f q use_min m = filter_expected data f (trim q) use_min m := by
  unfold filter_students_double filter_expected
  rw [filter_students_double_foldl, List.nil_append]
  congr 1
  apply List.filter_congr
  intro st _
  apply decide_eq_decide.2
  unfold filter_conditions
  have havg : (0 ≤ average_subjects_for_student_double data st.id) ↔
      ∃ g ∈ data.grades, g.student_id = st.id := by
    constructor
    · intro h
      by_contra hno
      rw [average_double_of_no_grades data st.id hno] at h
      norm_num at h
    · exact average_double_nonneg data st.id hval hsum hlen
  have hq : (¬ (!(to_lower_ascii (trim q)).isEmpty ∧
      !(str_contains (to_lower_ascii st.name) (to_lower_ascii (trim q))))) ↔
      (to_lower_ascii (trim q) <:+: to_lower_ascii st.name) := by
    unfold str_contains
    constructor
    · intro h
      by_cases he : to_lower_ascii (trim q) = []
      · rw [he]; exact List.nil_infix
      · by_contra hn
        apply h
        simp [he, hn]
    · intro h hn
      simp [h] at hn
  have hgroup : (¬ (f = -1 ∧ st.group_id ≠ 0) ∧ ¬ (f > 0 ∧ st.group_id ≠ f)) ↔
      (f = 0 ∨ (f = -1 ∧ st.group_id = 0) ∨ (0 < f ∧ st.group_id = f)) := by
    constructor <;> intro h <;> omega
  have hmin : (¬ (use_min = true ∧ (average_subjects_for_student_double data st.id < 0 ∨
      average_subjects_for_student_double data st.id < m))) ↔
      (use_min = true → (∃ g ∈ data.grades, g.student_id = st.id) ∧
        m ≤ average_subjects_for_student_double data st.id) := by
    rw [← havg]
    constructor
    · intro h hu
      constructor
      · by_contra hc
        exact h ⟨hu, Or.inl (not_le.1 hc)⟩
      · by_contra hc
        exact h ⟨hu, Or.inr (not_le.1 hc)⟩
    · rintro h ⟨hu, hlt⟩
      obtain ⟨h1, h2⟩ := h hu
      rcases hlt with hlt | hlt
      · exact absurd h1 (not_le.2 hlt)
      · exact absurd h2 (not_le.2 hlt)
  rw [← and_assoc]
  exact and_congr hgroup (and_congr hq hmin)

/-- Witness of C11: in `threshold_store`, with the group filter 1 and the minimum 4 in
use, only student 2 is returned: student 1, whose subject means 4, 13/3 and 11/3 have
the exact mean 4, gets the `double` 3.9999999999999996 and is rejected, student 3 is in
another group and student 4 has no grade. -/
theorem C11_filter_students_witness :
    ((-1 : Int) ≤ 1 ∧ (∀ g ∈ threshold_store.grades, 0 ≤ g.value) ∧
      (threshold_store.grades.map Grade.value).sum ≤ 2147483647 ∧
      threshold_store.grades.length ≤ 2147483647) ∧
    (filter_students_double threshold_store 1 [] true 4).map (fun r => r.student.id) = [2] ∧
    filter_students_double threshold_store 1 [] true 4
      = filter_expected threshold_store 1 (trim []) true 4 ∧
    (average_subjects_for_student_double threshold_store 1).num = 9007199254740991 ∧
    (average_subjects_for_student_double threshold_store 1).den = 2251799813685248 := by
  have h := C11_filter_students threshold_store 1 [] true 4 (by decide) (by decide)
    (by decide) (by decide)
  refine ⟨⟨by decide, by decide, by decide, by decide⟩, ?_, h, ?_, ?_⟩
  · with_unfolding_all decide
  · with_unfolding_all decide
  · with_unfolding_all decide

/-- The `int` sum of non-negative values that add up to at most 2147483647 is exact. -/
theorem foldl_wrap_sum (l : List Int) (a : Int) (ha : 0 ≤ a) (hl : ∀ v ∈ l, 0 ≤ v)
    (hsum : a + l.sum ≤ 2147483647) :
    l.foldl (fun sum value => wrap_int32 (sum + value)) a = a + l.sum := by
  induction l generalizing a with
  | nil => simp
  | cons x xs ih =>
    have hx : 0 ≤ x := hl x (List.mem_cons_self _ _)
    have hxs : ∀ v ∈ xs, 0 ≤ v := fun v hv => hl v (List.mem_cons_of_mem _ hv)
    have hrest : 0 ≤ xs.sum := List.sum_nonneg hxs
    rw [List.sum_cons] at hsum
    rw [List.foldl_cons, wrap_int32_of_range _ (by omega) (by omega),
      ih (a + x) (by omega) hxs (by omega), List.sum_cons]
    ring

/-- What `format_avg` writes for a `double` that is not negative: a number with two
decimals, `n / 100` for a natural number `n`, at most 1/200 away from the value. -/
theorem format_avg_nonneg (d : ℚ) (hd : 0 ≤ d) :
    format_avg d = format_fixed2 d ∧
    ∃ n : Nat,
      format_fixed2 d = decimal_digits (n / 100) ++ [0x2E] ++ decimal_digits (n % 100 / 10)
        ++ decimal_digits (n % 10) ∧
      |(n : ℚ) / 100 - d| ≤ 1 / 200 := by
  refine ⟨?_, (round_half_even (d * 100)).toNat, rfl, ?_⟩
  · unfold format_avg
    rw [if_neg (not_lt.2 hd)]
  · have h0 : 0 ≤ round_half_even (d * 100) :=
      round_half_even_nonneg _ (mul_nonneg hd (by norm_num))
    have hcast : (((round_half_even (d * 100)).toNat : Nat) : ℚ)
        = (round_half_even (d * 100) : ℚ) := by
      have : (((round_half_even (d * 100)).toNat : Nat) : Int) = round_half_even (d * 100) :=
        Int.toNat_of_nonneg h0
      exact_mod_cast this
    rw [hcast]
    have herr := round_half_even_error (d * 100)
    have e : (round_half_even (d * 100) : ℚ) / 100 - d
        = ((round_half_even (d * 100) : ℚ) - d * 100) / 100 := by ring
    rw [e, abs_div, abs_of_pos (by norm_num : (0 : ℚ) < 100)]
    rw [div_le_iff₀ (by norm_num : (0 : ℚ) < 100)]
    linarith

/-- Counterexample to C19: in `negative_store` the pair (1, 1) has one grade, of value
-3; the journal row shows the attempt count 1 and the latest value -3, but the sentinel
as average, because a negative average is printed as "no value".  In `overflow_store`
the pair has two grades of value 2147483647; their sum does not fit an `int`, the
average comes out negative and the row shows the sentinel again. -/
theorem C19_counterexample :
    (((pair_grades negative_store 1 1).map Grade.attempt).Nodup ∧
      grades_for_student_subject negative_store 1 1 = [-3] ∧
      journal_by_student_row negative_store 1 { id := 1, name := [0x4D] }
        = [bytes_of "1", bytes_of "M", bytes_of "-3", kNone, bytes_of "-3", bytes_of "1"]) ∧
    (((pair_grades overflow_store 1 1).map Grade.attempt).Nodup ∧
      grades_for_student_subject overflow_store 1 1 = [2147483647, 2147483647] ∧
      journal_by_student_row overflow_store 1 { id := 1, name := [0x4D] }
        = [bytes_of "1", bytes_of "M", bytes_of "2147483647, 2147483647", kNone,
           bytes_of "2147483647", bytes_of "2"]) := by
  refine ⟨⟨by decide, by decide, ?_⟩, ⟨by decide, by decide, ?_⟩⟩
  · with_unfolding_all decide
  · with_unfolding_all decide

/-- Claim C19, amended. For a pair whose grades have pairwise distinct attempt numbers
and values that are not negative and add up to at most 2147483647,
`grades_for_student_subject` lists the values of exactly the grades of the pair in
strictly increasing attempt order (the only arrangement of them without a descent);
the by-subject and by-student journal rows built from it show the number of those
grades as attempt count, the last element of the list (the value of the grade with the
greatest attempt) as latest value, and as average the sentinel when there are no
grades and otherwise their sum divided by their number, computed as a `double` and
written with two decimals: a number at most 1/200 (and the rounding of the `double`)
away from the exact quotient. -/
theorem C19_attempt_history (data : DataStore) (s j : Int)
    (hnd : ((pair_grades data s j).map Grade.attempt).Nodup)
    (hval : ∀ g ∈ pair_grades data s j, 0 ≤ g.value)
    (hsum : ((pair_grades data s j).map Grade.value).sum ≤ 2147483647) :
    (∃ sorted : List Grade, sorted.Perm (pair_grades data s j) ∧
      sorted.Pairwise (fun a b => a.attempt < b.attempt) ∧
      grades_for_student_subject data s j = sorted.map Grade.value) ∧
    (∀ out : List Grade, out.Perm (pair_grades data s j) →
      out.Pairwise (fun a b => ¬ b.attempt < a.attempt) →
      grades_for_student_subject data s j = out.map Grade.value) ∧
    (grades_for_student_subject data s j).length = (pair_grades data s j).length ∧
    journal_history_cells (grades_for_student_subject data s j) =
      [if pair_grades data s j = [] then kNone
       else join_grades (grades_for_student_subject data s j),
       if pair_grades data s j = [] then kNone
       else format_fixed2 (round_double
         ((((pair_grades data s j).map Grade.value).sum : ℚ) /
           ((pair_grades data s j).length : ℚ))),
       (match (grades_for_student_subject data s j).getLast? with
        | none => kNone
        | some value => to_string value),
       to_string ((pair_grades data s j).length : Int)] ∧
    (pair_grades data s j ≠ [] →
      ∃ n : Nat,
        format_avg (average_from_values (grades_for_student_subject data s j)) =
          decimal_digits (n / 100) ++ [0x2E] ++ decimal_digits (n % 100 / 10)
            ++ decimal_digits (n % 10) ∧
        |(n : ℚ) / 100 - (((pair_grades data s j).map Grade.value).sum : ℚ) /
            ((pair_grades data s j).length : ℚ)| ≤
          1 / 200 + ((((pair_grades data s j).map Grade.value).sum : ℚ) /
            ((pair_grades data s j).length : ℚ) + 1) / 2 ^ 53) ∧
    (pair_grades data s j = [] →
      format_avg (average_from_values (grades_for_student_subject data s j)) = kNone ∧
      (grades_for_student_subject data s j).getLast? = none) ∧
    (∀ g ∈ pair_grades data s j, (∀ h ∈ pair_grades data s j, h.attempt ≤ g.attempt) →
      (grades_for_student_subject data s j).getLast? = some g.value) ∧
    (∀ student : Student, student.id = s →
      journal_by_subject_row data j student =
        [to_string student.id, student.name, group_name_or_none data student.group_id]
          ++ journal_history_cells (grades_for_student_subject data s j)) ∧
    (∀ subject : Subject, subject.id = j →
      journal_by_student_row data s subject =
        [to_string subject.id, subject.name]
          ++ journal_history_cells (grades_for_student_subject data s j)) := by
  obtain ⟨hperm, hsorted, huniq⟩ := sorted_pair_spec data s j hnd
  have hvals : grades_for_student_subject data s j
      = (std_sort attempt_lt (pair_grades data s j)).map Grade.value := rfl
  have hlen : (grades_for_student_subject data s j).length = (pair_grades data s j).length := by
    rw [hvals, List.length_map, hperm.length_eq]
  have hnil : grades_for_student_subject data s j = [] ↔ pair_grades data s j = [] := by
    rw [← List.length_eq_zero, hlen, List.length_eq_zero]
  have hempty : (grades_for_student_subject data s j).isEmpty = true ↔
      pair_grades data s j = [] := by
    rw [List.isEmpty_iff]; exact hnil
  have hsumeq : (grades_for_student_subject data s j).sum
      = ((pair_grades data s j).map Grade.value).sum := by
    rw [hvals, (hperm.map Grade.value).sum_eq]
  have hnonneg : ∀ v ∈ grades_for_student_subject data s j, 0 ≤ v := by
    intro v hv
    rw [hvals] at hv
    obtain ⟨g, hg, rfl⟩ := List.mem_map.1 hv
    exact hval g (hperm.subset hg)
  have hq : (0 : ℚ) ≤ (((pair_grades data s j).map Grade.value).sum : ℚ) /
      ((pair_grades data s j).length : ℚ) := by
    apply div_nonneg
    · have : 0 ≤ ((pair_grades data s j).map Grade.value).sum := by
        rw [← hsumeq]; exact List.sum_nonneg hnonneg
      exact_mod_cast this
    · exact Nat.cast_nonneg _
  have havg : pair_grades data s j ≠ [] →
      average_from_values (grades_for_student_subject data s j) =
        round_double ((((pair_grades data s j).map Grade.value).sum : ℚ) /
          ((pair_grades data s j).length : ℚ)) := by
    intro hne
    unfold average_from_values
    rw [if_neg (fun he => hne (hempty.1 he)),
      foldl_wrap_sum _ 0 (le_refl 0) hnonneg (by rw [zero_add, hsumeq]; exact hsum),
      zero_add, hsumeq, hlen]
  have havg0 : pair_grades data s j = [] →
      average_from_values (grades_for_student_subject data s j) = -1 := by
    intro he
    unfold average_from_values
    rw [if_pos (hempty.2 he)]
  refine ⟨⟨_, hperm, hsorted, hvals⟩, ?_, hlen, ?_, ?_, ?_, ?_, ?_, ?_⟩
  · intro out hp hs
    rw [hvals, huniq out hp hs]
  · unfold journal_history_cells
    by_cases h : pair_grades data s j = []
    · simp only [hempty.2 h, if_pos h, if_true, hlen, havg0 h]
      rfl
    · have he : ¬ (grades_for_student_subject data s j).isEmpty = true :=
        fun he => h (hempty.1 he)
      simp only [he, h, if_false, hlen, havg h,
        (format_avg_nonneg _ (round_double_nonneg _ hq)).1]
      rfl
  · intro hne
    obtain ⟨h1, n, h2, h3⟩ := format_avg_nonneg _ (round_double_nonneg _ hq)
    refine ⟨n, ?_, ?_⟩
    · rw [havg hne, h1, h2]
    · have herr := round_double_error ((((pair_grades data s j).map Grade.value).sum : ℚ) /
        ((pair_grades data s j).length : ℚ))
      rw [abs_of_nonneg hq] at herr
      have htri := abs_sub_le ((n : ℚ) / 100)
        (round_double ((((pair_grades data s j).map Grade.value).sum : ℚ) /
          ((pair_grades data s j).length : ℚ)))
        ((((pair_grades data s j).map Grade.value).sum : ℚ) /
          ((pair_grades data s j).length : ℚ))
      linarith
  · intro he
    refine ⟨?_, ?_⟩
    · rw [havg0 he]; rfl
    · rw [hnil.2 he]; rfl
  · intro g hg hmax
    exact history_last data s j hnd g hg hmax
  · intro student hid
    simp [journal_by_subject_row, hid]
  · intro subject hid
    simp [journal_by_student_row, hid]

set_option maxRecDepth 20000 in
/-- Witness of C19: in the worked example the pair (1, 1) has the history 2, 4 and the
row of subject 1 in the journal of student 1 reads 1, A, "2, 4", 3.00, 4, 2; in
`forty_store` the average 43/40 = 1.075 is shown as 1.07, because the nearest `double`
lies below 1.075. -/
theorem C19_attempt_history_witness :
    (((pair_grades example_store 1 1).map Grade.attempt).Nodup ∧
      (∀ g ∈ pair_grades example_store 1 1, 0 ≤ g.value) ∧
      ((pair_grades example_store 1 1).map Grade.value).sum ≤ 2147483647) ∧
    grades_for_student_subject example_store 1 1 = [2, 4] ∧
    journal_by_student_row example_store 1 { id := 1, name := [0x41] }
      = [bytes_of "1", bytes_of "A", bytes_of "2, 4", bytes_of "3.00", bytes_of "4",
         bytes_of "2"] ∧
    (journal_by_student_row forty_store 1 { id := 1, name := [0x41] }).drop 3
      = [bytes_of "1.07", bytes_of "1", bytes_of "40"] ∧
    (grades_for_student_subject example_store 1 1).getLast? = some 4 := by
  have h := C19_attempt_history example_store 1 1 (by decide) (by decide) (by decide)
  refine ⟨⟨by decide, by decide, by decide⟩, by decide, ?_, ?_, ?_⟩
  · with_unfolding_all decide
  · with_unfolding_all decide
  · exact h.2.2.2.2.2.2.1
      { id := 3, student_id := 1, subject_id := 1, value := 4, attempt := 2 }
      (by decide) (by decide)

/-- Counterexample to C23: in `equal_values_store` (values in [1,5]) student 1 has two
grades in subject 1 and one grade in subject 2, and the overall average equals the flat
mean (both are 3); in `three_subject_store` the three subject means 2, 4 and 3 are
pairwise different, the numbers of attempts are 1, 1 and 2, and again both are 3.  All
the quotients and sums are exact in `double` arithmetic, where the averages are 3 as
well. -/
theorem C23_counterexample :
    ((∀ g ∈ equal_values_store.grades, 1 ≤ g.value ∧ g.value ≤ 5) ∧
      (pair_grades equal_values_store 1 1).length = 2 ∧
      (pair_grades equal_values_store 1 2).length = 1 ∧
      average_subjects_for_student equal_values_store 1 = 3 ∧
      average_subjects_for_student_double equal_values_store 1 = 3 ∧
      flat_mean equal_values_store 1 = 3) ∧
    ((∀ g ∈ three_subject_store.grades, 1 ≤ g.value ∧ g.value ≤ 5) ∧
      (pair_grades three_subject_store 1 1).length = 1 ∧
      (pair_grades three_subject_store 1 3).length = 2 ∧
      subject_mean three_subject_store 1 1 = 2 ∧
      subject_mean three_subject_store 1 2 = 4 ∧
      subject_mean three_subject_store 1 3 = 3 ∧
      average_subjects_for_student three_subject_store 1 = 3 ∧
      average_subjects_for_student_double three_subject_store 1 = 3 ∧
      flat_mean three_subject_store 1 = 3) := by
  refine ⟨⟨by decide, by decide, by decide, ?_, ?_, ?_⟩,
    ⟨by decide, by decide, by decide, ?_, ?_, ?_, ?_, ?_, ?_⟩⟩
  all_goals with_unfolding_all decide

/-- Claim C23, amended. In exact rational arithmetic, for a student whose grades belong
to exactly two subjects, the overall average that `average_subjects_for_student`
computes (the mean of the two subject means) differs from the flat mean of all of the
student's grade values exactly when the two subjects have different numbers of attempts
and different subject means. -/
theorem C23_average_vs_flat_mean (data : DataStore) (s j1 j2 : Int) (hne : j1 ≠ j2)
    (h1 : pair_grades data s j1 ≠ []) (h2 : pair_grades data s j2 ≠ [])
    (hall : ∀ g ∈ data.grades, g.student_id = s → g.subject_id = j1 ∨ g.subject_id = j2) :
    average_subjects_for_student data s ≠ flat_mean data s ↔
      ((pair_grades data s j1).length ≠ (pair_grades data s j2).length ∧
        subject_mean data s j1 ≠ subject_mean data s j2) := by
  obtain ⟨ha, hf⟩ := two_subject_means data s j1 j2 hne h1 h2 hall
  have p1 : (0 : ℚ) < ((pair_grades data s j1).length : ℚ) := by
    exact_mod_cast List.length_pos.2 h1
  have p2 : (0 : ℚ) < ((pair_grades data s j2).length : ℚ) := by
    exact_mod_cast List.length_pos.2 h2
  have hiff := mean_of_means_eq_iff
    (((pair_grades data s j1).map Grade.value).sum : ℚ)
    (((pair_grades data s j2).map Grade.value).sum : ℚ) _ _ p1 p2
  rw [ha, hf]
  unfold subject_mean
  rw [Ne, hiff, not_or]
  constructor
  · rintro ⟨hn, hm⟩
    exact ⟨fun e => hn (by exact_mod_cast e), hm⟩
  · rintro ⟨hn, hm⟩
    exact ⟨fun e => hn (by exact_mod_cast e), hm⟩

/-- Witness of C23 (amended): in the worked example the subjects 1 and 2 have 2 and 1
attempts and the means 3 and 5; the overall average 4 differs from the flat mean. -/
theorem C23_average_vs_flat_mean_witness :
    average_subjects_for_student example_store 1 ≠ flat_mean example_store 1 := by
  refine (C23_average_vs_flat_mean example_store 1 1 2 (by decide) (by decide) (by decide)
    (by decide)).2 ⟨by decide, ?_⟩
  with_unfolding_all decide

/-- Every store that `load_data` builds has counters of at least 1. -/
theorem load_data_counters_positive (groups : List Group) (students : List Student)
    (subjects : List Subject) (grades : List Grade) :
    counters_positive (load_data groups students subjects grades) := by
  intro k
  cases k <;>
    · simp only [counter_of, load_data, next_id_from]
      exact lt_of_lt_of_le (by norm_num) (le_max_left _ _)

/-- Claim C8, amended. From a store in which every id of a collection is positive and
smaller than that collection's next-id counter, every counter is at least 1 (as in the
empty store and in every store that `load_data` builds) and every counter leaves room
for `n` operations below 2147483647, the largest value of `int`: in every sequence of at
most `n` operations each create returns a positive id strictly greater than every id
the collection held or was assigned before in the run; pairwise distinct ids stay
pairwise distinct, and the bounds on ids and counters hold again after the run. -/
theorem C8_fresh_ids (data : DataStore) (n : Nat)
    (hids : ids_below_counters data) (hpos : counters_positive data)
    (hroom : ∀ k, counter_of k data + n ≤ 2147483647) :
    fresh_ids_int32 data n ∧
    (∀ ops k, ops.length ≤ n → (ids_of k data).Nodup →
      (ids_of k (run_int32 data ops).1).Nodup) ∧
    (∀ ops, ops.length ≤ n →
      ids_below_counters (run_int32 data ops).1 ∧ counters_positive (run_int32 data ops).1 ∧
      ∀ k, counter_of k (run_int32 data ops).1 ≤ 2147483647) ∧
    counters_positive DataStore.empty ∧
    (∀ groups students subjects grades,
      counters_positive (load_data groups students subjects grades)) := by
  refine ⟨fresh_ids_int32_of_room data n hids hpos hroom, ?_, ?_, ?_,
    load_data_counters_positive⟩
  · intro ops k hlen hnd
    exact run_int32_nodup ops k data hids hpos (room_of_shorter_run data n ops hroom hlen) hnd
  · intro ops hlen
    obtain ⟨b1, b2, b3⟩ := run_int32_bounds ops data hids hpos
      (room_of_shorter_run data n ops hroom hlen)
    refine ⟨b1, b2, ?_⟩
    intro k
    have := (b3 k).2
    have := room_of_shorter_run data n ops hroom hlen k
    omega
  · intro k
    cases k <;> decide

/-- Witness of C8 on the empty store: after creating and deleting student 1 the next
student gets the id 2. -/
theorem C8_fresh_ids_witness :
    ids_below_counters DataStore.empty ∧ counters_positive DataStore.empty ∧
    (∀ k, counter_of k DataStore.empty + (3 : Nat) ≤ 2147483647) ∧
    fresh_ids_int32 DataStore.empty 3 ∧
    (exec_int32 (run_int32 DataStore.empty [Op.create_student [] 0, Op.delete_student 1]).1
      (Op.create_student [] 0)).2 = Report.created 2 := by
  have h1 : ids_below_counters DataStore.empty := by
    intro k x hx
    cases k <;> simp [ids_of, DataStore.empty] at hx
  have h2 : counters_positive DataStore.empty := by
    intro k
    cases k <;> decide
  have h3 : ∀ k, counter_of k DataStore.empty + (3 : Nat) ≤ 2147483647 := by
    intro k
    cases k <;> decide
  exact ⟨h1, h2, h3, (C8_fresh_ids DataStore.empty 3 h1 h2 h3).1, by decide⟩

end Gradebook
